import Mathlib

/-!
biscuit, `lib/aln/bwa.c`: scoring matrices and CIGAR / NM / MD generation.

A shallow embedding of the C code.

Conventions of the embedding.

* `int` and `int64_t` values are `Int`, array indices and unsigned values are `Nat`.
  A conversion to a narrower signed type is written out (`int8`, `int32`), and so is
  the store of a packed operation into a `uint32_t` (`uint32`).  Signed arithmetic is
  the arithmetic of `Int`: the C standard gives no meaning to an execution in which a
  signed operation overflows.
* A buffer is a `List`; reading a cell is `List.getD` (default `0`), so a read outside
  the buffer, which C leaves undefined, reads `0`.
* An output pointer that may be null (`n_cigar`, `NM`) is a `Bool` argument saying
  whether the pointer is set, and an `Option` field in the result holding what the
  routine stored through it.
* `bns_get_seq` (bntseq.c) and `ksw_global2` (ksw.c) are not part of this file's
  source; the two routines take them as arguments.  The window returned by the
  accessor is a list and `rlen` is its length.
-/

namespace Bwa

/-! ## Machine integers -/

/-- Conversion of an integer to `int8_t` (two's complement). -/
def int8 (x : Int) : Int := (x + 128) % 256 - 128

/-- Conversion of an integer to `int` (32 bits, two's complement). -/
def int32 (x : Int) : Int := (x + 2 ^ 31) % 2 ^ 32 - 2 ^ 31

/-- What a `uint32_t` holds after the store of a non-negative value: the value modulo
`2^32`. -/
def uint32 (x : Nat) : Nat := x % 2 ^ 32

/-! ## Scoring matrices -/

/-- `bwa_fill_scmat`: the cells are written one after the other, `mat[k++] = v`,
starting at `k = 0`; the list is the sequence of cells written. -/
def bwa_fill_scmat (a b : Int) : List Int :=
  let mat := (List.range 4).foldl (fun mat i =>
    ((List.range 4).foldl (fun mat j =>
      mat ++ [int8 (if i = j then a else -b)]) mat) ++ [int8 (-1)]) []
  (List.range 5).foldl (fun mat _ => mat ++ [int8 (-1)]) mat

/-- `bwa_fill_scmat_ct`: the C>T asymmetric matrix. -/
def bwa_fill_scmat_ct (a b : Int) : List Int :=
  let mat := (List.range 4).foldl (fun mat i =>
    ((List.range 4).foldl (fun mat j =>
      if i = 1 ∧ j = 3 then mat ++ [int8 a]
      else mat ++ [int8 (if i = j then a else -b)]) mat) ++ [int8 (-1)]) []
  (List.range 5).foldl (fun mat _ => mat ++ [int8 (-1)]) mat

/-- `bwa_fill_scmat_ga`: the G>A asymmetric matrix. -/
def bwa_fill_scmat_ga (a b : Int) : List Int :=
  let mat := (List.range 4).foldl (fun mat i =>
    ((List.range 4).foldl (fun mat j =>
      if i = 2 ∧ j = 0 then mat ++ [int8 a]
      else mat ++ [int8 (if i = j then a else -b)]) mat) ++ [int8 (-1)]) []
  (List.range 5).foldl (fun mat _ => mat ++ [int8 (-1)]) mat

/-! ## Collaborators that are not in `bwa.c` -/

/-- The reference accessor `bns_get_seq(l_pac, pac, beg, end, &len)`: the decoded
window; `len` is the length of the list. -/
abbrev Accessor := Int → List Nat → Int → Int → List Nat

/-- The global aligner
`ksw_global2(qlen, query, tlen, target, m, mat, o_del, e_del, o_ins, e_ins, w, &n_cigar, &cigar)`:
the score it returns and the packed operations it stores. -/
abbrev Aligner :=
  Int → List Nat → Int → List Nat → Int → List Int → Int → Int → Int → Int → Int → Int × List Nat

/-- Modelled from the spec: the macro `_get_pac` of bntseq.h is not under src/; the
packed reference holds 2 bits per base, four bases to a byte, the first base in the
two high bits. -/
def get_pac (pac : List Nat) (l : Nat) : Nat :=
  (pac.getD (l >>> 2) 0 >>> ((3 - l % 4) <<< 1)) &&& 3

/-- Modelled from the spec: `bns_get_seq` of bntseq.c is not under src/.  It decodes
the half-open range `[beg, end)` of the forward strand followed by its reverse
complement (`2 * l_pac` bases), clips the range to that extent, and returns nothing
for a range that bridges the boundary at `l_pac`. -/
def bns_get_seq : Accessor := fun l_pac pac beg end_ =>
  let b0 := if end_ < beg then end_ else beg
  let e0 := if end_ < beg then beg else end_
  let e1 := if e0 > 2 * l_pac then 2 * l_pac else e0
  let b1 := if b0 < 0 then 0 else b0
  if b1 ≥ l_pac ∨ e1 ≤ l_pac then
    if b1 ≥ l_pac then
      (List.range (e1 - b1).toNat).map
        (fun j => 3 - get_pac pac (2 * l_pac - 1 - b1 - (j : Int)).toNat)
    else
      (List.range (e1 - b1).toNat).map (fun j => get_pac pac (b1 + (j : Int)).toNat)
  else []

/-- The digits of `kputw`, in the order its `do ... while (x > 0)` loop stores them in
`buf` (least significant first).  The first argument bounds the number of rounds; `x`
rounds are always enough. -/
def kputw_buf : Nat → Nat → List Char
  | 0, x => [Char.ofNat (x % 10 + 48)]
  | f + 1, x =>
    Char.ofNat (x % 10 + 48) :: (if x / 10 > 0 then kputw_buf f (x / 10) else [])

/-- Modelled from the spec: `kputw` of kstring.h is not under src/; it appends the
decimal digits of an `int` (after a minus sign when negative).  The value is the list
of characters appended. -/
def kputw (c : Int) : List Char :=
  (kputw_buf c.natAbs c.natAbs ++ (if c < 0 then ['-'] else [])).reverse

/-- The NUL character. -/
def nul : Char := Char.ofNat 0

/-! ## CIGAR words -/

/-- `cigar[k] & 0xf`. -/
def cigar_op (w : Nat) : Nat := w &&& 0xf

/-- `cigar[k] >> 4`. -/
def cigar_len (w : Nat) : Nat := w >>> 4

/-! ## In-place reversal -/

/-- `for (i = 0; i < l>>1; ++i) tmp = a[i], a[i] = a[l-1-i], a[l-1-i] = tmp;` -/
def reverse_inplace (l : Nat) (a : List Nat) : List Nat :=
  (List.range (l >>> 1)).foldl (fun a i =>
    let tmp := a.getD i 0
    (a.set i (a.getD (l - 1 - i) 0)).set (l - 1 - i) tmp) a

/-! ## The NM / MD pass -/

/-- The local variables of the NM / MD pass.  `str` holds the bytes appended after the
packed operations (the operations themselves, with which the C buffer starts, are
never rewritten).  `n_conv` and `n_ret` exist only in the bisulfite routine. -/
structure NMState where
  str : List Char
  x : Nat
  y : Nat
  u : Int
  n_mm : Int
  n_gap : Int
  n_conv : Int
  n_ret : Int
deriving DecidableEq, Repr

/-- The state before the first operation. -/
def NMState.init : NMState :=
  { str := [], x := 0, y := 0, u := 0, n_mm := 0, n_gap := 0, n_conv := 0, n_ret := 0 }

/-- Body of the match loop of `bwa_gen_cigar2` at offset `i` of the block. -/
def match_pos (query rseq : List Nat) (int2base : List Char) (s : NMState) (i : Nat) :
    NMState :=
  if query.getD (s.x + i) 0 ≠ rseq.getD (s.y + i) 0 then
    { s with
      str := s.str ++ kputw s.u ++ [int2base.getD (rseq.getD (s.y + i) 0) nul]
      n_mm := s.n_mm + 1
      u := 0 }
  else { s with u := s.u + 1 }

/-- Body of the match loop of `bis_bwa_gen_cigar2` at offset `i` of the block. -/
def bis_match_pos (parent : Nat) (query rseq : List Nat) (int2base : List Char)
    (s : NMState) (i : Nat) : NMState :=
  let q := query.getD (s.x + i) 0
  let r := rseq.getD (s.y + i) 0
  if q = r then
    let s1 := if parent ≠ 0 ∧ q = 1 then { s with n_ret := s.n_ret + 1 } else s
    let s2 := if parent = 0 ∧ q = 2 then { s1 with n_ret := s1.n_ret + 1 } else s1
    { s2 with u := s2.u + 1 }
  else if parent ≠ 0 ∧ q = 3 ∧ r = 1 then
    { s with n_conv := s.n_conv + 1, u := s.u + 1 }
  else if parent = 0 ∧ q = 0 ∧ r = 2 then
    { s with n_conv := s.n_conv + 1, u := s.u + 1 }
  else
    { s with
      str := s.str ++ kputw s.u ++ [int2base.getD r nul]
      n_mm := s.n_mm + 1
      u := 0 }

/-- The deletion branch for operation `k` of `n_cigar`, of length `len`. -/
def del_block (rseq : List Nat) (int2base : List Char) (n_cigar : Int) (k len : Nat)
    (s : NMState) : NMState :=
  let s3 :=
    if k > 0 ∧ (k : Int) < n_cigar - 1 then
      let s1 := { s with str := s.str ++ kputw s.u ++ ['^'] }
      let s2 := (List.range len).foldl (fun t i =>
        { t with str := t.str ++ [int2base.getD (rseq.getD (t.y + i) 0) nul] }) s1
      { s2 with u := 0, n_gap := s2.n_gap + len }
    else s
  { s3 with y := s3.y + len }

/-- One round of the loop over the operations: operation `k`, packed word `w`.  The
argument `mp` is the body of the match loop (`match_pos` or `bis_match_pos`). -/
def nm_step (mp : NMState → Nat → NMState) (rseq : List Nat) (int2base : List Char)
    (n_cigar : Int) (s : NMState) (k w : Nat) : NMState :=
  let op := cigar_op w
  let len := cigar_len w
  if op = 0 then
    let s1 := (List.range len).foldl mp s
    { s1 with x := s1.x + len, y := s1.y + len }
  else if op = 2 then del_block rseq int2base n_cigar k len s
  else if op = 1 then { s with x := s.x + len, n_gap := s.n_gap + len }
  else s

/-- The loop `for (k = ...; k < *n_cigar; ++k)`, from operation `k` on; the list holds
the words `cigar[k], cigar[k+1], ...`. -/
def nm_loop (mp : NMState → Nat → NMState) (rseq : List Nat) (int2base : List Char)
    (n_cigar : Int) : Nat → List Nat → NMState → NMState
  | _, [], s => s
  | k, w :: ws, s =>
    nm_loop mp rseq int2base n_cigar (k + 1) ws (nm_step mp rseq int2base n_cigar s k w)

/-- The whole pass: the loop, then `kputw(u, &str); kputc(0, &str);`. -/
def nm_pass (mp : NMState → Nat → NMState) (rseq : List Nat) (int2base : List Char)
    (cigar : List Nat) : NMState :=
  let s := nm_loop mp rseq int2base (cigar.length : Int) 0 cigar NMState.init
  { s with str := s.str ++ kputw s.u ++ [nul] }

/-- `int2base = rb < l_pac ? "ACGTN" : "TGCAN"`. -/
def int2base (rb l_pac : Int) : List Char :=
  if rb < l_pac then ['A', 'C', 'G', 'T', 'N'] else ['T', 'G', 'C', 'A', 'N']

/-! ## Alignment -/

/-- `(int)` of a `double`, the double taken as the exact quotient. -/
def trunc_double (q : ℚ) : Int := if 0 ≤ q then ⌊q⌋ else ⌈q⌉

/-- The band width handed to `ksw_global2`. -/
def band_width (mat : List Int) (o_del e_del o_ins e_ins w_ : Int) (l_query rlen : Int) :
    Int :=
  let max_ins := trunc_double
    (((((l_query + 1) >>> 1) * mat.getD 0 0 - o_ins : Int) : ℚ) / (e_ins : ℚ) + 1)
  let max_del := trunc_double
    (((((l_query + 1) >>> 1) * mat.getD 0 0 - o_del : Int) : ℚ) / (e_del : ℚ) + 1)
  let max_gap := if max_ins > max_del then max_ins else max_del
  let max_gap1 := if max_gap > 1 then max_gap else 1
  let w := (max_gap1 + |int32 (rlen - l_query)| + 1) >>> 1
  let w1 := if w < w_ then w else w_
  let min_w := |int32 (rlen - l_query)| + 3
  if w1 > min_w then w1 else min_w

/-- The loop `for (i = 0, *score = 0; i < l_query; ++i) *score += mat[rseq[i]*5 + query[i]]`. -/
def fast_score (mat : List Int) (l_query : Nat) (query rseq : List Nat) : Int :=
  (List.range l_query).foldl
    (fun score i => score + mat.getD (rseq.getD i 0 * 5 + query.getD i 0) 0) 0

/-- What a call leaves behind: the returned pointer (`none` is the null pointer, `some`
the packed operations), the bytes appended after the operations, the values stored
through `n_cigar`, `NM`, `score`, `ZC`, `ZR` (`none`: nothing was stored), and the
caller's query buffer after the call. -/
structure GenCigar where
  cigar : Option (List Nat)
  md : List Char
  n_cigar : Option Int
  NM : Option Int
  score : Option Int
  ZC : Option Int
  ZR : Option Int
  query : List Nat
deriving DecidableEq, Repr

/-- The alignment branch shared by both routines (lines 175-202 and 284-315): the
returned operations, the value stored in `*n_cigar`, and the score.  In
`cigar[0] = l_query<<4 | 0` the right-hand side is an `int` expression (here
`l_query > 0`) and `cigar[0]` is a `uint32_t`: the word holds the value modulo `2^32`,
so the length it carries is `l_query` modulo `2^28`. -/
def gen_cigar_align (ksw_global2 : Aligner) (mat : List Int)
    (o_del e_del o_ins e_ins w_ : Int) (l_query : Int) (query : List Nat) (rb re : Int)
    (rseq : List Nat) (rlen : Int) (n_cigar : Bool) : Option (List Nat) × Option Int × Int :=
  if l_query = re - rb ∧ w_ = 0 then
    (if n_cigar then some [uint32 (l_query.toNat <<< 4 ||| 0)] else none,
     if n_cigar then some 1 else none,
     fast_score mat l_query.toNat query rseq)
  else
    let w := band_width mat o_del e_del o_ins e_ins w_ l_query rlen
    let r := ksw_global2 l_query query rlen rseq 5 mat o_del e_del o_ins e_ins w
    (if n_cigar then some r.2 else none,
     if n_cigar then some (r.2.length : Int) else none,
     r.1)

/-- `bwa_gen_cigar2`.  `n_cigar` and `NM` say whether those pointers are set. -/
def bwa_gen_cigar2 (fetch : Accessor) (ksw_global2 : Aligner) (mat : List Int)
    (o_del e_del o_ins e_ins w_ : Int) (l_pac : Int) (pac : List Nat) (l_query : Int)
    (query : List Nat) (rb re : Int) (n_cigar NM : Bool) : GenCigar :=
  let rej : GenCigar :=
    { cigar := none, md := [], n_cigar := if n_cigar then some 0 else none,
      NM := if NM then some (-1) else none, score := none, ZC := none, ZR := none,
      query := query }
  if l_query ≤ 0 ∨ rb ≥ re ∨ (rb < l_pac ∧ re > l_pac) then rej
  else
    let rseq0 := fetch l_pac pac rb re
    let rlen : Int := rseq0.length
    if re - rb ≠ rlen then rej
    else
      let query1 := if rb ≥ l_pac then reverse_inplace l_query.toNat query else query
      let rseq := if rb ≥ l_pac then reverse_inplace rseq0.length rseq0 else rseq0
      let al := gen_cigar_align ksw_global2 mat o_del e_del o_ins e_ins w_ l_query query1
        rb re rseq rlen n_cigar
      let query2 := if rb ≥ l_pac then reverse_inplace l_query.toNat query1 else query1
      if NM ∧ n_cigar then
        let s := nm_pass (match_pos query1 rseq (int2base rb l_pac)) rseq
          (int2base rb l_pac) (al.1.getD [])
        { cigar := some (al.1.getD []), md := s.str, n_cigar := al.2.1,
          NM := some (s.n_mm + s.n_gap), score := some al.2.2, ZC := none, ZR := none,
          query := query2 }
      else
        { cigar := al.1, md := [], n_cigar := al.2.1,
          NM := if NM then some (-1) else none, score := some al.2.2, ZC := none,
          ZR := none, query := query2 }

/-- `bis_bwa_gen_cigar2`.  `n_cigar` and `NM` say whether those pointers are set; `ZC`
and `ZR` are written whenever the NM / MD pass runs. -/
def bis_bwa_gen_cigar2 (fetch : Accessor) (ksw_global2 : Aligner) (mat : List Int)
    (o_del e_del o_ins e_ins w_ : Int) (l_pac : Int) (pac : List Nat) (l_query : Int)
    (query : List Nat) (rb re : Int) (n_cigar NM : Bool) (parent : Nat) : GenCigar :=
  let rej : GenCigar :=
    { cigar := none, md := [], n_cigar := if n_cigar then some 0 else none,
      NM := if NM then some (-1) else none, score := none, ZC := none, ZR := none,
      query := query }
  if l_query ≤ 0 ∨ rb ≥ re ∨ (rb < l_pac ∧ re > l_pac) then rej
  else
    let rseq0 := fetch l_pac pac rb re
    let rlen : Int := rseq0.length
    if re - rb ≠ rlen then rej
    else
      let query1 := if rb ≥ l_pac then reverse_inplace l_query.toNat query else query
      let rseq := if rb ≥ l_pac then reverse_inplace rseq0.length rseq0 else rseq0
      let al := gen_cigar_align ksw_global2 mat o_del e_del o_ins e_ins w_ l_query query1
        rb re rseq rlen n_cigar
      let query2 := if rb ≥ l_pac then reverse_inplace l_query.toNat query1 else query1
      if NM ∧ n_cigar then
        let s := nm_pass (bis_match_pos parent query1 rseq (int2base rb l_pac)) rseq
          (int2base rb l_pac) (al.1.getD [])
        { cigar := some (al.1.getD []), md := s.str, n_cigar := al.2.1,
          NM := some (s.n_mm + s.n_gap), score := some al.2.2, ZC := some s.n_conv,
          ZR := some s.n_ret, query := query2 }
      else
        { cigar := al.1, md := [], n_cigar := al.2.1,
          NM := if NM then some (-1) else none, score := some al.2.2, ZC := none,
          ZR := none, query := query2 }

/-- An aligner for the examples that take the fast path, on which the aligner is not
called. -/
def no_aligner : Aligner := fun _ _ _ _ _ _ _ _ _ _ _ => (0, [])

/-- The cells after the first `n` swaps of the reversal loop. -/
def swaps (l : Nat) (a : List Nat) (n : Nat) : List Nat :=
  (List.range n).foldl (fun a i =>
    let tmp := a.getD i 0
    (a.set i (a.getD (l - 1 - i) 0)).set (l - 1 - i) tmp) a

/-- An accessor for examples on windows too long to write out: it delivers the window
of the requested length, every base an `A`. -/
def all_a_window : Accessor := fun _ _ rb re => List.replicate (re - rb).toNat 0

/-- An aligner that answers with a given score and given packed operations, for
examples of the NM / MD pass on a CIGAR with gaps. -/
def fixed_aligner (score : Int) (cigar : List Nat) : Aligner :=
  fun _ _ _ _ _ _ _ _ _ _ _ => (score, cigar)

/-! ## The vocabulary of the specification -/

/-- The aligned positions of a CIGAR: for every position of every match block, in
order, the index into the query and the index into the reference window, starting from
the cursors `x` and `y`. -/
def match_pairs : List Nat → Nat → Nat → List (Nat × Nat)
  | [], _, _ => []
  | w :: ws, x, y =>
    if cigar_op w = 0 then
      (List.range (cigar_len w)).map (fun i => (x + i, y + i)) ++
        match_pairs ws (x + cigar_len w) (y + cigar_len w)
    else if cigar_op w = 2 then match_pairs ws x (y + cigar_len w)
    else if cigar_op w = 1 then match_pairs ws (x + cigar_len w) y
    else match_pairs ws x y

/-- The number of aligned positions whose (query base, reference base) satisfies `p`. -/
def count_pairs (p : Nat → Nat → Bool) (query rseq : List Nat) (ps : List (Nat × Nat)) :
    Nat :=
  ps.countP (fun xy => p (query.getD xy.1 0) (rseq.getD xy.2 0))

/-- Total length of the match blocks. -/
def match_total (cigar : List Nat) : Nat :=
  ((cigar.filter (fun w => cigar_op w = 0)).map cigar_len).sum

/-- Sum of the lengths of the insertion blocks. -/
def insertion_total (cigar : List Nat) : Nat :=
  ((cigar.filter (fun w => cigar_op w = 1)).map cigar_len).sum

/-- Sum of the lengths of the deletion blocks among the operations numbered from `k`
that are neither operation `0` nor operation `n - 1`. -/
def nonedge_deletion_from (n : Int) (k : Nat) (cigar : List Nat) : Nat :=
  (((cigar.enumFrom k).filter
    (fun p => cigar_op p.2 = 2 ∧ 0 < p.1 ∧ (p.1 : Int) < n - 1)).map
      (fun p => cigar_len p.2)).sum

/-- Sum of the lengths of the deletion blocks that are neither the first nor the last
operation of the CIGAR. -/
def nonedge_deletion_total (cigar : List Nat) : Nat :=
  nonedge_deletion_from (cigar.length : Int) 0 cigar

/-- A differing pair of bases. -/
def differs (q r : Nat) : Bool := decide (q ≠ r)

/-- The expected bisulfite conversion: query T against reference C for the parent
strand, query A against reference G for the daughter strand. -/
def is_conversion (parent q r : Nat) : Bool :=
  decide ((parent ≠ 0 ∧ q = 3 ∧ r = 1) ∨ (parent = 0 ∧ q = 0 ∧ r = 2))

/-- A retained convertible base: query = reference = C for the parent strand,
query = reference = G for the daughter strand. -/
def is_retention (parent q r : Nat) : Bool :=
  decide (q = r ∧ ((parent ≠ 0 ∧ q = 1) ∨ (parent = 0 ∧ q = 2)))

/-- A true mismatch of the bisulfite routine: the bases differ and the pair is not the
expected conversion. -/
def is_true_mismatch (parent q r : Nat) : Bool :=
  decide (q ≠ r) && !is_conversion parent q r

/-- The query as the alignment sees it: reversed in place on the reverse strand. -/
def oriented_query (l_pac rb l_query : Int) (query : List Nat) : List Nat :=
  if rb ≥ l_pac then reverse_inplace l_query.toNat query else query

/-- The fetched window as the alignment sees it: reversed in place on the reverse
strand. -/
def oriented_window (l_pac rb : Int) (rseq0 : List Nat) : List Nat :=
  if rb ≥ l_pac then reverse_inplace rseq0.length rseq0 else rseq0

/-- The body `mp` of the match loop only counts: it leaves the cursors and the gap
count alone and adds one to `n_mm`, `n_conv`, `n_ret` where the pair of bases at the
position satisfies `mm`, `conv`, `ret`. -/
structure Counting (mp : NMState → Nat → NMState) (query rseq : List Nat)
    (mm conv ret : Nat → Nat → Bool) : Prop where
  x_eq : ∀ s i, (mp s i).x = s.x
  y_eq : ∀ s i, (mp s i).y = s.y
  n_gap_eq : ∀ s i, (mp s i).n_gap = s.n_gap
  n_mm_eq : ∀ s i, (mp s i).n_mm =
    s.n_mm + if mm (query.getD (s.x + i) 0) (rseq.getD (s.y + i) 0) then 1 else 0
  n_conv_eq : ∀ s i, (mp s i).n_conv =
    s.n_conv + if conv (query.getD (s.x + i) 0) (rseq.getD (s.y + i) 0) then 1 else 0
  n_ret_eq : ∀ s i, (mp s i).n_ret =
    s.n_ret + if ret (query.getD (s.x + i) 0) (rseq.getD (s.y + i) 0) then 1 else 0

/-- The NM / MD pass as `bwa_gen_cigar2` runs it on the operations `ops`. -/
def plain_pass (l_pac rb l_query : Int) (query rseq0 : List Nat) (ops : List Nat) :
    NMState :=
  nm_pass (match_pos (oriented_query l_pac rb l_query query) (oriented_window l_pac rb rseq0)
    (int2base rb l_pac)) (oriented_window l_pac rb rseq0) (int2base rb l_pac) ops

/-- The NM / MD pass as `bis_bwa_gen_cigar2` runs it on the operations `ops`. -/
def bis_pass (parent : Nat) (l_pac rb l_query : Int) (query rseq0 : List Nat)
    (ops : List Nat) : NMState :=
  nm_pass (bis_match_pos parent (oriented_query l_pac rb l_query query)
    (oriented_window l_pac rb rseq0) (int2base rb l_pac)) (oriented_window l_pac rb rseq0)
    (int2base rb l_pac) ops

/-- What the pass writes about, one event per item of MD text: a position of a match
block (query base, reference base), or a deletion block that is annotated (its
reference bases). -/
inductive MdEvent where
  | cmp (q r : Nat)
  | del (rs : List Nat)
deriving DecidableEq, Repr

/-- The events of the operations numbered from `k`, with the cursors at `x` and `y`. -/
def md_events (query rseq : List Nat) (n : Int) : Nat → List Nat → Nat → Nat → List MdEvent
  | _, [], _, _ => []
  | k, w :: ws, x, y =>
    if cigar_op w = 0 then
      (List.range (cigar_len w)).map
          (fun i => MdEvent.cmp (query.getD (x + i) 0) (rseq.getD (y + i) 0)) ++
        md_events query rseq n (k + 1) ws (x + cigar_len w) (y + cigar_len w)
    else if cigar_op w = 2 then
      (if k > 0 ∧ (k : Int) < n - 1 then
        [MdEvent.del ((List.range (cigar_len w)).map (fun i => rseq.getD (y + i) 0))]
       else []) ++ md_events query rseq n (k + 1) ws x (y + cigar_len w)
    else if cigar_op w = 1 then md_events query rseq n (k + 1) ws (x + cigar_len w) y
    else md_events query rseq n (k + 1) ws x y

/-- The MD text of a list of events when the run of unchanged positions stands at `u`;
`mm` tells which pairs of bases are written as mismatches. -/
def render (tbl : List Char) (mm : Nat → Nat → Bool) : List MdEvent → Nat → List Char
  | [], u => kputw (u : Int)
  | MdEvent.cmp q r :: es, u =>
    if mm q r then kputw (u : Int) ++ [tbl.getD r nul] ++ render tbl mm es 0
    else render tbl mm es (u + 1)
  | MdEvent.del rs :: es, u =>
    kputw (u : Int) ++ ['^'] ++ rs.map (fun r => tbl.getD r nul) ++ render tbl mm es 0

/-- The body `mp` of the match loop writes a pair that satisfies `mm` as the run and the
reference letter and restarts the run, and lengthens the run at any other pair. -/
structure Emits (mp : NMState → Nat → NMState) (query rseq : List Nat) (tbl : List Char)
    (mm : Nat → Nat → Bool) : Prop where
  x_eq : ∀ s i, (mp s i).x = s.x
  y_eq : ∀ s i, (mp s i).y = s.y
  on_mm : ∀ s i, mm (query.getD (s.x + i) 0) (rseq.getD (s.y + i) 0) = true →
    (mp s i).str = s.str ++ kputw s.u ++ [tbl.getD (rseq.getD (s.y + i) 0) nul] ∧
    (mp s i).u = 0
  on_eq : ∀ s i, mm (query.getD (s.x + i) 0) (rseq.getD (s.y + i) 0) = false →
    (mp s i).str = s.str ∧ (mp s i).u = s.u + 1

/-- The letter of a base code, `"ACGTN"[code]`. -/
def base_letter (code : Nat) : Char := ['A', 'C', 'G', 'T', 'N'].getD code nul

/-- The MD text of one match block as the specification words it: for each differing
position in order, the decimal count of the equal positions since the previous
difference (or the start) and the reference base letter; at the end the final count.
The list holds the (query base, reference base) of the positions still to come, `run`
the equal positions counted so far. -/
def md_single_block : List (Nat × Nat) → Nat → List Char
  | [], run => Nat.toDigits 10 run
  | (q, r) :: ps, run =>
    if q = r then md_single_block ps (run + 1)
    else Nat.toDigits 10 run ++ [base_letter r] ++ md_single_block ps 0

/-! ## Replaying a CIGAR and an MD string -/

/-- The base code that a letter stands for in the table `tbl`. -/
def letter_code (tbl : List Char) (c : Char) : Option Nat :=
  if tbl.indexOf c < tbl.length then some (tbl.indexOf c) else none

/-- Reads decimal digits off the front of the text, continuing the value `acc`. -/
def read_digits : List Char → Nat → Nat × List Char
  | [], acc => (acc, [])
  | c :: cs, acc =>
    if c.isDigit then read_digits cs (acc * 10 + (c.toNat - 48)) else (acc, c :: cs)

/-- Reads a decimal number (at least one digit) off the front of the text. -/
def read_number (cs : List Char) : Option (Nat × List Char) :=
  match cs with
  | [] => none
  | c :: _ => if c.isDigit then some (read_digits cs 0) else none

/-- Reads `n` base letters off the front of the text. -/
def read_letters (tbl : List Char) : Nat → List Char → Option (List Nat × List Char)
  | 0, cs => some ([], cs)
  | _ + 1, [] => none
  | n + 1, c :: cs =>
    match letter_code tbl c with
    | some r => (read_letters tbl n cs).map (fun p => (r :: p.1, p.2))
    | none => none

/-- What a replay has to fill in, in order: a match-block position (with the query base
there) or a deletion block (with its length). -/
inductive Slot where
  | keep (q : Nat)
  | gap (len : Nat)
deriving DecidableEq, Repr

/-- The slots of the operations numbered from `k`, the query cursor at `x`.  With
`skip_edge` a deletion block that is operation `0` or operation `n - 1` gets no slot. -/
def replay_slots (query : List Nat) (n : Int) (skip_edge : Bool) :
    Nat → List Nat → Nat → List Slot
  | _, [], _ => []
  | k, w :: ws, x =>
    if cigar_op w = 0 then
      (List.range (cigar_len w)).map (fun i => Slot.keep (query.getD (x + i) 0)) ++
        replay_slots query n skip_edge (k + 1) ws (x + cigar_len w)
    else if cigar_op w = 2 then
      (if skip_edge = true ∧ ¬ (k > 0 ∧ (k : Int) < n - 1) then []
       else [Slot.gap (cigar_len w)]) ++ replay_slots query n skip_edge (k + 1) ws x
    else if cigar_op w = 1 then replay_slots query n skip_edge (k + 1) ws (x + cigar_len w)
    else replay_slots query n skip_edge (k + 1) ws x

/-- Replays the slots against MD text of which the leading number has been read: `run`
unchanged positions are still to come before `rest`.  A match-block position is the
query base while the run lasts and the MD letter when it is used up; a deletion block
is the letters after `^`.  The text must be used up at the end. -/
def replay (tbl : List Char) : List Slot → Nat → List Char → Option (List Nat)
  | [], run, rest => if run = 0 ∧ rest = [] then some [] else none
  | Slot.keep q :: sl, run, rest =>
    if run > 0 then (replay tbl sl (run - 1) rest).map (fun out => q :: out)
    else
      match rest with
      | [] => none
      | c :: rest1 =>
        match letter_code tbl c, read_number rest1 with
        | some r, some (m, rest2) => (replay tbl sl m rest2).map (fun out => r :: out)
        | _, _ => none
  | Slot.gap len :: sl, run, rest =>
    if run = 0 then
      match rest with
      | [] => none
      | c :: rest1 =>
        if c = '^' then
          match read_letters tbl len rest1 with
          | some (rs, rest2) =>
            match read_number rest2 with
            | some (m, rest3) => (replay tbl sl m rest3).map (fun out => rs ++ out)
            | none => none
          | none => none
        else none
    else none

/-- Replays a CIGAR and an MD string (without its NUL) against a query: the reference
bases it reconstructs, or `none` when the MD text does not fit the CIGAR. -/
def replay_md (tbl : List Char) (skip_edge : Bool) (cigar : List Nat) (md : List Char)
    (query : List Nat) : Option (List Nat) :=
  match read_number md with
  | some (m, rest) =>
    replay tbl (replay_slots query (cigar.length : Int) skip_edge 0 cigar 0) m rest
  | none => none

/-- The part of the window that lies under the match blocks and under the deletion
blocks that are neither operation `0` nor operation `n - 1`, in order. -/
def annotated_window (rseq : List Nat) (n : Int) : Nat → List Nat → Nat → List Nat
  | _, [], _ => []
  | k, w :: ws, y =>
    if cigar_op w = 0 then
      (List.range (cigar_len w)).map (fun i => rseq.getD (y + i) 0) ++
        annotated_window rseq n (k + 1) ws (y + cigar_len w)
    else if cigar_op w = 2 then
      (if k > 0 ∧ (k : Int) < n - 1 then
        (List.range (cigar_len w)).map (fun i => rseq.getD (y + i) 0)
       else []) ++ annotated_window rseq n (k + 1) ws (y + cigar_len w)
    else annotated_window rseq n (k + 1) ws y

/-- Total length of the match blocks and the deletion blocks: the reference bases that
the CIGAR spans. -/
def reference_total (cigar : List Nat) : Nat :=
  ((cigar.filter (fun w => cigar_op w = 0 ∨ cigar_op w = 2)).map cigar_len).sum

/-- The slot of an event. -/
def MdEvent.slot : MdEvent → Slot
  | MdEvent.cmp q _ => Slot.keep q
  | MdEvent.del rs => Slot.gap rs.length

/-- The reference bases of an event. -/
def MdEvent.refs : MdEvent → List Nat
  | MdEvent.cmp _ r => [r]
  | MdEvent.del rs => rs

/-- The number that opens the MD text of the events: the unchanged positions before the
first item. -/
def md_lead (mm : Nat → Nat → Bool) : List MdEvent → Nat
  | [] => 0
  | MdEvent.cmp q r :: es => if mm q r then 0 else md_lead mm es + 1
  | MdEvent.del _ :: _ => 0

/-- The MD text of the events after its opening number. -/
def md_tail (tbl : List Char) (mm : Nat → Nat → Bool) : List MdEvent → List Char
  | [] => []
  | MdEvent.cmp q r :: es =>
    if mm q r then tbl.getD r nul :: (kputw (md_lead mm es : Int) ++ md_tail tbl mm es)
    else md_tail tbl mm es
  | MdEvent.del rs :: es =>
    '^' :: (rs.map (fun r => tbl.getD r nul) ++ (kputw (md_lead mm es : Int) ++
      md_tail tbl mm es))

/-- A letter table that can be read back: the letters of the codes `0..4` are distinct
and none is a digit. -/
def GoodTable (tbl : List Char) : Prop :=
  ∀ r : Nat, r < 5 →
    letter_code tbl (tbl.getD r nul) = some r ∧ (tbl.getD r nul).isDigit = false

/-! ## Loading the index -/

/-- What the index files hold, as the readers that are not in `bwa.c` hand it over:
whether `<prefix>.par.bwt` and `<prefix>.dau.bwt` can be opened, what
`bwt_restore_bwt2` with `bwt_restore_sa` read for the parent and for the daughter
strand, what `bns_restore` reads, and the bytes read from `fp_pac`. -/
structure IndexFiles (α β γ : Type) where
  has_par_bwt : Bool
  has_dau_bwt : Bool
  par : α
  dau : α
  bns : β
  pac : γ

/-- The fields of `bwaidx_t` that loading fills; `none` is what `calloc` left.  A loaded
BWT comes with its strand tag `parent`. -/
structure LoadedIndex (α β γ : Type) where
  bwt0 : Option (α × Nat)
  bwt1 : Option (α × Nat)
  bns : Option β
  pac : Option γ

/-- `bwa_idx_infer_prefix`: whether a prefix is found (both `.par.bwt` and `.dau.bwt`
open). -/
def bwa_idx_infer_prefix {α β γ : Type} (f : IndexFiles α β γ) : Bool :=
  f.has_par_bwt && f.has_dau_bwt

/-- `bwa_idx_load_bwt`: what it leaves in `*bwt`. -/
def bwa_idx_load_bwt {α β γ : Type} (f : IndexFiles α β γ) (parent : Nat)
    (bwt : Option (α × Nat)) : Option (α × Nat) :=
  if bwa_idx_infer_prefix f = false then bwt
  else if parent ≠ 0 then some (f.par, parent)
  else some (f.dau, parent)

/-- `bwa_idx_load_from_disk`; `none` is the null pointer.  The three mask bits are the
macros `BWA_IDX_BWT`, `BWA_IDX_BNS`, `BWA_IDX_PAC` of bwa.h, which is not among the
sources; the mask `which` is a set of bits, a non-negative `int`. -/
def bwa_idx_load_from_disk {α β γ : Type} (BWA_IDX_BWT BWA_IDX_BNS BWA_IDX_PAC : Nat)
    (f : IndexFiles α β γ) (which : Nat) : Option (LoadedIndex α β γ) :=
  if bwa_idx_infer_prefix f = false then none
  else
    let idx0 : LoadedIndex α β γ := { bwt0 := none, bwt1 := none, bns := none, pac := none }
    let idx1 :=
      if which &&& BWA_IDX_BWT ≠ 0 then
        let i := { idx0 with bwt1 := bwa_idx_load_bwt f 1 idx0.bwt1 }
        { i with bwt0 := bwa_idx_load_bwt f 0 i.bwt0 }
      else idx0
    let idx2 :=
      if which &&& BWA_IDX_BNS ≠ 0 then
        let i := { idx1 with bns := some f.bns }
        if which &&& BWA_IDX_PAC ≠ 0 then { i with pac := some f.pac } else i
      else idx1
    some idx2

/-- The band width as the specification words it: `max(min(w_, (max_gap + d + 1) div 2),
d + 3)` with `d = |window_length - l_query|`, `max_gap = max(max_ins, max_del, 1)` and
`max_ins`, `max_del` the truncated quotients. -/
def band_width_spec (mat : List Int) (o_del e_del o_ins e_ins w_ : Int)
    (l_query rlen : Int) : Int :=
  let d := |rlen - l_query|
  let max_ins := trunc_double
    (((((l_query + 1) / 2) * mat.getD 0 0 - o_ins : Int) : ℚ) / (e_ins : ℚ) + 1)
  let max_del := trunc_double
    (((((l_query + 1) / 2) * mat.getD 0 0 - o_del : Int) : ℚ) / (e_del : ℚ) + 1)
  let max_gap := max (max max_ins max_del) 1
  max (min w_ ((max_gap + d + 1) / 2)) (d + 3)

/-! ## The general path on its own, and the aligner of the specification -/

/-- The general branch of the alignment step (lines 184-202 and 294-315) on its own:
the returned operations, the value stored in `*n_cigar`, and the score. -/
def gen_cigar_general (ksw_global2 : Aligner) (mat : List Int)
    (o_del e_del o_ins e_ins w_ : Int) (l_query : Int) (query : List Nat)
    (rseq : List Nat) (rlen : Int) (n_cigar : Bool) : Option (List Nat) × Option Int × Int :=
  let w := band_width mat o_del e_del o_ins e_ins w_ l_query rlen
  let r := ksw_global2 l_query query rlen rseq 5 mat o_del e_del o_ins e_ins w
  (if n_cigar then some r.2 else none,
   if n_cigar then some (r.2.length : Int) else none,
   r.1)

/-- The better of two candidate alignments, the first on a tie. -/
def nw_better (a b : Option (Int × List Nat)) : Option (Int × List Nat) :=
  match a, b with
  | some x, some y => if y.1 > x.1 then some y else some x
  | some x, none => some x
  | none, y => y

/-- Modelled from the spec: `ksw_global2` of ksw.c is not under src/.  Banded global
(Needleman-Wunsch-style) alignment with affine gap costs: the best score over the
alignments of all of `q` with all of `t` that stay within `w` of the diagonal, and the
operations of one of them, column by column (0 match, 1 insertion, 2 deletion).  A gap
costs its open cost for the first base and its extend cost for each further base; `d`
is the offset from the diagonal, `prev` the operation of the column before.  The first
argument bounds the number of columns; `q.length + t.length` is enough. -/
def nw_best (mat : List Int) (o_del e_del o_ins e_ins w : Int) :
    Nat → List Nat → List Nat → Int → Nat → Option (Int × List Nat)
  | 0, q, t, _, _ =>
    match q, t with
    | [], [] => some (0, [])
    | _, _ => none
  | f + 1, q, t, d, prev =>
    match q, t with
    | [], [] => some (0, [])
    | [], _ :: t1 =>
      if |d - 1| ≤ w then
        (nw_best mat o_del e_del o_ins e_ins w f [] t1 (d - 1) 2).map
          (fun r => (r.1 - (if prev = 2 then e_del else o_del), 2 :: r.2))
      else none
    | _ :: q1, [] =>
      if |d + 1| ≤ w then
        (nw_best mat o_del e_del o_ins e_ins w f q1 [] (d + 1) 1).map
          (fun r => (r.1 - (if prev = 1 then e_ins else o_ins), 1 :: r.2))
      else none
    | a :: q1, b :: t1 =>
      nw_better
        ((nw_best mat o_del e_del o_ins e_ins w f q1 t1 d 0).map
          (fun r => (r.1 + mat.getD (b * 5 + a) 0, 0 :: r.2)))
        (nw_better
          (if |d + 1| ≤ w then
            (nw_best mat o_del e_del o_ins e_ins w f q1 (b :: t1) (d + 1) 1).map
              (fun r => (r.1 - (if prev = 1 then e_ins else o_ins), 1 :: r.2))
           else none)
          (if |d - 1| ≤ w then
            (nw_best mat o_del e_del o_ins e_ins w f (a :: q1) t1 (d - 1) 2).map
              (fun r => (r.1 - (if prev = 2 then e_del else o_del), 2 :: r.2))
           else none))

/-- The packed operations of a column-by-column list of operations: equal neighbours
are merged into one `len << 4 | op`; each word is a `uint32_t`, as the words of the
routines are. -/
def pack_runs : List Nat → List Nat
  | [] => []
  | op :: ops =>
    match pack_runs ops with
    | [] => [uint32 (1 <<< 4 ||| op)]
    | w :: ws =>
      if cigar_op w = op then uint32 ((cigar_len w + 1) <<< 4 ||| op) :: ws
      else uint32 (1 <<< 4 ||| op) :: w :: ws

/-- Modelled from the spec: `ksw_global2` of ksw.c is not under src/; the aligner of the
specification as an `Aligner`: the score and the packed operations of `nw_best` on the
first `qlen` codes of the query and the first `tlen` codes of the target. -/
def ksw_global2_spec : Aligner :=
  fun qlen query tlen target _ mat o_del e_del o_ins e_ins w =>
    match nw_best mat o_del e_del o_ins e_ins w
        ((query.take qlen.toNat).length + (target.take tlen.toNat).length)
        (query.take qlen.toNat) (target.take tlen.toNat) 0 0 with
    | some r => (r.1, pack_runs r.2)
    | none => (0, [])

/-! ## Flattening the index into one region and back -/

/-- The declarations of `bwt_t`, `bwtint_t`, `bntseq_t`, `bntann1_t` and `bntamb1_t`
(bwt.h, bntseq.h) are not among the sources: their sizes, and the fields that the two
routines read, are given here.  A structure is handled as its bytes, and a field is a
function of those bytes. -/
structure IndexLayout where
  sizeof_bwt_t : Nat
  sizeof_bwtint_t : Nat
  sizeof_bntseq_t : Nat
  sizeof_bntann1_t : Nat
  sizeof_bntamb1_t : Nat
  bwt_size : List Nat → Nat
  n_sa : List Nat → Nat
  n_seqs : List Nat → Nat
  n_holes : List Nat → Nat
  l_pac : List Nat → Nat

/-- The `x` bytes that `memcpy` reads from offset `k` of a buffer. -/
def bytes_at (buf : List Nat) (k x : Nat) : List Nat :=
  (List.range x).map (fun i => buf.getD (k + i) 0)

/-- `strlen(mem + k)`. -/
def strlen_at (mem : List Nat) (k : Nat) : Nat :=
  ((mem.drop k).takeWhile (fun b => b ≠ 0)).length

/-- One BWT of a heap-mode index: the bytes of the `bwt_t`, and the buffers `bwt` and
`sa` as bytes. -/
structure HeapBwt where
  hdr : List Nat
  bwt : List Nat
  sa : List Nat
deriving DecidableEq, Repr

/-- One contig of a heap-mode index: the bytes of the `bntann1_t`, and the characters
of its name and of its annotation (without the NUL). -/
structure HeapAnn where
  fixed : List Nat
  name : List Nat
  anno : List Nat
deriving DecidableEq, Repr

/-- A heap-mode index: `bwt[0]`, `bwt[1]`, the bytes of the `bntseq_t`, the holes array
`ambs` as bytes, the contigs, and the packed reference. -/
structure HeapIndex where
  bwt0 : HeapBwt
  bwt1 : HeapBwt
  bns : List Nat
  ambs : List Nat
  anns : List HeapAnn
  pac : List Nat
deriving DecidableEq, Repr

/-- One BWT of a flattened index: the bytes of the `bwt_t` as copied, and where `bwt`
and `sa` point, as offsets into the region (`none`: the routine has not set the
pointer). -/
structure FlatBwt where
  hdr : List Nat
  bwt : Option Nat
  sa : Option Nat
deriving DecidableEq, Repr

/-- One contig of a flattened index: the bytes of the `bntann1_t`, and where `name` and
`anno` point, as offsets into the region. -/
structure FlatAnn where
  fixed : List Nat
  name : Nat
  anno : Nat
deriving DecidableEq, Repr

/-- A flattened index. -/
structure FlatIndex where
  bwt0 : FlatBwt
  bwt1 : FlatBwt
  bns : List Nat
  ambs : Nat
  anns : List FlatAnn
  pac : Nat
  l_mem : Int
  mem : List Nat
deriving DecidableEq, Repr

/-- The loop of `bwa_mem2idx` over the contigs, from contig `i` with the cursor at `k`:
the contigs with their `name` and `anno` set, and the cursor after the loop.  `recs`
holds the bytes of the records still to come. -/
def mem2idx_names (L : IndexLayout) (mem : List Nat) :
    Nat → Nat → List Nat → List FlatAnn × Nat
  | 0, k, _ => ([], k)
  | n + 1, k, recs =>
    let name := k
    let k1 := k + (strlen_at mem k + 1)
    let anno := k1
    let k2 := k1 + (strlen_at mem k1 + 1)
    let rest := mem2idx_names L mem n k2 (recs.drop L.sizeof_bntann1_t)
    ({ fixed := bytes_at recs 0 L.sizeof_bntann1_t, name := name, anno := anno } :: rest.1,
     rest.2)

/-- `bwa_mem2idx` up to its assertion: the index it has built and the cursor `k`.  The
arguments `bwt0` and `bwt1` are `idx->bwt[0]` and `idx->bwt[1]` as the caller left
them. -/
def bwa_mem2idx_walk (L : IndexLayout) (mem : List Nat) (bwt0 bwt1 : FlatBwt) :
    FlatIndex × Nat :=
  let k0 := 0
  -- x = sizeof(bwt_t); memcpy(idx->bwt, mem + k, x); k += x;
  let a0 : FlatBwt := { hdr := bytes_at mem k0 L.sizeof_bwt_t, bwt := bwt0.bwt, sa := bwt0.sa }
  let k1 := k0 + L.sizeof_bwt_t
  -- x = idx->bwt[0].bwt_size * 4; idx->bwt[0].bwt = mem + k; k += x;
  let a1 : FlatBwt := { a0 with bwt := some k1 }
  let k2 := k1 + L.bwt_size a1.hdr * 4
  -- x = idx->bwt[0].n_sa * sizeof(bwtint_t); idx->bwt[0].sa = mem + k; k += x;
  let a2 : FlatBwt := { a1 with sa := some k2 }
  let k3 := k2 + L.n_sa a2.hdr * L.sizeof_bwtint_t
  -- x = sizeof(bwt_t); memcpy(idx->bwt, mem + k, x); k += x;
  -- (the copy lands on idx->bwt[0] again: its `bwt` and `sa` are overwritten by the
  -- pointer fields of the copied header, which are no offsets into the region)
  let a3 : FlatBwt := { hdr := bytes_at mem k3 L.sizeof_bwt_t, bwt := none, sa := none }
  let k4 := k3 + L.sizeof_bwt_t
  -- x = idx->bwt[1].bwt_size * 4; idx->bwt[1].bwt = mem + k; k += x;
  let b1 : FlatBwt := { bwt1 with bwt := some k4 }
  let k5 := k4 + L.bwt_size b1.hdr * 4
  -- x = idx->bwt[1].n_sa * sizeof(bwtint_t); idx->bwt[1].sa = mem + k; k += x;
  let b2 : FlatBwt := { b1 with sa := some k5 }
  let k6 := k5 + L.n_sa b2.hdr * L.sizeof_bwtint_t
  -- x = sizeof(bntseq_t); idx->bns = malloc(x); memcpy(idx->bns, mem + k, x); k += x;
  let bns := bytes_at mem k6 L.sizeof_bntseq_t
  let k7 := k6 + L.sizeof_bntseq_t
  -- x = n_holes * sizeof(bntamb1_t); idx->bns->ambs = mem + k; k += x;
  let ambs := k7
  let k8 := k7 + L.n_holes bns * L.sizeof_bntamb1_t
  -- x = n_seqs * sizeof(bntann1_t); anns = malloc(x); memcpy(anns, mem + k, x); k += x;
  let recs := bytes_at mem k8 (L.n_seqs bns * L.sizeof_bntann1_t)
  let k9 := k8 + L.n_seqs bns * L.sizeof_bntann1_t
  let names := mem2idx_names L mem (L.n_seqs bns) k9 recs
  -- idx->pac = mem + k; k += idx->bns->l_pac/4+1;
  let pac := names.2
  let k10 := names.2 + (L.l_pac bns / 4 + 1)
  ({ bwt0 := a3, bwt1 := b2, bns := bns, ambs := ambs, anns := names.1, pac := pac,
     l_mem := (k10 : Int), mem := mem }, k10)

/-- `bwa_mem2idx`: `none` when the assertion `k == l_mem` fails, else the index (the
routine then returns 0). -/
def bwa_mem2idx (L : IndexLayout) (l_mem : Int) (mem : List Nat) (bwt0 bwt1 : FlatBwt) :
    Option FlatIndex :=
  let r := bwa_mem2idx_walk L mem bwt0 bwt1
  if (r.2 : Int) = l_mem then some r.1 else none

/-- The loop of `bwa_idx2mem` that copies the names and annotations of the contigs `i`,
`i + 1`, ... : the bytes it appends. -/
def idx2mem_names (anns : List HeapAnn) : Nat → Nat → List Nat
  | 0, _ => []
  | n + 1, i =>
    let a := anns.getD i { fixed := [], name := [], anno := [] }
    bytes_at (a.name ++ [0]) 0 (a.name.length + 1) ++
      (bytes_at (a.anno ++ [0]) 0 (a.anno.length + 1) ++ idx2mem_names anns n (i + 1))

/-- The region that `bwa_idx2mem` builds before it calls `bwa_mem2idx`. -/
def bwa_idx2mem_region (L : IndexLayout) (idx : HeapIndex) : List Nat :=
  -- copy idx->bwt
  let mem1 := bytes_at idx.bwt0.hdr 0 L.sizeof_bwt_t ++
    bytes_at idx.bwt0.bwt 0 (L.bwt_size idx.bwt0.hdr * 4)
  let mem2 := mem1 ++ bytes_at idx.bwt0.sa 0 (L.n_sa idx.bwt0.hdr * L.sizeof_bwtint_t)
  -- copy idx->bns
  let mem3 := mem2 ++ bytes_at idx.bns 0 L.sizeof_bntseq_t
  let mem4 := mem3 ++ bytes_at idx.ambs 0 (L.n_holes idx.bns * L.sizeof_bntamb1_t)
  let mem5 := mem4 ++
    bytes_at (idx.anns.flatMap (fun a => bytes_at a.fixed 0 L.sizeof_bntann1_t)) 0
      (L.n_seqs idx.bns * L.sizeof_bntann1_t)
  let mem6 := mem5 ++ idx2mem_names idx.anns (L.n_seqs idx.bns) 0
  -- copy idx->pac
  mem6 ++ bytes_at idx.pac 0 (L.l_pac idx.bns / 4 + 1)

/-- `bwa_idx2mem`: the region, handed to `bwa_mem2idx` with its length; `idx->bwt[0]`
has lost its buffers and `idx->bwt[1]` is as it was. -/
def bwa_idx2mem (L : IndexLayout) (idx : HeapIndex) : Option FlatIndex :=
  let mem := bwa_idx2mem_region L idx
  bwa_mem2idx L (mem.length : Int) mem
    { hdr := idx.bwt0.hdr, bwt := none, sa := none }
    { hdr := idx.bwt1.hdr, bwt := none, sa := none }

/-- The region as the specification lays it out: both BWT structures (`bwt[0]` and then
`bwt[1]`: header, bit-vector of `bwt_size*4` bytes, `n_sa` samples), the annotation
header, the holes array, the per-contig records, the NUL-terminated name and
annotation of each contig in order, and the packed reference of `l_pac/4+1` bytes. -/
def flatten_spec (L : IndexLayout) (idx : HeapIndex) : List Nat :=
  bytes_at idx.bwt0.hdr 0 L.sizeof_bwt_t ++
  bytes_at idx.bwt0.bwt 0 (L.bwt_size idx.bwt0.hdr * 4) ++
  bytes_at idx.bwt0.sa 0 (L.n_sa idx.bwt0.hdr * L.sizeof_bwtint_t) ++
  bytes_at idx.bwt1.hdr 0 L.sizeof_bwt_t ++
  bytes_at idx.bwt1.bwt 0 (L.bwt_size idx.bwt1.hdr * 4) ++
  bytes_at idx.bwt1.sa 0 (L.n_sa idx.bwt1.hdr * L.sizeof_bwtint_t) ++
  bytes_at idx.bns 0 L.sizeof_bntseq_t ++
  bytes_at idx.ambs 0 (L.n_holes idx.bns * L.sizeof_bntamb1_t) ++
  idx.anns.flatMap (fun a => bytes_at a.fixed 0 L.sizeof_bntann1_t) ++
  idx.anns.flatMap (fun a => a.name ++ [0] ++ a.anno ++ [0]) ++
  bytes_at idx.pac 0 (L.l_pac idx.bns / 4 + 1)

/-- Modelled from the spec: the declarations of `bwt_t`, `bntseq_t`, `bntann1_t`,
`bntamb1_t` and `bwtint_t` are not under src/; a small layout for the examples.  A
`bwt_t` is the two bytes `bwt_size`, `n_sa`; a `bntseq_t` is the three bytes `n_seqs`,
`n_holes`, `l_pac`; a sample, a contig record and a hole are one byte each. -/
def example_layout : IndexLayout :=
  { sizeof_bwt_t := 2, sizeof_bwtint_t := 1, sizeof_bntseq_t := 3, sizeof_bntann1_t := 1,
    sizeof_bntamb1_t := 1,
    bwt_size := fun h => h.getD 0 0, n_sa := fun h => h.getD 1 0,
    n_seqs := fun h => h.getD 0 0, n_holes := fun h => h.getD 1 0,
    l_pac := fun h => h.getD 2 0 }

/-- A heap-mode index in the layout of the examples: `bwt[0]` of one word and one
sample, `bwt[1]` of two words and one sample, one contig named `c` with an empty
annotation, no hole, four bases. -/
def example_index : HeapIndex :=
  { bwt0 := { hdr := [1, 1], bwt := [11, 12, 13, 14], sa := [15] },
    bwt1 := { hdr := [2, 1], bwt := [21, 22, 23, 24, 25, 26, 27, 28], sa := [29] },
    bns := [1, 0, 4], ambs := [], anns := [{ fixed := [7], name := [99], anno := [] }],
    pac := [27, 0] }

/-! ## Tallying an MD string -/

/-- A base letter of an MD string: one of `A`, `C`, `G`, `T`, `N`. -/
def is_base_letter (c : Char) : Bool := ['A', 'C', 'G', 'T', 'N'].contains c

/-- Counts the base letters at the front of the text; the second component is what
follows them. -/
def take_letters : List Char → Nat × List Char
  | [] => (0, [])
  | c :: cs =>
    if is_base_letter c then ((take_letters cs).1 + 1, (take_letters cs).2) else (0, c :: cs)

/-- The totals of an MD text: the sum of its decimal run counts, the number of its
mismatch letters (letters that do not follow a `^`), and the number of letters that
follow a `^`. -/
structure MdTotals where
  runs : Nat
  mismatches : Nat
  deleted : Nat
deriving DecidableEq, Repr

/-- Tallies MD text of which the leading number has been read: items of the form
letter, number or `^`, letters, number, up to the end of the text; `none` when the text
is not of that form.  The first argument bounds the number of items; the length of the
text is always enough. -/
def md_tally : Nat → List Char → Option MdTotals
  | _, [] => some { runs := 0, mismatches := 0, deleted := 0 }
  | 0, _ :: _ => none
  | f + 1, c :: rest =>
    if c = '^' then
      match read_number (take_letters rest).2 with
      | some (m, rest2) =>
        (md_tally f rest2).map (fun t =>
          { t with runs := t.runs + m, deleted := t.deleted + (take_letters rest).1 })
      | none => none
    else if is_base_letter c then
      match read_number rest with
      | some (m, rest2) =>
        (md_tally f rest2).map (fun t =>
          { t with runs := t.runs + m, mismatches := t.mismatches + 1 })
      | none => none
    else none

/-- The totals of a whole MD text (without its NUL): a number, then items. -/
def md_totals (md : List Char) : Option MdTotals :=
  match read_number md with
  | some (m, rest) => (md_tally rest.length rest).map (fun t => { t with runs := t.runs + m })
  | none => none

/-- The number of match-block positions among the events. -/
def event_positions : List MdEvent → Nat
  | [] => 0
  | MdEvent.cmp _ _ :: es => event_positions es + 1
  | MdEvent.del _ :: es => event_positions es

/-- The number of deleted reference bases among the events. -/
def event_deleted : List MdEvent → Nat
  | [] => 0
  | MdEvent.cmp _ _ :: es => event_deleted es
  | MdEvent.del rs :: es => rs.length + event_deleted es

/-! ## Escape sequences in a header line -/

/-- What `bwa_escape` leaves behind: the memory, and the offset of the last byte it has
read through `p` (the offsets read through `p` only grow, so this is the highest
one). -/
structure Escaped where
  mem : List Nat
  last_read : Nat
deriving DecidableEq, Repr

/-- The loop of `bwa_escape`, and the store `*q = 0` after it.  `mem` is the memory from
`s` on: the string, its terminator, and the bytes that follow it in memory; `p` and `q`
are offsets from `s`.  `none`: the routine reads at an offset outside `mem`.  The first
argument bounds the number of rounds; `p` grows in each round, so the length of `mem`
plus one is always enough. -/
def bwa_escape_loop : Nat → List Nat → Nat → Nat → Option Escaped
  | 0, _, _, _ => none
  | f + 1, mem, p, q =>
    -- the test `*p` of the loop
    match mem[p]? with
    | none => none
    | some c =>
      if c = 0 then some { mem := mem.set q 0, last_read := p }
      else if c = 92 then
        -- `++p`, then the tests of `*p`; the `++p` of the loop follows
        match mem[p + 1]? with
        | none => none
        | some d =>
          if d = 116 then bwa_escape_loop f (mem.set q 9) (p + 2) (q + 1)
          else if d = 110 then bwa_escape_loop f (mem.set q 10) (p + 2) (q + 1)
          else if d = 114 then bwa_escape_loop f (mem.set q 13) (p + 2) (q + 1)
          else if d = 92 then bwa_escape_loop f (mem.set q 92) (p + 2) (q + 1)
          else bwa_escape_loop f mem (p + 2) q
      else bwa_escape_loop f (mem.set q c) (p + 1) (q + 1)

/-- `bwa_escape(s)`, with `mem` the memory from `s` on. -/
def bwa_escape (mem : List Nat) : Option Escaped :=
  bwa_escape_loop (mem.length + 1) mem 0 0

/-! ## Lemmas: scoring matrices -/

theorem bwa_fill_scmat_eq (a b : Int) :
    bwa_fill_scmat a b =
      [int8 a, int8 (-b), int8 (-b), int8 (-b), int8 (-1),
       int8 (-b), int8 a, int8 (-b), int8 (-b), int8 (-1),
       int8 (-b), int8 (-b), int8 a, int8 (-b), int8 (-1),
       int8 (-b), int8 (-b), int8 (-b), int8 a, int8 (-1),
       int8 (-1), int8 (-1), int8 (-1), int8 (-1), int8 (-1)] := by
  simp [bwa_fill_scmat, List.range_succ]

theorem bwa_fill_scmat_ct_eq (a b : Int) :
    bwa_fill_scmat_ct a b =
      [int8 a, int8 (-b), int8 (-b), int8 (-b), int8 (-1),
       int8 (-b), int8 a, int8 (-b), int8 a, int8 (-1),
       int8 (-b), int8 (-b), int8 a, int8 (-b), int8 (-1),
       int8 (-b), int8 (-b), int8 (-b), int8 a, int8 (-1),
       int8 (-1), int8 (-1), int8 (-1), int8 (-1), int8 (-1)] := by
  simp [bwa_fill_scmat_ct, List.range_succ]

theorem bwa_fill_scmat_ga_eq (a b : Int) :
    bwa_fill_scmat_ga a b =
      [int8 a, int8 (-b), int8 (-b), int8 (-b), int8 (-1),
       int8 (-b), int8 a, int8 (-b), int8 (-b), int8 (-1),
       int8 a, int8 (-b), int8 a, int8 (-b), int8 (-1),
       int8 (-b), int8 (-b), int8 (-b), int8 a, int8 (-1),
       int8 (-1), int8 (-1), int8 (-1), int8 (-1), int8 (-1)] := by
  simp [bwa_fill_scmat_ga, List.range_succ]

theorem int8_of_fits (x : Int) (h : -128 ≤ x ∧ x ≤ 127) : int8 x = x := by
  unfold int8; omega

/-! ## Lemmas: in-place reversal -/

theorem getD_set_eq (a : List Nat) (i k v : Nat) :
    (a.set i v).getD k 0 = if i = k ∧ i < a.length then v else a.getD k 0 := by
  simp only [List.getD_eq_getElem?_getD, List.getElem?_set]
  by_cases h : i = k
  · subst h
    by_cases h2 : i < a.length
    · simp [h2]
    · have : a[i]? = none := by simp; omega
      simp [h2, this]
  · simp [h]

theorem swaps_succ (l : Nat) (a : List Nat) (n : Nat) :
    swaps l a (n + 1) =
      ((swaps l a n).set n ((swaps l a n).getD (l - 1 - n) 0)).set (l - 1 - n)
        ((swaps l a n).getD n 0) := by
  unfold swaps
  rw [List.range_succ, List.foldl_append]
  rfl

theorem swaps_spec (l : Nat) (a : List Nat) (hl : l ≤ a.length) (n : Nat)
    (hn : n ≤ l / 2) :
    (swaps l a n).length = a.length ∧
    ∀ k, (swaps l a n).getD k 0 =
      if k < n ∨ (l - n ≤ k ∧ k < l) then a.getD (l - 1 - k) 0 else a.getD k 0 := by
  induction n with
  | zero =>
    refine ⟨rfl, ?_⟩
    intro k
    have c : ¬ (k < 0 ∨ (l - 0 ≤ k ∧ k < l)) := by omega
    rw [if_neg c]
    rfl
  | succ n ih =>
    obtain ⟨hlen, hget⟩ := ih (by omega)
    rw [swaps_succ]
    refine ⟨by rw [List.length_set, List.length_set, hlen], ?_⟩
    intro k
    rw [getD_set_eq, getD_set_eq, hget, hget, hget]
    simp only [List.length_set, hlen]
    by_cases h1 : l - 1 - n = k
    · subst h1
      have e1 : l - 1 - (l - 1 - n) = n := by omega
      have c1 : ¬ (n < n ∨ l - n ≤ n ∧ n < l) := by omega
      have c2 : (l - 1 - n < n + 1 ∨ l - (n + 1) ≤ l - 1 - n ∧ l - 1 - n < l) := by omega
      have c3 : l - 1 - n < a.length := by omega
      rw [if_pos ⟨rfl, c3⟩, if_neg c1, if_pos c2, e1]
    · have c0 : ¬ (l - 1 - n = k ∧ l - 1 - n < a.length) := fun h => h1 h.1
      rw [if_neg c0]
      by_cases h2 : n = k
      · subst h2
        have c1 : ¬ (l - 1 - n < n ∨ l - n ≤ l - 1 - n ∧ l - 1 - n < l) := by omega
        have c2 : (n < n + 1 ∨ l - (n + 1) ≤ n ∧ n < l) := by omega
        have c3 : n < a.length := by omega
        rw [if_pos ⟨rfl, c3⟩, if_neg c1, if_pos c2]
      · have c : (k < n + 1 ∨ l - (n + 1) ≤ k ∧ k < l) ↔ (k < n ∨ l - n ≤ k ∧ k < l) := by
          omega
        have c4 : ¬ (n = k ∧ n < a.length) := fun h => h2 h.1
        rw [if_neg c4]
        by_cases h3 : (k < n ∨ l - n ≤ k ∧ k < l)
        · rw [if_pos h3, if_pos (c.2 h3)]
        · rw [if_neg h3, if_neg (fun h => h3 (c.1 h))]

theorem reverse_inplace_eq_swaps (l : Nat) (a : List Nat) :
    reverse_inplace l a = swaps l a (l / 2) := by
  unfold reverse_inplace swaps
  rw [Nat.shiftRight_eq_div_pow, pow_one]

theorem reverse_inplace_length (l : Nat) (a : List Nat) (hl : l ≤ a.length) :
    (reverse_inplace l a).length = a.length := by
  rw [reverse_inplace_eq_swaps]
  exact (swaps_spec l a hl (l / 2) (le_refl _)).1

theorem reverse_inplace_getD (l : Nat) (a : List Nat) (hl : l ≤ a.length) (k : Nat) :
    (reverse_inplace l a).getD k 0 = if k < l then a.getD (l - 1 - k) 0 else a.getD k 0 := by
  rw [reverse_inplace_eq_swaps, (swaps_spec l a hl (l / 2) (le_refl _)).2 k]
  by_cases hk : k < l
  · rw [if_pos hk]
    by_cases hc : (k < l / 2 ∨ l - l / 2 ≤ k ∧ k < l)
    · rw [if_pos hc]
    · have : l - 1 - k = k := by omega
      rw [if_neg hc, this]
  · have hc : ¬ (k < l / 2 ∨ l - l / 2 ≤ k ∧ k < l) := by omega
    rw [if_neg hc, if_neg hk]

theorem reverse_inplace_twice (l : Nat) (a : List Nat) (hl : l ≤ a.length) :
    reverse_inplace l (reverse_inplace l a) = a := by
  have hlen := reverse_inplace_length l a hl
  apply List.ext_getElem
  · rw [reverse_inplace_length _ _ (by omega), hlen]
  · intro n h1 h2
    have h := reverse_inplace_getD l (reverse_inplace l a) (by omega) n
    rw [List.getD_eq_getElem _ _ h1] at h
    rw [h, reverse_inplace_getD l a hl, reverse_inplace_getD l a hl]
    by_cases hn : n < l
    · have h3 : l - 1 - n < l := by omega
      have e : l - 1 - (l - 1 - n) = n := by omega
      rw [if_pos hn, if_pos h3, e]
      exact List.getD_eq_getElem _ _ h2
    · rw [if_neg hn, if_neg hn]
      exact List.getD_eq_getElem _ _ h2

/-! ## Lemmas: the fast path -/

theorem fast_score_eq_sum (mat : List Int) (n : Nat) (query rseq : List Nat) :
    fast_score mat n query rseq =
      ∑ i in Finset.range n, mat.getD (rseq.getD i 0 * 5 + query.getD i 0) 0 := by
  unfold fast_score
  induction n with
  | zero => rfl
  | succ n ih =>
    rw [List.range_succ, List.foldl_append, Finset.sum_range_succ, ← ih]
    rfl

theorem fast_score_reverse (mat : List Int) (n : Nat) (query rseq : List Nat)
    (hq : n ≤ query.length) (hr : n ≤ rseq.length) :
    fast_score mat n (reverse_inplace n query) (reverse_inplace n rseq) =
      fast_score mat n query rseq := by
  rw [fast_score_eq_sum, fast_score_eq_sum,
    ← Finset.sum_range_reflect
      (fun i => mat.getD (rseq.getD i 0 * 5 + query.getD i 0) 0) n]
  apply Finset.sum_congr rfl
  intro i hi
  have hi' : i < n := Finset.mem_range.mp hi
  rw [reverse_inplace_getD n query hq, reverse_inplace_getD n rseq hr, if_pos hi', if_pos hi']

theorem cigar_op_pack_match (l : Nat) : cigar_op (l <<< 4 ||| 0) = 0 := by
  unfold cigar_op
  rw [Nat.or_zero, Nat.shiftLeft_eq]
  have h : (0xf : Nat) = 2 ^ 4 - 1 := by norm_num
  rw [h, Nat.and_pow_two_sub_one_eq_mod]
  omega

theorem cigar_len_pack_match (l : Nat) : cigar_len (l <<< 4 ||| 0) = l := by
  unfold cigar_len
  rw [Nat.or_zero, Nat.shiftLeft_eq, Nat.shiftRight_eq_div_pow]
  omega

theorem uint32_pack_match (l : Nat) :
    uint32 (l <<< 4 ||| 0) = (l % 2 ^ 28) <<< 4 ||| 0 := by
  unfold uint32
  rw [Nat.or_zero, Nat.or_zero, Nat.shiftLeft_eq, Nat.shiftLeft_eq]
  norm_num
  omega

theorem uint32_pack_match_fits (l : Nat) (h : l < 2 ^ 28) :
    uint32 (l <<< 4 ||| 0) = l <<< 4 ||| 0 := by
  rw [uint32_pack_match, Nat.mod_eq_of_lt h]

theorem uint32_pack_match_succ (l : Nat) :
    uint32 ((l % 2 ^ 28 + 1) <<< 4 ||| 0) = uint32 ((l + 1) <<< 4 ||| 0) := by
  unfold uint32
  rw [Nat.or_zero, Nat.or_zero, Nat.shiftLeft_eq, Nat.shiftLeft_eq]
  norm_num
  omega

theorem gen_cigar_align_fast (ksw : Aligner) (mat : List Int)
    (o_del e_del o_ins e_ins l_query : Int) (query : List Nat) (rb re : Int)
    (rseq : List Nat) (rlen : Int) (n_cigar : Bool) (heq : l_query = re - rb) :
    gen_cigar_align ksw mat o_del e_del o_ins e_ins 0 l_query query rb re rseq rlen n_cigar =
      (if n_cigar then some [uint32 (l_query.toNat <<< 4 ||| 0)] else none,
       if n_cigar then some 1 else none,
       fast_score mat l_query.toNat query rseq) := by
  unfold gen_cigar_align
  rw [if_pos ⟨heq, rfl⟩]

theorem gen_cigar_fast_word (fetch : Accessor) (ksw : Aligner) (mat : List Int)
    (o_del e_del o_ins e_ins l_pac : Int) (pac : List Nat) (l_query : Int)
    (query : List Nat) (rb re : Int) (NM : Bool) (parent : Nat)
    (hq : 0 < l_query) (hs : ¬ (rb < l_pac ∧ l_pac < re))
    (hlen : ((fetch l_pac pac rb re).length : Int) = re - rb)
    (heq : l_query = re - rb) :
    (bwa_gen_cigar2 fetch ksw mat o_del e_del o_ins e_ins 0 l_pac pac l_query query rb re
        true NM).cigar = some [uint32 (l_query.toNat <<< 4 ||| 0)] ∧
    (bis_bwa_gen_cigar2 fetch ksw mat o_del e_del o_ins e_ins 0 l_pac pac l_query query rb
        re true NM parent).cigar = some [uint32 (l_query.toNat <<< 4 ||| 0)] := by
  have hg : ¬ (l_query ≤ 0 ∨ rb ≥ re ∨ (rb < l_pac ∧ re > l_pac)) := by
    rintro (h | h | h)
    · omega
    · omega
    · exact hs ⟨h.1, h.2⟩
  have hl : ¬ (re - rb ≠ ((fetch l_pac pac rb re).length : Int)) := by
    intro h
    exact h hlen.symm
  unfold bwa_gen_cigar2 bis_bwa_gen_cigar2
  simp only [if_neg hg, if_neg hl, gen_cigar_align_fast _ _ _ _ _ _ _ _ _ _ _ _ _ heq]
  cases NM <;> simp

/-! ## Lemmas: the counters of the NM / MD pass -/

theorem match_pos_counting (query rseq : List Nat) (tbl : List Char) :
    Counting (match_pos query rseq tbl) query rseq differs (fun _ _ => false)
      (fun _ _ => false) := by
  constructor <;> intro s i <;> unfold match_pos <;> try unfold differs
  all_goals
    generalize query.getD (s.x + i) 0 = q
    generalize rseq.getD (s.y + i) 0 = r
    by_cases h : q = r <;> simp [h]

theorem bis_match_pos_counting (parent : Nat) (query rseq : List Nat) (tbl : List Char) :
    Counting (bis_match_pos parent query rseq tbl) query rseq (is_true_mismatch parent)
      (is_conversion parent) (is_retention parent) := by
  constructor <;> intro s i <;>
    simp only [bis_match_pos, is_true_mismatch, is_conversion, is_retention]
  all_goals
    generalize query.getD (s.x + i) 0 = q
    generalize rseq.getD (s.y + i) 0 = r
    split_ifs <;> simp_all <;> omega

theorem count_pairs_append (p : Nat → Nat → Bool) (query rseq : List Nat)
    (l1 l2 : List (Nat × Nat)) :
    count_pairs p query rseq (l1 ++ l2) =
      count_pairs p query rseq l1 + count_pairs p query rseq l2 := by
  unfold count_pairs
  rw [List.countP_append]

theorem count_pairs_block_succ (p : Nat → Nat → Bool) (query rseq : List Nat)
    (x y n : Nat) :
    count_pairs p query rseq ((List.range (n + 1)).map (fun i => (x + i, y + i))) =
      count_pairs p query rseq ((List.range n).map (fun i => (x + i, y + i))) +
        if p (query.getD (x + n) 0) (rseq.getD (y + n) 0) then 1 else 0 := by
  rw [List.range_succ, List.map_append, count_pairs_append]
  congr 1
  unfold count_pairs
  rw [List.map_singleton, List.countP_singleton]

theorem match_fold_counts {mp : NMState → Nat → NMState} {query rseq : List Nat}
    {mm conv ret : Nat → Nat → Bool} (hc : Counting mp query rseq mm conv ret)
    (s : NMState) (len : Nat) :
    ((List.range len).foldl mp s).x = s.x ∧
    ((List.range len).foldl mp s).y = s.y ∧
    ((List.range len).foldl mp s).n_gap = s.n_gap ∧
    ((List.range len).foldl mp s).n_mm = s.n_mm +
      count_pairs mm query rseq ((List.range len).map (fun i => (s.x + i, s.y + i))) ∧
    ((List.range len).foldl mp s).n_conv = s.n_conv +
      count_pairs conv query rseq ((List.range len).map (fun i => (s.x + i, s.y + i))) ∧
    ((List.range len).foldl mp s).n_ret = s.n_ret +
      count_pairs ret query rseq ((List.range len).map (fun i => (s.x + i, s.y + i))) := by
  induction len with
  | zero =>
    simp [count_pairs]
  | succ n ih =>
    obtain ⟨hx, hy, hg, hm, hcv, hr⟩ := ih
    have e : (List.range (n + 1)).foldl mp s = mp ((List.range n).foldl mp s) n := by
      rw [List.range_succ, List.foldl_append]
      rfl
    rw [e, hc.x_eq, hc.y_eq, hc.n_gap_eq, hc.n_mm_eq, hc.n_conv_eq, hc.n_ret_eq, hx, hy, hg,
      hm, hcv, hr, count_pairs_block_succ, count_pairs_block_succ, count_pairs_block_succ]
    push_cast
    refine ⟨rfl, rfl, rfl, ?_, ?_, ?_⟩ <;> split_ifs <;> omega

theorem del_fold_frame (rseq : List Nat) (tbl : List Char) (s : NMState) (len : Nat) :
    ((List.range len).foldl (fun t i =>
      { t with str := t.str ++ [tbl.getD (rseq.getD (t.y + i) 0) nul] }) s) =
    { s with
      str := s.str ++ ((List.range len).map (fun i => tbl.getD (rseq.getD (s.y + i) 0) nul)) } := by
  induction len with
  | zero => simp
  | succ n ih =>
    rw [List.range_succ, List.foldl_append, ih]
    simp

theorem insertion_total_cons (w : Nat) (ws : List Nat) :
    insertion_total (w :: ws) =
      (if cigar_op w = 1 then cigar_len w else 0) + insertion_total ws := by
  unfold insertion_total
  by_cases h : cigar_op w = 1 <;> simp [List.filter_cons, h]

theorem match_total_cons (w : Nat) (ws : List Nat) :
    match_total (w :: ws) =
      (if cigar_op w = 0 then cigar_len w else 0) + match_total ws := by
  unfold match_total
  by_cases h : cigar_op w = 0 <;> simp [List.filter_cons, h]

theorem nonedge_deletion_from_cons (n : Int) (k w : Nat) (ws : List Nat) :
    nonedge_deletion_from n k (w :: ws) =
      (if cigar_op w = 2 ∧ 0 < k ∧ (k : Int) < n - 1 then cigar_len w else 0) +
        nonedge_deletion_from n (k + 1) ws := by
  unfold nonedge_deletion_from
  by_cases h : cigar_op w = 2 ∧ 0 < k ∧ (k : Int) < n - 1 <;>
    simp [List.enumFrom_cons, List.filter_cons, h]

theorem del_block_eq (rseq : List Nat) (tbl : List Char) (n : Int) (k len : Nat)
    (s : NMState) :
    del_block rseq tbl n k len s =
      if k > 0 ∧ (k : Int) < n - 1 then
        { s with
          str := s.str ++ kputw s.u ++ ['^'] ++
            ((List.range len).map (fun i => tbl.getD (rseq.getD (s.y + i) 0) nul))
          u := 0
          n_gap := s.n_gap + len
          y := s.y + len }
      else { s with y := s.y + len } := by
  unfold del_block
  by_cases h : k > 0 ∧ (k : Int) < n - 1
  · simp only [if_pos h, del_fold_frame]
  · simp only [if_neg h]

theorem nm_step_match (mp : NMState → Nat → NMState) (rseq : List Nat) (tbl : List Char)
    (n : Int) (s : NMState) (k w : Nat) (h : cigar_op w = 0) :
    nm_step mp rseq tbl n s k w =
      { (List.range (cigar_len w)).foldl mp s with
        x := ((List.range (cigar_len w)).foldl mp s).x + cigar_len w
        y := ((List.range (cigar_len w)).foldl mp s).y + cigar_len w } := by
  unfold nm_step
  simp only [if_pos h]

theorem nm_step_del (mp : NMState → Nat → NMState) (rseq : List Nat) (tbl : List Char)
    (n : Int) (s : NMState) (k w : Nat) (h : cigar_op w = 2) :
    nm_step mp rseq tbl n s k w = del_block rseq tbl n k (cigar_len w) s := by
  unfold nm_step
  have h0 : ¬ cigar_op w = 0 := by omega
  simp only [if_neg h0, if_pos h]

theorem nm_step_ins (mp : NMState → Nat → NMState) (rseq : List Nat) (tbl : List Char)
    (n : Int) (s : NMState) (k w : Nat) (h : cigar_op w = 1) :
    nm_step mp rseq tbl n s k w =
      { s with x := s.x + cigar_len w, n_gap := s.n_gap + cigar_len w } := by
  unfold nm_step
  have h0 : ¬ cigar_op w = 0 := by omega
  have h2 : ¬ cigar_op w = 2 := by omega
  simp only [if_neg h0, if_neg h2, if_pos h]

theorem nm_step_other (mp : NMState → Nat → NMState) (rseq : List Nat) (tbl : List Char)
    (n : Int) (s : NMState) (k w : Nat) (h0 : ¬ cigar_op w = 0) (h2 : ¬ cigar_op w = 2)
    (h1 : ¬ cigar_op w = 1) :
    nm_step mp rseq tbl n s k w = s := by
  unfold nm_step
  simp only [if_neg h0, if_neg h2, if_neg h1]

theorem nm_loop_counts {mp : NMState → Nat → NMState} {query rseq : List Nat}
    {mm conv ret : Nat → Nat → Bool} (hc : Counting mp query rseq mm conv ret)
    (rseq1 : List Nat) (tbl : List Char) (n : Int) (ws : List Nat) :
    ∀ (k : Nat) (s : NMState),
      (nm_loop mp rseq1 tbl n k ws s).n_mm =
        s.n_mm + count_pairs mm query rseq (match_pairs ws s.x s.y) ∧
      (nm_loop mp rseq1 tbl n k ws s).n_conv =
        s.n_conv + count_pairs conv query rseq (match_pairs ws s.x s.y) ∧
      (nm_loop mp rseq1 tbl n k ws s).n_ret =
        s.n_ret + count_pairs ret query rseq (match_pairs ws s.x s.y) ∧
      (nm_loop mp rseq1 tbl n k ws s).n_gap =
        s.n_gap + insertion_total ws + nonedge_deletion_from n k ws := by
  induction ws with
  | nil =>
    intro k s
    simp [nm_loop, match_pairs, count_pairs, insertion_total, nonedge_deletion_from]
  | cons w ws ih =>
    intro k s
    rw [nm_loop, insertion_total_cons, nonedge_deletion_from_cons, match_pairs]
    by_cases o0 : cigar_op w = 0
    · obtain ⟨fx, fy, fg, fm, fc, fr⟩ := match_fold_counts hc s (cigar_len w)
      have o1 : ¬ cigar_op w = 1 := by omega
      have o2 : ¬ (cigar_op w = 2 ∧ 0 < k ∧ (k : Int) < n - 1) := by omega
      rw [nm_step_match _ _ _ _ _ _ _ o0]
      obtain ⟨h1, h2, h3, h4⟩ := ih (k + 1)
        { (List.range (cigar_len w)).foldl mp s with
          x := ((List.range (cigar_len w)).foldl mp s).x + cigar_len w
          y := ((List.range (cigar_len w)).foldl mp s).y + cigar_len w }
      rw [h1, h2, h3, h4]
      simp only [if_pos o0, if_neg o1, if_neg o2, count_pairs_append, fx, fy, fg, fm, fc, fr]
      push_cast
      omega
    · by_cases o2 : cigar_op w = 2
      · have o1 : ¬ cigar_op w = 1 := by omega
        rw [nm_step_del _ _ _ _ _ _ _ o2, del_block_eq]
        by_cases he : k > 0 ∧ (k : Int) < n - 1
        · have he' : cigar_op w = 2 ∧ 0 < k ∧ (k : Int) < n - 1 := ⟨o2, he.1, he.2⟩
          rw [if_pos he]
          obtain ⟨h1, h2, h3, h4⟩ := ih (k + 1)
            { s with
              str := s.str ++ kputw s.u ++ ['^'] ++
                ((List.range (cigar_len w)).map
                  (fun i => tbl.getD (rseq1.getD (s.y + i) 0) nul))
              u := 0
              n_gap := s.n_gap + cigar_len w
              y := s.y + cigar_len w }
          rw [h1, h2, h3, h4]
          dsimp only
          push_cast
          refine ⟨?_, ?_, ?_, ?_⟩ <;> (try split_ifs) <;> omega
        · have he' : ¬ (cigar_op w = 2 ∧ 0 < k ∧ (k : Int) < n - 1) :=
            fun h => he ⟨h.2.1, h.2.2⟩
          rw [if_neg he]
          obtain ⟨h1, h2, h3, h4⟩ := ih (k + 1) { s with y := s.y + cigar_len w }
          rw [h1, h2, h3, h4]
          dsimp only
          push_cast
          refine ⟨?_, ?_, ?_, ?_⟩ <;> (try split_ifs) <;> omega
      · have o2' : ¬ (cigar_op w = 2 ∧ 0 < k ∧ (k : Int) < n - 1) := fun h => o2 h.1
        by_cases o1 : cigar_op w = 1
        · rw [nm_step_ins _ _ _ _ _ _ _ o1]
          obtain ⟨h1, h2, h3, h4⟩ := ih (k + 1)
            { s with x := s.x + cigar_len w, n_gap := s.n_gap + cigar_len w }
          rw [h1, h2, h3, h4]
          dsimp only
          push_cast
          refine ⟨?_, ?_, ?_, ?_⟩ <;> (try split_ifs) <;> omega
        · rw [nm_step_other _ _ _ _ _ _ _ o0 o2 o1]
          obtain ⟨h1, h2, h3, h4⟩ := ih (k + 1) s
          rw [h1, h2, h3, h4]
          push_cast
          refine ⟨?_, ?_, ?_, ?_⟩ <;> (try split_ifs) <;> omega

/-! ## Lemmas: what an accepted call returns -/

theorem bwa_gen_cigar2_some (fetch : Accessor) (ksw : Aligner) (mat : List Int)
    (o_del e_del o_ins e_ins w_ l_pac : Int) (pac : List Nat) (l_query : Int)
    (query : List Nat) (rb re : Int) (ops : List Nat)
    (h : (bwa_gen_cigar2 fetch ksw mat o_del e_del o_ins e_ins w_ l_pac pac l_query query rb
      re true true).cigar = some ops) :
    (bwa_gen_cigar2 fetch ksw mat o_del e_del o_ins e_ins w_ l_pac pac l_query query rb re
      true true).md = (plain_pass l_pac rb l_query query (fetch l_pac pac rb re) ops).str ∧
    (bwa_gen_cigar2 fetch ksw mat o_del e_del o_ins e_ins w_ l_pac pac l_query query rb re
      true true).NM =
        some ((plain_pass l_pac rb l_query query (fetch l_pac pac rb re) ops).n_mm +
          (plain_pass l_pac rb l_query query (fetch l_pac pac rb re) ops).n_gap) := by
  unfold bwa_gen_cigar2 at *
  unfold plain_pass oriented_query oriented_window
  by_cases hg : l_query ≤ 0 ∨ rb ≥ re ∨ (rb < l_pac ∧ re > l_pac)
  · simp only [if_pos hg] at h
    exact absurd h (by simp)
  · by_cases hl : re - rb ≠ ((fetch l_pac pac rb re).length : Int)
    · simp only [if_neg hg, if_pos hl] at h
      exact absurd h (by simp)
    · simp only [if_neg hg, if_neg hl] at h ⊢
      simp only [Bool.and_self, decide_True, and_self, if_true, Option.some.injEq] at h ⊢
      subst h
      exact ⟨rfl, rfl⟩

theorem bis_bwa_gen_cigar2_some (fetch : Accessor) (ksw : Aligner) (mat : List Int)
    (o_del e_del o_ins e_ins w_ l_pac : Int) (pac : List Nat) (l_query : Int)
    (query : List Nat) (rb re : Int) (parent : Nat) (ops : List Nat)
    (h : (bis_bwa_gen_cigar2 fetch ksw mat o_del e_del o_ins e_ins w_ l_pac pac l_query query
      rb re true true parent).cigar = some ops) :
    (bis_bwa_gen_cigar2 fetch ksw mat o_del e_del o_ins e_ins w_ l_pac pac l_query query rb
      re true true parent).md =
        (bis_pass parent l_pac rb l_query query (fetch l_pac pac rb re) ops).str ∧
    (bis_bwa_gen_cigar2 fetch ksw mat o_del e_del o_ins e_ins w_ l_pac pac l_query query rb
      re true true parent).NM =
        some ((bis_pass parent l_pac rb l_query query (fetch l_pac pac rb re) ops).n_mm +
          (bis_pass parent l_pac rb l_query query (fetch l_pac pac rb re) ops).n_gap) ∧
    (bis_bwa_gen_cigar2 fetch ksw mat o_del e_del o_ins e_ins w_ l_pac pac l_query query rb
      re true true parent).ZC =
        some (bis_pass parent l_pac rb l_query query (fetch l_pac pac rb re) ops).n_conv ∧
    (bis_bwa_gen_cigar2 fetch ksw mat o_del e_del o_ins e_ins w_ l_pac pac l_query query rb
      re true true parent).ZR =
        some (bis_pass parent l_pac rb l_query query (fetch l_pac pac rb re) ops).n_ret := by
  unfold bis_bwa_gen_cigar2 at *
  unfold bis_pass oriented_query oriented_window
  by_cases hg : l_query ≤ 0 ∨ rb ≥ re ∨ (rb < l_pac ∧ re > l_pac)
  · simp only [if_pos hg] at h
    exact absurd h (by simp)
  · by_cases hl : re - rb ≠ ((fetch l_pac pac rb re).length : Int)
    · simp only [if_neg hg, if_pos hl] at h
      exact absurd h (by simp)
    · simp only [if_neg hg, if_neg hl] at h ⊢
      simp only [Bool.and_self, decide_True, and_self, if_true, Option.some.injEq] at h ⊢
      subst h
      exact ⟨rfl, rfl, rfl, rfl⟩

theorem gen_cigar_same_cigar (fetch : Accessor) (ksw : Aligner) (mat : List Int)
    (o_del e_del o_ins e_ins w_ l_pac : Int) (pac : List Nat) (l_query : Int)
    (query : List Nat) (rb re : Int) (n_cigar NM : Bool) (parent : Nat) :
    (bis_bwa_gen_cigar2 fetch ksw mat o_del e_del o_ins e_ins w_ l_pac pac l_query query rb
      re n_cigar NM parent).cigar =
    (bwa_gen_cigar2 fetch ksw mat o_del e_del o_ins e_ins w_ l_pac pac l_query query rb re
      n_cigar NM).cigar := by
  unfold bis_bwa_gen_cigar2 bwa_gen_cigar2
  by_cases hg : l_query ≤ 0 ∨ rb ≥ re ∨ (rb < l_pac ∧ re > l_pac)
  · simp only [if_pos hg]
  · by_cases hl : re - rb ≠ ((fetch l_pac pac rb re).length : Int)
    · simp only [if_neg hg, if_pos hl]
    · simp only [if_neg hg, if_neg hl]
      by_cases hf : (NM = true ∧ n_cigar = true)
      · simp only [if_pos hf]
      · simp only [if_neg hf]

theorem nm_pass_counts {mp : NMState → Nat → NMState} {query rseq : List Nat}
    {mm conv ret : Nat → Nat → Bool} (hc : Counting mp query rseq mm conv ret)
    (rseq1 : List Nat) (tbl : List Char) (ops : List Nat) :
    (nm_pass mp rseq1 tbl ops).n_mm = count_pairs mm query rseq (match_pairs ops 0 0) ∧
    (nm_pass mp rseq1 tbl ops).n_conv = count_pairs conv query rseq (match_pairs ops 0 0) ∧
    (nm_pass mp rseq1 tbl ops).n_ret = count_pairs ret query rseq (match_pairs ops 0 0) ∧
    (nm_pass mp rseq1 tbl ops).n_gap =
      insertion_total ops + nonedge_deletion_total ops := by
  obtain ⟨h1, h2, h3, h4⟩ :=
    nm_loop_counts hc rseq1 tbl (ops.length : Int) ops 0 NMState.init
  unfold nm_pass nonedge_deletion_total
  dsimp only
  rw [h1, h2, h3, h4]
  simp [NMState.init]

theorem match_pairs_length (ops : List Nat) :
    ∀ x y : Nat, (match_pairs ops x y).length = match_total ops := by
  induction ops with
  | nil => intro x y; rfl
  | cons w ws ih =>
    intro x y
    rw [match_pairs, match_total_cons]
    split_ifs <;> simp [ih]

theorem classes_exclusive (parent q r : Nat) :
    (if is_conversion parent q r then 1 else 0) + (if is_retention parent q r then 1 else 0) +
      (if is_true_mismatch parent q r then 1 else 0) ≤ 1 := by
  unfold is_true_mismatch is_conversion is_retention
  by_cases hp : parent = 0 <;> by_cases hqr : q = r <;> simp [hp, hqr] <;> split_ifs <;>
    omega

theorem count_pairs_classes_le (parent : Nat) (query rseq : List Nat)
    (ps : List (Nat × Nat)) :
    count_pairs (is_conversion parent) query rseq ps +
      count_pairs (is_retention parent) query rseq ps +
      count_pairs (is_true_mismatch parent) query rseq ps ≤ ps.length := by
  unfold count_pairs
  induction ps with
  | nil => simp
  | cons p ps ih =>
    have h := classes_exclusive parent (query.getD p.1 0) (rseq.getD p.2 0)
    simp only [List.countP_cons, List.length_cons]
    omega

theorem count_pairs_true_mismatch_zero (parent : Nat) (query rseq : List Nat)
    (ps : List (Nat × Nat))
    (h : ∀ p ∈ ps, query.getD p.1 0 = rseq.getD p.2 0 ∨
      is_conversion parent (query.getD p.1 0) (rseq.getD p.2 0) = true) :
    count_pairs (is_true_mismatch parent) query rseq ps = 0 := by
  unfold count_pairs
  rw [List.countP_eq_zero]
  intro p hp
  unfold is_true_mismatch
  have h1 := h p hp
  revert h1
  generalize query.getD p.1 0 = a
  generalize rseq.getD p.2 0 = b
  intro h1
  rcases h1 with h1 | h1 <;> simp [h1]

/-! ## Lemmas: the MD text -/

theorem digitChar_eq (d : Nat) (h : d < 10) : Nat.digitChar d = Char.ofNat (d + 48) := by
  interval_cases d <;> rfl

theorem toDigitsCore_eq (f : Nat) : ∀ (x : Nat) (ds : List Char), x ≤ f →
    Nat.toDigitsCore 10 (f + 1) x ds = (kputw_buf f x).reverse ++ ds := by
  induction f with
  | zero =>
    intro x ds hx
    have : x = 0 := by omega
    subst this
    simp [Nat.toDigitsCore, kputw_buf]
    rfl
  | succ f ih =>
    intro x ds hx
    rw [Nat.toDigitsCore, kputw_buf]
    by_cases h : x / 10 = 0
    · have h' : ¬ x / 10 > 0 := by omega
      simp only [h, if_true, if_neg h', digitChar_eq (x % 10) (Nat.mod_lt _ (by norm_num))]
      simp
    · have h' : x / 10 > 0 := by omega
      simp only [if_neg h, if_pos h']
      rw [ih (x / 10) _ (by omega), digitChar_eq (x % 10) (Nat.mod_lt _ (by norm_num))]
      simp

theorem kputw_nat (n : Nat) : kputw (n : Int) = Nat.toDigits 10 n := by
  unfold kputw Nat.toDigits
  rw [toDigitsCore_eq n n [] (le_refl _)]
  have h : ¬ ((n : Int) < 0) := by omega
  simp [h]

theorem match_pos_emits (query rseq : List Nat) (tbl : List Char) :
    Emits (match_pos query rseq tbl) query rseq tbl differs := by
  constructor
  · intro s i
    exact (match_pos_counting query rseq tbl).x_eq s i
  · intro s i
    exact (match_pos_counting query rseq tbl).y_eq s i
  · intro s i
    unfold match_pos differs
    generalize query.getD (s.x + i) 0 = q
    generalize rseq.getD (s.y + i) 0 = r
    intro h
    have h' : q ≠ r := by simpa using h
    simp only [if_pos h', and_self]
  · intro s i
    unfold match_pos differs
    generalize query.getD (s.x + i) 0 = q
    generalize rseq.getD (s.y + i) 0 = r
    intro h
    have h' : ¬ q ≠ r := by simpa using h
    simp only [if_neg h', and_self]

theorem bis_match_pos_emits (parent : Nat) (query rseq : List Nat) (tbl : List Char) :
    Emits (bis_match_pos parent query rseq tbl) query rseq tbl (is_true_mismatch parent) := by
  constructor
  · intro s i
    exact (bis_match_pos_counting parent query rseq tbl).x_eq s i
  · intro s i
    exact (bis_match_pos_counting parent query rseq tbl).y_eq s i
  · intro s i
    simp only [bis_match_pos, is_true_mismatch, is_conversion]
    generalize query.getD (s.x + i) 0 = q
    generalize rseq.getD (s.y + i) 0 = r
    intro h
    split_ifs <;> simp_all
  · intro s i
    simp only [bis_match_pos, is_true_mismatch, is_conversion]
    generalize query.getD (s.x + i) 0 = q
    generalize rseq.getD (s.y + i) 0 = r
    intro h
    split_ifs <;> simp_all

theorem match_fold_render {mp : NMState → Nat → NMState} {query rseq : List Nat}
    {tbl : List Char} {mm : Nat → Nat → Bool} (he : Emits mp query rseq tbl mm)
    (s : NMState) (run : Nat) (hu : s.u = (run : Int)) (len : Nat) :
    ((List.range len).foldl mp s).x = s.x ∧ ((List.range len).foldl mp s).y = s.y ∧
    ∃ run1 : Nat, ((List.range len).foldl mp s).u = (run1 : Int) ∧
      ∀ rest : List MdEvent,
        s.str ++ render tbl mm ((List.range len).map
            (fun i => MdEvent.cmp (query.getD (s.x + i) 0) (rseq.getD (s.y + i) 0)) ++ rest)
            run =
          ((List.range len).foldl mp s).str ++ render tbl mm rest run1 := by
  induction len with
  | zero =>
    exact ⟨rfl, rfl, run, hu, fun rest => rfl⟩
  | succ n ih =>
    obtain ⟨hx, hy, run1, hu1, hr⟩ := ih
    have e : (List.range (n + 1)).foldl mp s = mp ((List.range n).foldl mp s) n := by
      rw [List.range_succ, List.foldl_append]
      rfl
    rw [e, he.x_eq, he.y_eq]
    refine ⟨hx, hy, ?_⟩
    by_cases hm : mm (query.getD (s.x + n) 0) (rseq.getD (s.y + n) 0) = true
    · have hm' := hm
      rw [← hx, ← hy] at hm'
      obtain ⟨h1, h2⟩ := he.on_mm _ n hm'
      refine ⟨0, by rw [h2]; rfl, ?_⟩
      intro rest
      rw [List.range_succ, List.map_append, List.append_assoc, hr, h1, hu1, hy]
      simp only [List.map_cons, List.map_nil, List.singleton_append, render, if_pos hm,
        List.append_assoc]
      rfl
    · have hm0 : mm (query.getD (s.x + n) 0) (rseq.getD (s.y + n) 0) = false := by
        simpa using hm
      have hm' := hm0
      rw [← hx, ← hy] at hm'
      obtain ⟨h1, h2⟩ := he.on_eq _ n hm'
      refine ⟨run1 + 1, by rw [h2, hu1]; push_cast; rfl, ?_⟩
      intro rest
      rw [List.range_succ, List.map_append, List.append_assoc, hr, h1]
      simp only [List.map_cons, List.map_nil, List.singleton_append, render, hm0,
        Bool.false_eq_true, if_false]
      rfl

theorem nm_loop_render {mp : NMState → Nat → NMState} {query rseq : List Nat}
    {tbl : List Char} {mm : Nat → Nat → Bool} (he : Emits mp query rseq tbl mm) (n : Int)
    (ws : List Nat) :
    ∀ (k : Nat) (s : NMState) (run : Nat), s.u = (run : Int) →
      ∃ run1 : Nat, (nm_loop mp rseq tbl n k ws s).u = (run1 : Int) ∧
        ∀ rest : List MdEvent,
          s.str ++ render tbl mm (md_events query rseq n k ws s.x s.y ++ rest) run =
            (nm_loop mp rseq tbl n k ws s).str ++ render tbl mm rest run1 := by
  induction ws with
  | nil =>
    intro k s run hu
    exact ⟨run, hu, fun rest => rfl⟩
  | cons w ws ih =>
    intro k s run hu
    rw [nm_loop, md_events]
    by_cases o0 : cigar_op w = 0
    · obtain ⟨fx, fy, run1, hu1, hr⟩ := match_fold_render he s run hu (cigar_len w)
      rw [nm_step_match _ _ _ _ _ _ _ o0]
      obtain ⟨run2, hu2, hr2⟩ := ih (k + 1)
        { (List.range (cigar_len w)).foldl mp s with
          x := ((List.range (cigar_len w)).foldl mp s).x + cigar_len w
          y := ((List.range (cigar_len w)).foldl mp s).y + cigar_len w } run1 hu1
      refine ⟨run2, hu2, ?_⟩
      intro rest
      rw [← hr2 rest]
      dsimp only
      rw [if_pos o0, List.append_assoc, hr, fx, fy]
    · by_cases o2 : cigar_op w = 2
      · rw [nm_step_del _ _ _ _ _ _ _ o2, del_block_eq, if_neg o0, if_pos o2]
        by_cases hk : k > 0 ∧ (k : Int) < n - 1
        · rw [if_pos hk, if_pos hk]
          obtain ⟨run2, hu2, hr2⟩ := ih (k + 1)
            { s with
              str := s.str ++ kputw s.u ++ ['^'] ++
                ((List.range (cigar_len w)).map
                  (fun i => tbl.getD (rseq.getD (s.y + i) 0) nul))
              u := 0
              n_gap := s.n_gap + cigar_len w
              y := s.y + cigar_len w } 0 rfl
          refine ⟨run2, hu2, ?_⟩
          intro rest
          rw [← hr2 rest]
          dsimp only
          simp only [List.singleton_append, List.cons_append, render, hu, List.map_map,
            List.append_assoc, List.nil_append]
          rfl
        · rw [if_neg hk, if_neg hk]
          obtain ⟨run2, hu2, hr2⟩ := ih (k + 1) { s with y := s.y + cigar_len w } run hu
          refine ⟨run2, hu2, ?_⟩
          intro rest
          rw [← hr2 rest]
          rfl
      · by_cases o1 : cigar_op w = 1
        · rw [nm_step_ins _ _ _ _ _ _ _ o1, if_neg o0, if_neg o2, if_pos o1]
          obtain ⟨run2, hu2, hr2⟩ := ih (k + 1)
            { s with x := s.x + cigar_len w, n_gap := s.n_gap + cigar_len w } run hu
          refine ⟨run2, hu2, ?_⟩
          intro rest
          rw [← hr2 rest]
        · rw [nm_step_other _ _ _ _ _ _ _ o0 o2 o1, if_neg o0, if_neg o2, if_neg o1]
          exact ih (k + 1) s run hu

theorem nm_pass_render {mp : NMState → Nat → NMState} {query rseq : List Nat}
    {tbl : List Char} {mm : Nat → Nat → Bool} (he : Emits mp query rseq tbl mm)
    (ops : List Nat) :
    (nm_pass mp rseq tbl ops).str =
      render tbl mm (md_events query rseq (ops.length : Int) 0 ops 0 0) 0 ++ [nul] := by
  obtain ⟨run1, hu1, hr⟩ :=
    nm_loop_render he (ops.length : Int) ops 0 NMState.init 0 rfl
  have h := hr []
  unfold nm_pass
  dsimp only
  rw [hu1, List.append_assoc, ← List.append_assoc _ (kputw _)]
  rw [List.append_nil] at h
  have h2 : NMState.init.str = [] := rfl
  rw [h2, List.nil_append] at h
  have hx : NMState.init.x = 0 := rfl
  have hy : NMState.init.y = 0 := rfl
  rw [hx, hy] at h
  rw [h]
  rfl

theorem render_cmps_eq_md_single_block (ps : List (Nat × Nat)) :
    ∀ run : Nat,
      render ['A', 'C', 'G', 'T', 'N'] differs (ps.map (fun p => MdEvent.cmp p.1 p.2)) run =
        md_single_block ps run := by
  induction ps with
  | nil =>
    intro run
    simp only [List.map_nil, render, md_single_block, kputw_nat]
  | cons p ps ih =>
    intro run
    obtain ⟨q, r⟩ := p
    simp only [List.map_cons, render, md_single_block, differs, ih, kputw_nat, base_letter]
    by_cases h : q = r
    · simp [h]
    · simp [h]

theorem single_block_events (query rseq : List Nat) (n : Int) (w : Nat)
    (hop : cigar_op w = 0) :
    md_events query rseq n 0 [w] 0 0 =
      ((List.range (cigar_len w)).map (fun i => (query.getD i 0, rseq.getD i 0))).map
        (fun p => MdEvent.cmp p.1 p.2) := by
  simp [md_events, hop]

theorem single_block_counts (query rseq : List Nat) (w : Nat) (hop : cigar_op w = 0) :
    count_pairs differs query rseq (match_pairs [w] 0 0) =
        ((List.range (cigar_len w)).filter
          (fun i => decide (query.getD i 0 ≠ rseq.getD i 0))).length ∧
      insertion_total [w] = 0 ∧ nonedge_deletion_total [w] = 0 := by
  refine ⟨?_, ?_, ?_⟩
  · simp only [match_pairs, if_pos hop, List.append_nil, count_pairs, List.countP_map,
      Nat.zero_add]
    rw [List.countP_eq_length_filter]
    rfl
  · simp [insertion_total, List.filter_cons, hop]
  · simp [nonedge_deletion_total, nonedge_deletion_from, List.enumFrom_cons,
      List.filter_cons, hop]

/-! ## Lemmas: reading the MD text back -/

theorem digit_char (d : Nat) (h : d < 10) :
    (Char.ofNat (d + 48)).isDigit = true ∧ (Char.ofNat (d + 48)).toNat - 48 = d := by
  interval_cases d <;> exact ⟨by decide, by decide⟩

theorem kputw_buf_digits (f : Nat) :
    ∀ x : Nat, ∀ c ∈ kputw_buf f x, c.isDigit = true := by
  induction f with
  | zero =>
    intro x c hc
    simp only [kputw_buf, List.mem_singleton] at hc
    rw [hc]
    exact (digit_char (x % 10) (Nat.mod_lt _ (by norm_num))).1
  | succ f ih =>
    intro x c hc
    rw [kputw_buf, List.mem_cons] at hc
    rcases hc with hc | hc
    · rw [hc]
      exact (digit_char (x % 10) (Nat.mod_lt _ (by norm_num))).1
    · by_cases h : x / 10 > 0
      · rw [if_pos h] at hc
        exact ih _ c hc
      · rw [if_neg h] at hc
        exact absurd hc (List.not_mem_nil c)

theorem kputw_buf_value (f : Nat) :
    ∀ x : Nat, x ≤ f →
      (kputw_buf f x).foldr (fun c a => a * 10 + (c.toNat - 48)) 0 = x := by
  induction f with
  | zero =>
    intro x hx
    have : x = 0 := by omega
    subst this
    decide
  | succ f ih =>
    intro x hx
    rw [kputw_buf, List.foldr_cons, (digit_char (x % 10) (Nat.mod_lt _ (by norm_num))).2]
    by_cases h : x / 10 > 0
    · rw [if_pos h, ih (x / 10) (by omega)]
      omega
    · rw [if_neg h, List.foldr_nil]
      omega

theorem kputw_buf_ne_nil (f x : Nat) : kputw_buf f x ≠ [] := by
  cases f <;> simp [kputw_buf]

theorem read_digits_append (rest : List Char)
    (hrest : ∀ c cs, rest = c :: cs → c.isDigit = false) :
    ∀ (ds : List Char) (acc : Nat), (∀ c ∈ ds, c.isDigit = true) →
      read_digits (ds ++ rest) acc =
        (ds.foldl (fun a c => a * 10 + (c.toNat - 48)) acc, rest) := by
  intro ds
  induction ds with
  | nil =>
    intro acc _
    cases rest with
    | nil => rfl
    | cons c cs =>
      rw [List.nil_append, read_digits, hrest c cs rfl]
      rfl
  | cons d ds ih =>
    intro acc hd
    rw [List.cons_append, read_digits, if_pos (hd d (List.mem_cons_self _ _)), List.foldl_cons]
    exact ih _ (fun c hc => hd c (List.mem_cons_of_mem _ hc))

theorem read_number_kputw (n : Nat) (rest : List Char)
    (hrest : ∀ c cs, rest = c :: cs → c.isDigit = false) :
    read_number (kputw (n : Int) ++ rest) = some (n, rest) := by
  have hk : kputw (n : Int) = (kputw_buf n n).reverse := by
    unfold kputw
    have h : ¬ ((n : Int) < 0) := by omega
    simp [h]
  have hdig : ∀ c ∈ (kputw_buf n n).reverse, c.isDigit = true := by
    intro c hc
    exact kputw_buf_digits n n c (List.mem_reverse.mp hc)
  have hval : (kputw_buf n n).reverse.foldl (fun a c => a * 10 + (c.toNat - 48)) 0 = n := by
    rw [List.foldl_reverse]
    exact kputw_buf_value n n (le_refl _)
  rw [hk]
  have hne : (kputw_buf n n).reverse ≠ [] := by
    intro h
    exact kputw_buf_ne_nil n n (List.reverse_eq_nil_iff.mp h)
  obtain ⟨d, ds, hds⟩ := List.exists_cons_of_ne_nil hne
  have e := read_digits_append rest hrest _ 0 hdig
  rw [hval] at e
  rw [hds] at e hdig ⊢
  rw [List.cons_append] at e ⊢
  unfold read_number
  simp only [hdig d (List.mem_cons_self _ _), if_true, e]

theorem int2base_good (rb l_pac : Int) : GoodTable (int2base rb l_pac) := by
  intro r hr
  unfold int2base
  by_cases h : rb < l_pac
  · rw [if_pos h]
    interval_cases r <;> exact ⟨by decide, by decide⟩
  · rw [if_neg h]
    interval_cases r <;> exact ⟨by decide, by decide⟩

theorem read_letters_map {tbl : List Char} (hg : GoodTable tbl) (rest : List Char) :
    ∀ rs : List Nat, (∀ r ∈ rs, r < 5) →
      read_letters tbl rs.length (rs.map (fun r => tbl.getD r nul) ++ rest) =
        some (rs, rest) := by
  intro rs
  induction rs with
  | nil =>
    intro _
    rfl
  | cons r rs ih =>
    intro h
    rw [List.length_cons, List.map_cons, List.cons_append, read_letters,
      (hg r (h r (List.mem_cons_self _ _))).1, ih (fun c hc => h c (List.mem_cons_of_mem _ hc))]
    rfl

theorem render_eq_lead_tail (tbl : List Char) (mm : Nat → Nat → Bool) (es : List MdEvent) :
    ∀ u : Nat,
      render tbl mm es u = kputw ((u + md_lead mm es : Nat) : Int) ++ md_tail tbl mm es := by
  induction es with
  | nil =>
    intro u
    simp [render, md_lead, md_tail]
  | cons e es ih =>
    intro u
    cases e with
    | cmp q r =>
      by_cases h : mm q r = true
      · simp only [render, md_lead, md_tail, if_pos h, ih 0, Nat.zero_add, Nat.add_zero,
          List.append_assoc, List.singleton_append]
      · simp only [render, md_lead, md_tail, if_neg h, ih (u + 1)]
        rw [show u + 1 + md_lead mm es = u + (md_lead mm es + 1) by omega]
    | del rs =>
      simp only [render, md_lead, md_tail, ih 0, Nat.zero_add, Nat.add_zero,
        List.append_assoc, List.singleton_append, List.cons_append, List.nil_append]

theorem md_tail_head {tbl : List Char} (hg : GoodTable tbl) (mm : Nat → Nat → Bool) :
    ∀ es : List MdEvent, (∀ e ∈ es, ∀ r ∈ e.refs, r < 5) →
      ∀ c cs, md_tail tbl mm es = c :: cs → c.isDigit = false := by
  intro es
  induction es with
  | nil =>
    intro _ c cs h
    simp [md_tail] at h
  | cons e es ih =>
    intro hr c cs h
    have hr' : ∀ e ∈ es, ∀ r ∈ e.refs, r < 5 :=
      fun e he => hr e (List.mem_cons_of_mem _ he)
    cases e with
    | cmp q r =>
      have hlt : r < 5 := hr (MdEvent.cmp q r) (List.mem_cons_self _ _) r (by simp [MdEvent.refs])
      by_cases hm : mm q r = true
      · simp only [md_tail, if_pos hm, List.cons.injEq] at h
        rw [← h.1]
        exact (hg r hlt).2
      · simp only [md_tail, if_neg hm] at h
        exact ih hr' c cs h
    | del rs =>
      simp only [md_tail, List.cons.injEq] at h
      rw [← h.1]
      decide

theorem replay_events {tbl : List Char} (hg : GoodTable tbl) (mm : Nat → Nat → Bool) :
    ∀ es : List MdEvent, (∀ e ∈ es, ∀ r ∈ e.refs, r < 5) →
      (∀ q r, MdEvent.cmp q r ∈ es → mm q r = false → q = r) →
      replay tbl (es.map MdEvent.slot) (md_lead mm es) (md_tail tbl mm es) =
        some (es.flatMap MdEvent.refs) := by
  intro es
  induction es with
  | nil =>
    intro _ _
    simp [replay, md_lead, md_tail]
  | cons e es ih =>
    intro hr heq
    have hr' : ∀ e ∈ es, ∀ r ∈ e.refs, r < 5 :=
      fun e he => hr e (List.mem_cons_of_mem _ he)
    have heq' : ∀ q r, MdEvent.cmp q r ∈ es → mm q r = false → q = r :=
      fun q r he => heq q r (List.mem_cons_of_mem _ he)
    have hnum := read_number_kputw (md_lead mm es) (md_tail tbl mm es)
      (md_tail_head hg mm es hr')
    have ih' := ih hr' heq'
    cases e with
    | cmp q r =>
      have hlt : r < 5 := hr (MdEvent.cmp q r) (List.mem_cons_self _ _) r (by simp [MdEvent.refs])
      by_cases hm : mm q r = true
      · simp only [List.map_cons, MdEvent.slot, md_lead, md_tail, if_pos hm, replay,
          gt_iff_lt, lt_self_iff_false, if_false, (hg r hlt).1, hnum, ih', Option.map_some',
          List.flatMap_cons, MdEvent.refs, List.singleton_append]
      · have hm0 : mm q r = false := by simpa using hm
        have hqr : q = r := heq q r (List.mem_cons_self _ _) hm0
        subst hqr
        simp only [List.map_cons, MdEvent.slot, md_lead, md_tail, if_neg hm, replay,
          gt_iff_lt, Nat.zero_lt_succ, if_true, Nat.add_sub_cancel, ih', Option.map_some',
          List.flatMap_cons, MdEvent.refs, List.singleton_append]
    | del rs =>
      have hrs : ∀ r ∈ rs, r < 5 := hr (MdEvent.del rs) (List.mem_cons_self _ _)
      have hlet := read_letters_map hg (kputw (md_lead mm es : Int) ++ md_tail tbl mm es) rs hrs
      simp only [List.map_cons, MdEvent.slot, md_lead, md_tail, replay, if_true, hlet,
        hnum, ih', Option.map_some', List.flatMap_cons, MdEvent.refs]

theorem events_slots (query rseq : List Nat) (n : Int) (ws : List Nat) :
    ∀ k x y : Nat,
      (md_events query rseq n k ws x y).map MdEvent.slot =
        replay_slots query n true k ws x := by
  induction ws with
  | nil =>
    intro k x y
    rfl
  | cons w ws ih =>
    intro k x y
    rw [md_events, replay_slots]
    by_cases o0 : cigar_op w = 0
    · simp only [if_pos o0, List.map_append, List.map_map, ih]
      rfl
    · by_cases o2 : cigar_op w = 2
      · by_cases hk : k > 0 ∧ (k : Int) < n - 1
        · simp [o2, hk, ih, MdEvent.slot]
        · simp [o2, hk, ih]
      · by_cases o1 : cigar_op w = 1
        · simp only [if_neg o0, if_neg o2, if_pos o1, ih]
        · simp only [if_neg o0, if_neg o2, if_neg o1, ih]

theorem events_refs (query rseq : List Nat) (n : Int) (ws : List Nat) :
    ∀ k x y : Nat,
      (md_events query rseq n k ws x y).flatMap MdEvent.refs =
        annotated_window rseq n k ws y := by
  induction ws with
  | nil =>
    intro k x y
    rfl
  | cons w ws ih =>
    intro k x y
    rw [md_events, annotated_window]
    by_cases o0 : cigar_op w = 0
    · simp only [if_pos o0, List.flatMap_append, ih]
      congr 1
      generalize List.range (cigar_len w) = l
      induction l with
      | nil => rfl
      | cons a l ihl =>
        simp only [List.map_cons, List.flatMap_cons, MdEvent.refs, List.singleton_append, ihl]
    · by_cases o2 : cigar_op w = 2
      · by_cases hk : k > 0 ∧ (k : Int) < n - 1
        · simp [o2, hk, ih, MdEvent.refs]
        · simp [o2, hk, ih]
      · by_cases o1 : cigar_op w = 1
        · simp only [if_neg o0, if_neg o2, if_pos o1, ih]
        · simp only [if_neg o0, if_neg o2, if_neg o1, ih]

theorem events_refs_lt (query rseq : List Nat) (n : Int) (hlt : ∀ i, rseq.getD i 0 < 5)
    (ws : List Nat) :
    ∀ k x y : Nat, ∀ e ∈ md_events query rseq n k ws x y, ∀ r ∈ e.refs, r < 5 := by
  induction ws with
  | nil =>
    intro k x y e he
    simp [md_events] at he
  | cons w ws ih =>
    intro k x y e he r hr
    rw [md_events] at he
    by_cases o0 : cigar_op w = 0
    · rw [if_pos o0, List.mem_append] at he
      rcases he with he | he
      · obtain ⟨i, -, hi⟩ := List.mem_map.mp he
        rw [← hi] at hr
        simp only [MdEvent.refs, List.mem_singleton] at hr
        rw [hr]
        exact hlt _
      · exact ih _ _ _ e he r hr
    · by_cases o2 : cigar_op w = 2
      · rw [if_neg o0, if_pos o2, List.mem_append] at he
        rcases he with he | he
        · by_cases hk : k > 0 ∧ (k : Int) < n - 1
          · rw [if_pos hk, List.mem_singleton] at he
            rw [he] at hr
            simp only [MdEvent.refs] at hr
            obtain ⟨i, -, hi⟩ := List.mem_map.mp hr
            rw [← hi]
            exact hlt _
          · rw [if_neg hk] at he
            exact absurd he (List.not_mem_nil e)
        · exact ih _ _ _ e he r hr
      · by_cases o1 : cigar_op w = 1
        · rw [if_neg o0, if_neg o2, if_pos o1] at he
          exact ih _ _ _ e he r hr
        · rw [if_neg o0, if_neg o2, if_neg o1] at he
          exact ih _ _ _ e he r hr

theorem getD_lt_of_forall (l : List Nat) (h : ∀ c ∈ l, c < 5) (i : Nat) : l.getD i 0 < 5 := by
  by_cases hi : i < l.length
  · rw [List.getD_eq_getElem _ _ hi]
    exact h _ (List.getElem_mem hi)
  · rw [List.getD_eq_default _ _ (by omega)]
    norm_num

theorem oriented_window_getD_lt (l_pac rb : Int) (l : List Nat) (h : ∀ c ∈ l, c < 5)
    (i : Nat) : (oriented_window l_pac rb l).getD i 0 < 5 := by
  unfold oriented_window
  by_cases hr : rb ≥ l_pac
  · rw [if_pos hr, reverse_inplace_getD _ _ (le_refl _)]
    split_ifs
    · exact getD_lt_of_forall l h _
    · exact getD_lt_of_forall l h _
  · rw [if_neg hr]
    exact getD_lt_of_forall l h _

theorem reference_total_cons (w : Nat) (ws : List Nat) :
    reference_total (w :: ws) =
      (if cigar_op w = 0 ∨ cigar_op w = 2 then cigar_len w else 0) + reference_total ws := by
  unfold reference_total
  by_cases h : cigar_op w = 0 ∨ cigar_op w = 2 <;> simp [List.filter_cons, h]

theorem slice_append (rseq : List Nat) (y a b : Nat) :
    (List.range (a + b)).map (fun i => rseq.getD (y + i) 0) =
      (List.range a).map (fun i => rseq.getD (y + i) 0) ++
        (List.range b).map (fun i => rseq.getD (y + a + i) 0) := by
  rw [List.range_add, List.map_append, List.map_map]
  congr 1
  apply List.map_congr_left
  intro i _
  simp only [Function.comp_apply, Nat.add_assoc]

theorem annotated_window_whole (rseq : List Nat) (n : Int) (ws : List Nat) :
    ∀ k y : Nat,
      (∀ j w, ws[j]? = some w → cigar_op w = 2 → 0 < k + j ∧ ((k + j : Nat) : Int) < n - 1) →
      annotated_window rseq n k ws y =
        (List.range (reference_total ws)).map (fun i => rseq.getD (y + i) 0) := by
  induction ws with
  | nil =>
    intro k y _
    rfl
  | cons w ws ih =>
    intro k y hne
    have hne' : ∀ j v, ws[j]? = some v → cigar_op v = 2 →
        0 < k + 1 + j ∧ ((k + 1 + j : Nat) : Int) < n - 1 := by
      intro j v hj hv
      have := hne (j + 1) v (by simpa using hj) hv
      rw [show k + 1 + j = k + (j + 1) by omega]
      exact this
    rw [annotated_window, reference_total_cons]
    by_cases o0 : cigar_op w = 0
    · rw [if_pos o0, if_pos (Or.inl o0), ih (k + 1) _ hne', slice_append]
    · by_cases o2 : cigar_op w = 2
      · have hk := hne 0 w (by simp) o2
        have hk' : k > 0 ∧ (k : Int) < n - 1 := by
          simpa using hk
        rw [if_neg o0, if_pos o2, if_pos hk', if_pos (Or.inr o2), ih (k + 1) _ hne',
          slice_append]
      · have h02 : ¬ (cigar_op w = 0 ∨ cigar_op w = 2) := by
          rintro (h | h)
          · exact o0 h
          · exact o2 h
        rw [if_neg o0, if_neg o2, if_neg h02, Nat.zero_add, ih (k + 1) _ hne']

theorem slice_whole (l : List Nat) :
    (List.range l.length).map (fun i => l.getD (0 + i) 0) = l := by
  apply List.ext_getElem
  · simp
  · intro i h1 h2
    simp only [List.getElem_map, List.getElem_range, Nat.zero_add]
    exact List.getD_eq_getElem _ _ h2

theorem oriented_window_length (l_pac rb : Int) (l : List Nat) :
    (oriented_window l_pac rb l).length = l.length := by
  unfold oriented_window
  by_cases hr : rb ≥ l_pac
  · rw [if_pos hr, reverse_inplace_length _ _ (le_refl _)]
  · rw [if_neg hr]

theorem differs_false (q r : Nat) (h : differs q r = false) : q = r := by
  unfold differs at h
  simpa using h

/-! ## Lemmas: the general path -/

theorem reverse_inplace_eq_reverse (a : List Nat) :
    reverse_inplace a.length a = a.reverse := by
  have hlen := reverse_inplace_length a.length a (le_refl _)
  apply List.ext_getElem
  · rw [hlen, List.length_reverse]
  · intro n h1 h2
    have hn : n < a.length := by
      rw [hlen] at h1
      exact h1
    have h := reverse_inplace_getD a.length a (le_refl _) n
    rw [List.getD_eq_getElem _ _ h1, if_pos hn, List.getD_eq_getElem _ _ (by omega)] at h
    rw [h, List.getElem_reverse]

theorem gen_cigar_align_general (ksw : Aligner) (mat : List Int)
    (o_del e_del o_ins e_ins w_ l_query : Int) (query : List Nat) (rb re : Int)
    (rseq : List Nat) (rlen : Int) (n_cigar : Bool)
    (hgen : ¬ (l_query = re - rb ∧ w_ = 0)) :
    gen_cigar_align ksw mat o_del e_del o_ins e_ins w_ l_query query rb re rseq rlen n_cigar =
      (if n_cigar then
         some (ksw l_query query rlen rseq 5 mat o_del e_del o_ins e_ins
           (band_width mat o_del e_del o_ins e_ins w_ l_query rlen)).2
       else none,
       if n_cigar then
         some (((ksw l_query query rlen rseq 5 mat o_del e_del o_ins e_ins
           (band_width mat o_del e_del o_ins e_ins w_ l_query rlen)).2.length : Nat) : Int)
       else none,
       (ksw l_query query rlen rseq 5 mat o_del e_del o_ins e_ins
         (band_width mat o_del e_del o_ins e_ins w_ l_query rlen)).1) := by
  unfold gen_cigar_align
  rw [if_neg hgen]

/-! ## Lemmas: the band width -/

theorem trunc_double_intCast (z : Int) : trunc_double (z : ℚ) = z := by
  unfold trunc_double
  split_ifs
  · exact Int.floor_intCast z
  · exact Int.ceil_intCast z

theorem int32_of_fits (x : Int) (h : -2 ^ 31 ≤ x ∧ x < 2 ^ 31) : int32 x = x := by
  unfold int32
  norm_num at h ⊢
  omega

theorem shiftRight_one (x : Int) : x >>> 1 = x / 2 := by
  cases x with
  | ofNat m =>
    have h := Int.shiftRight_coe_nat m 1
    simp only [Nat.cast_one] at h
    rw [Int.ofNat_eq_coe, h, Nat.shiftRight_eq_div_pow]
    norm_num
  | negSucc m =>
    have h := Int.shiftRight_negSucc m 1
    simp only [Nat.cast_one] at h
    rw [h, Nat.shiftRight_eq_div_pow, Int.negSucc_eq, Int.negSucc_eq]
    norm_num
    omega

theorem ite_gt_eq_max (a b : Int) : (if a > b then a else b) = max a b := by
  rw [max_def]
  split_ifs <;> omega

theorem ite_lt_eq_min (a b : Int) : (if a < b then a else b) = min b a := by
  rw [min_def]
  split_ifs <;> omega

/-- Where the difference of the lengths fits an `int`, the band width of the code is the
band width of the specification, and it is at least `d + 3`. -/
theorem band_width_eq_spec (mat : List Int) (o_del e_del o_ins e_ins w_ : Int)
    (l_query rlen : Int) (hr : |rlen - l_query| < 2 ^ 31) :
    band_width mat o_del e_del o_ins e_ins w_ l_query rlen =
      band_width_spec mat o_del e_del o_ins e_ins w_ l_query rlen ∧
    |rlen - l_query| + 3 ≤ band_width mat o_del e_del o_ins e_ins w_ l_query rlen := by
  have hfit : int32 (rlen - l_query) = rlen - l_query := by
    apply int32_of_fits
    have h1 := abs_lt.mp hr
    constructor
    · have := h1.1
      norm_num at this ⊢
      omega
    · exact h1.2
  have e : band_width mat o_del e_del o_ins e_ins w_ l_query rlen =
      band_width_spec mat o_del e_del o_ins e_ins w_ l_query rlen := by
    unfold band_width band_width_spec
    simp only [hfit, shiftRight_one, ite_gt_eq_max, ite_lt_eq_min]
  refine ⟨e, ?_⟩
  rw [e]
  unfold band_width_spec
  exact le_max_right _ _

/-! ## Lemmas: the aligner of the specification on a zero band -/

theorem band_width_zero (mat : List Int) (o_del e_del o_ins e_ins l : Int) :
    band_width mat o_del e_del o_ins e_ins 0 l l = 3 := by
  have h0 : int32 (l - l) = 0 := by
    rw [sub_self]
    decide
  unfold band_width
  simp only [h0, shiftRight_one, abs_zero]
  generalize trunc_double _ = a
  generalize trunc_double _ = b
  split_ifs <;> omega

theorem fast_score_cons (mat : List Int) (n : Nat) (a b : Nat) (q t : List Nat) :
    fast_score mat (n + 1) (a :: q) (b :: t) =
      fast_score mat n q t + mat.getD (b * 5 + a) 0 := by
  rw [fast_score_eq_sum, fast_score_eq_sum, Finset.sum_range_succ']
  rfl

theorem nw_best_band_zero (mat : List Int) (o_del e_del o_ins e_ins : Int) :
    ∀ (q t : List Nat) (fuel prev : Nat), q.length = t.length →
      q.length + t.length ≤ fuel →
      nw_best mat o_del e_del o_ins e_ins 0 fuel q t 0 prev =
        some (fast_score mat q.length q t, List.replicate q.length 0) := by
  intro q
  induction q with
  | nil =>
    intro t fuel prev hl _
    have ht : t = [] := List.length_eq_zero.mp hl.symm
    subst ht
    cases fuel <;> rfl
  | cons a q ih =>
    intro t fuel prev hl hf
    cases t with
    | nil => simp at hl
    | cons b t =>
      simp only [List.length_cons] at hl hf
      cases fuel with
      | zero => omega
      | succ f =>
        have hi : ¬ (|(0 : Int) + 1| ≤ 0) := by decide
        have hd : ¬ (|(0 : Int) - 1| ≤ 0) := by decide
        rw [nw_best]
        simp only [if_neg hi, if_neg hd, ih t f 0 (by omega) (by omega), Option.map_some',
          nw_better, List.length_cons, fast_score_cons, List.replicate_succ]

theorem pack_runs_replicate (l : Nat) :
    pack_runs (List.replicate (l + 1) 0) = [uint32 ((l + 1) <<< 4 ||| 0)] := by
  induction l with
  | zero => rfl
  | succ l ih =>
    rw [List.replicate_succ, pack_runs, ih]
    simp only [uint32_pack_match (l + 1), cigar_op_pack_match, cigar_len_pack_match, if_true,
      uint32_pack_match_succ]

theorem ksw_global2_spec_band_zero (mat : List Int) (o_del e_del o_ins e_ins : Int)
    (m : Int) (query rseq : List Nat) (l : Nat) (hq : query.length = l + 1)
    (hr : rseq.length = l + 1) :
    ksw_global2_spec ((l + 1 : Nat) : Int) query ((l + 1 : Nat) : Int) rseq m mat o_del e_del
        o_ins e_ins 0 =
      (fast_score mat (l + 1) query rseq, [uint32 ((l + 1) <<< 4 ||| 0)]) := by
  unfold ksw_global2_spec
  have h1 : query.take ((l + 1 : Nat) : Int).toNat = query := by
    rw [Int.toNat_natCast, ← hq, List.take_length]
  have h2 : rseq.take ((l + 1 : Nat) : Int).toNat = rseq := by
    rw [Int.toNat_natCast, ← hr, List.take_length]
  rw [h1, h2, nw_best_band_zero mat o_del e_del o_ins e_ins query rseq _ 0 (by omega)
    (le_refl _)]
  simp only [hq, pack_runs_replicate]

/-! ## Lemmas: the query buffer after the call -/
theorem gen_cigar_query_after (fetch : Accessor) (ksw : Aligner) (mat : List Int)
    (o_del e_del o_ins e_ins w_ l_pac : Int) (pac : List Nat) (l_query : Int)
    (query : List Nat) (rb re : Int) (n_cigar NM : Bool) (parent : Nat) :
    (bis_bwa_gen_cigar2 fetch ksw mat o_del e_del o_ins e_ins w_ l_pac pac l_query query rb
      re n_cigar NM parent).query =
    (bwa_gen_cigar2 fetch ksw mat o_del e_del o_ins e_ins w_ l_pac pac l_query query rb re
      n_cigar NM).query ∧
    (bwa_gen_cigar2 fetch ksw mat o_del e_del o_ins e_ins w_ l_pac pac l_query query rb re
      n_cigar NM).query =
      if l_query ≤ 0 ∨ rb ≥ re ∨ (rb < l_pac ∧ re > l_pac) then query
      else if re - rb ≠ ((fetch l_pac pac rb re).length : Int) then query
      else if rb ≥ l_pac then
        reverse_inplace l_query.toNat (reverse_inplace l_query.toNat query)
      else query := by
  unfold bis_bwa_gen_cigar2 bwa_gen_cigar2
  by_cases hg : l_query ≤ 0 ∨ rb ≥ re ∨ (rb < l_pac ∧ re > l_pac)
  · simp only [if_pos hg]
    exact ⟨trivial, trivial⟩
  · by_cases hl : re - rb ≠ ((fetch l_pac pac rb re).length : Int)
    · simp only [if_neg hg, if_pos hl]
      exact ⟨trivial, trivial⟩
    · simp only [if_neg hg, if_neg hl]
      by_cases hf : (NM = true ∧ n_cigar = true)
      · simp only [if_pos hf]
        by_cases hr : rb ≥ l_pac
        · simp only [if_pos hr]
          exact ⟨trivial, trivial⟩
        · simp only [if_neg hr]
          exact ⟨trivial, trivial⟩
      · simp only [if_neg hf]
        by_cases hr : rb ≥ l_pac
        · simp only [if_pos hr]
          exact ⟨trivial, trivial⟩
        · simp only [if_neg hr]
          exact ⟨trivial, trivial⟩

/-! ## Lemmas: the plain routine against the bisulfite routine -/

theorem gen_cigar_same_score (fetch : Accessor) (ksw : Aligner) (mat : List Int)
    (o_del e_del o_ins e_ins w_ l_pac : Int) (pac : List Nat) (l_query : Int)
    (query : List Nat) (rb re : Int) (n_cigar NM : Bool) (parent : Nat) :
    (bis_bwa_gen_cigar2 fetch ksw mat o_del e_del o_ins e_ins w_ l_pac pac l_query query rb
      re n_cigar NM parent).score =
    (bwa_gen_cigar2 fetch ksw mat o_del e_del o_ins e_ins w_ l_pac pac l_query query rb re
      n_cigar NM).score := by
  unfold bis_bwa_gen_cigar2 bwa_gen_cigar2
  by_cases hg : l_query ≤ 0 ∨ rb ≥ re ∨ (rb < l_pac ∧ re > l_pac)
  · simp only [if_pos hg]
  · by_cases hl : re - rb ≠ ((fetch l_pac pac rb re).length : Int)
    · simp only [if_neg hg, if_pos hl]
    · simp only [if_neg hg, if_neg hl]
      by_cases hf : (NM = true ∧ n_cigar = true)
      · simp only [if_pos hf]
      · simp only [if_neg hf]

theorem count_pairs_differs_split (parent : Nat) (query rseq : List Nat)
    (ps : List (Nat × Nat)) :
    count_pairs differs query rseq ps =
      count_pairs (is_true_mismatch parent) query rseq ps +
        count_pairs (is_conversion parent) query rseq ps := by
  unfold count_pairs
  induction ps with
  | nil => simp
  | cons p ps ih =>
    have h : (if differs (query.getD p.1 0) (rseq.getD p.2 0) = true then 1 else 0) =
        (if is_true_mismatch parent (query.getD p.1 0) (rseq.getD p.2 0) = true then 1 else 0) +
        (if is_conversion parent (query.getD p.1 0) (rseq.getD p.2 0) = true then 1 else 0) := by
      generalize query.getD p.1 0 = a
      generalize rseq.getD p.2 0 = b
      unfold is_true_mismatch is_conversion differs
      by_cases hp : parent = 0 <;> by_cases hab : a = b <;> simp [hp, hab] <;> split_ifs <;>
        omega
    simp only [List.countP_cons]
    omega

theorem differs_eq_true_mismatch (parent q r : Nat) (h : is_conversion parent q r = false) :
    differs q r = is_true_mismatch parent q r := by
  unfold is_true_mismatch differs
  rw [h]
  simp

theorem render_congr (tbl : List Char) (mm mm2 : Nat → Nat → Bool) (es : List MdEvent) :
    (∀ q r, MdEvent.cmp q r ∈ es → mm q r = mm2 q r) →
      ∀ u : Nat, render tbl mm es u = render tbl mm2 es u := by
  induction es with
  | nil =>
    intro _ u
    rfl
  | cons e es ih =>
    intro h u
    have ih' := ih (fun q r hm => h q r (List.mem_cons_of_mem _ hm))
    cases e with
    | cmp q r =>
      have hq := h q r (List.mem_cons_self _ _)
      simp only [render, hq, ih']
    | del rs =>
      simp only [render, ih']

theorem events_cmp_of_pairs (query rseq : List Nat) (n : Int) (p : Nat → Nat → Bool)
    (ws : List Nat) :
    ∀ k x y : Nat,
      (∀ xy ∈ match_pairs ws x y, p (query.getD xy.1 0) (rseq.getD xy.2 0) = false) →
      ∀ q r, MdEvent.cmp q r ∈ md_events query rseq n k ws x y → p q r = false := by
  induction ws with
  | nil =>
    intro k x y _ q r he
    simp [md_events] at he
  | cons w ws ih =>
    intro k x y hp q r he
    rw [match_pairs] at hp
    rw [md_events] at he
    by_cases o0 : cigar_op w = 0
    · rw [if_pos o0] at hp he
      rw [List.mem_append] at he
      rcases he with he | he
      · obtain ⟨i, hi, hie⟩ := List.mem_map.mp he
        have := hp (x + i, y + i)
          (List.mem_append_left _ (List.mem_map.mpr ⟨i, hi, rfl⟩))
        simp only [MdEvent.cmp.injEq] at hie
        rw [← hie.1, ← hie.2]
        exact this
      · exact ih _ _ _ (fun xy hxy => hp xy (List.mem_append_right _ hxy)) q r he
    · by_cases o2 : cigar_op w = 2
      · rw [if_neg o0, if_pos o2] at hp he
        rw [List.mem_append] at he
        rcases he with he | he
        · by_cases hk : k > 0 ∧ (k : Int) < n - 1
          · rw [if_pos hk, List.mem_singleton] at he
            exact absurd he (by simp)
          · rw [if_neg hk] at he
            exact absurd he (List.not_mem_nil _)
        · exact ih _ _ _ hp q r he
      · by_cases o1 : cigar_op w = 1
        · rw [if_neg o0, if_neg o2, if_pos o1] at hp he
          exact ih _ _ _ hp q r he
        · rw [if_neg o0, if_neg o2, if_neg o1] at hp he
          exact ih _ _ _ hp q r he

/-! ## Lemmas: the totals of the MD text -/

theorem base_letter_not_digit (c : Char) (h : is_base_letter c = true) :
    c.isDigit = false ∧ c ≠ '^' := by
  unfold is_base_letter at h
  simp only [List.contains_cons, List.contains_nil, Bool.or_false, Bool.or_eq_true,
    beq_iff_eq] at h
  rcases h with h | h | h | h | h <;> subst h <;> exact ⟨by decide, by decide⟩

theorem int2base_letters (rb l_pac : Int) (r : Nat) (hr : r < 5) :
    is_base_letter ((int2base rb l_pac).getD r nul) = true := by
  unfold int2base
  by_cases h : rb < l_pac
  · rw [if_pos h]
    interval_cases r <;> decide
  · rw [if_neg h]
    interval_cases r <;> decide

theorem kputw_nat_head (n : Nat) :
    ∃ d ds, kputw (n : Int) = d :: ds ∧ d.isDigit = true := by
  have hk : kputw (n : Int) = (kputw_buf n n).reverse := by
    unfold kputw
    have h : ¬ ((n : Int) < 0) := by omega
    simp [h]
  have hne : (kputw_buf n n).reverse ≠ [] := by
    intro h
    exact kputw_buf_ne_nil n n (List.reverse_eq_nil_iff.mp h)
  obtain ⟨d, ds, hds⟩ := List.exists_cons_of_ne_nil hne
  refine ⟨d, ds, by rw [hk, hds], ?_⟩
  apply kputw_buf_digits n n d
  rw [← List.mem_reverse, hds]
  exact List.mem_cons_self _ _

theorem take_letters_map {tbl : List Char}
    (hl : ∀ r : Nat, r < 5 → is_base_letter (tbl.getD r nul) = true) (rest : List Char)
    (hrest : ∀ c cs, rest = c :: cs → is_base_letter c = false) :
    ∀ rs : List Nat, (∀ r ∈ rs, r < 5) →
      take_letters (rs.map (fun r => tbl.getD r nul) ++ rest) = (rs.length, rest) := by
  intro rs
  induction rs with
  | nil =>
    intro _
    cases rest with
    | nil => rfl
    | cons c cs =>
      rw [List.map_nil, List.nil_append, take_letters, hrest c cs rfl]
      rfl
  | cons r rs ih =>
    intro h
    rw [List.map_cons, List.cons_append, take_letters,
      hl r (h r (List.mem_cons_self _ _)), if_pos rfl,
      ih (fun c hc => h c (List.mem_cons_of_mem _ hc))]
    rfl

theorem kputw_append_head_not_letter (n : Nat) (tl : List Char) :
    ∀ c cs, kputw (n : Int) ++ tl = c :: cs → is_base_letter c = false := by
  intro c cs h
  obtain ⟨d, ds, hd, hdig⟩ := kputw_nat_head n
  rw [hd, List.cons_append, List.cons.injEq] at h
  rw [← h.1]
  by_contra hc
  have := (base_letter_not_digit d (by simpa using hc)).1
  rw [hdig] at this
  exact Bool.noConfusion this

theorem md_tally_tail {tbl : List Char} (hg : GoodTable tbl)
    (hl : ∀ r : Nat, r < 5 → is_base_letter (tbl.getD r nul) = true)
    (mm : Nat → Nat → Bool) :
    ∀ es : List MdEvent, (∀ e ∈ es, ∀ r ∈ e.refs, r < 5) →
      ∀ f : Nat, (md_tail tbl mm es).length ≤ f →
        ∃ t : MdTotals, md_tally f (md_tail tbl mm es) = some t ∧
          md_lead mm es + t.runs + t.mismatches = event_positions es ∧
          t.deleted = event_deleted es := by
  intro es
  induction es with
  | nil =>
    intro _ f _
    refine ⟨{ runs := 0, mismatches := 0, deleted := 0 }, ?_, rfl, rfl⟩
    cases f <;> rfl
  | cons e es ih =>
    intro hr f hf
    have hr' : ∀ e ∈ es, ∀ r ∈ e.refs, r < 5 :=
      fun e he => hr e (List.mem_cons_of_mem _ he)
    have hnum := read_number_kputw (md_lead mm es) (md_tail tbl mm es)
      (md_tail_head hg mm es hr')
    cases e with
    | cmp q r =>
      have hlt : r < 5 := hr (MdEvent.cmp q r) (List.mem_cons_self _ _) r (by simp [MdEvent.refs])
      by_cases hm : mm q r = true
      · simp only [md_tail, if_pos hm, List.length_cons, List.length_append] at hf ⊢
        obtain ⟨f1, rfl⟩ : ∃ f1, f = f1 + 1 := ⟨f - 1, by omega⟩
        obtain ⟨t, ht, h1, h2⟩ := ih hr' f1 (by omega)
        have hne : tbl.getD r nul ≠ '^' := (base_letter_not_digit _ (hl r hlt)).2
        refine ⟨{ t with runs := t.runs + md_lead mm es, mismatches := t.mismatches + 1 },
          ?_, ?_, ?_⟩
        · rw [md_tally, if_neg hne, if_pos (hl r hlt)]
          simp only [hnum, ht, Option.map_some']
        · simp only [md_lead, if_pos hm, event_positions]
          omega
        · simp only [event_deleted]
          exact h2
      · simp only [md_tail, if_neg hm] at hf ⊢
        obtain ⟨t, ht, h1, h2⟩ := ih hr' f hf
        refine ⟨t, ht, ?_, ?_⟩
        · simp only [md_lead, if_neg hm, event_positions]
          omega
        · simp only [event_deleted]
          exact h2
    | del rs =>
      have hrs : ∀ r ∈ rs, r < 5 := hr (MdEvent.del rs) (List.mem_cons_self _ _)
      simp only [md_tail, List.length_cons, List.length_append] at hf ⊢
      obtain ⟨f1, rfl⟩ : ∃ f1, f = f1 + 1 := ⟨f - 1, by omega⟩
      obtain ⟨t, ht, h1, h2⟩ := ih hr' f1 (by omega)
      have htl := take_letters_map hl (kputw (md_lead mm es : Int) ++ md_tail tbl mm es)
        (kputw_append_head_not_letter _ _) rs hrs
      refine ⟨{ t with runs := t.runs + md_lead mm es, deleted := t.deleted + rs.length },
        ?_, ?_, ?_⟩
      · rw [md_tally, if_pos rfl]
        simp only [htl, hnum, ht, Option.map_some']
      · simp only [md_lead, event_positions]
        omega
      · simp only [event_deleted]
        omega

theorem md_totals_render {tbl : List Char} (hg : GoodTable tbl)
    (hl : ∀ r : Nat, r < 5 → is_base_letter (tbl.getD r nul) = true)
    (mm : Nat → Nat → Bool) (es : List MdEvent) (hr : ∀ e ∈ es, ∀ r ∈ e.refs, r < 5) :
    ∃ t : MdTotals, md_totals (render tbl mm es 0) = some t ∧
      t.runs + t.mismatches = event_positions es ∧ t.deleted = event_deleted es := by
  obtain ⟨t, ht, h1, h2⟩ := md_tally_tail hg hl mm es hr _ (le_refl _)
  have hnum := read_number_kputw (md_lead mm es) (md_tail tbl mm es)
    (md_tail_head hg mm es hr)
  refine ⟨{ t with runs := t.runs + md_lead mm es }, ?_, ?_, h2⟩
  · rw [render_eq_lead_tail, Nat.zero_add]
    unfold md_totals
    simp only [hnum, ht, Option.map_some']
  · dsimp only
    omega

theorem render_ends_with_run (tbl : List Char) (mm : Nat → Nat → Bool) (es : List MdEvent) :
    ∀ u : Nat, ∃ (pre : List Char) (n : Nat),
      render tbl mm es u = pre ++ kputw ((n : Nat) : Int) := by
  induction es with
  | nil =>
    intro u
    exact ⟨[], u, rfl⟩
  | cons e es ih =>
    intro u
    cases e with
    | cmp q r =>
      by_cases hm : mm q r = true
      · obtain ⟨pre, n, h⟩ := ih 0
        refine ⟨kputw (u : Int) ++ [tbl.getD r nul] ++ pre, n, ?_⟩
        simp only [render, if_pos hm, h, List.append_assoc]
      · obtain ⟨pre, n, h⟩ := ih (u + 1)
        refine ⟨pre, n, ?_⟩
        simp only [render, if_neg hm, h]
    | del rs =>
      obtain ⟨pre, n, h⟩ := ih 0
      refine ⟨kputw (u : Int) ++ ['^'] ++ rs.map (fun r => tbl.getD r nul) ++ pre, n, ?_⟩
      simp only [render, h, List.append_assoc]

theorem event_totals_append (a b : List MdEvent) :
    event_positions (a ++ b) = event_positions a + event_positions b ∧
    event_deleted (a ++ b) = event_deleted a + event_deleted b := by
  induction a with
  | nil => simp [event_positions, event_deleted]
  | cons e a ih =>
    cases e with
    | cmp q r =>
      rw [List.cons_append]
      simp only [event_positions, event_deleted]
      rw [ih.1, ih.2]
      exact ⟨by omega, rfl⟩
    | del rs =>
      rw [List.cons_append]
      simp only [event_positions, event_deleted]
      rw [ih.1, ih.2]
      exact ⟨rfl, by omega⟩

theorem event_totals_cmps (f : Nat → MdEvent) (hf : ∀ i, ∃ q r, f i = MdEvent.cmp q r)
    (l : List Nat) :
    event_positions (l.map f) = l.length ∧ event_deleted (l.map f) = 0 := by
  induction l with
  | nil => exact ⟨rfl, rfl⟩
  | cons i l ih =>
    obtain ⟨q, r, h⟩ := hf i
    simp only [List.map_cons, h, event_positions, event_deleted, ih.1, ih.2,
      List.length_cons, and_self]

theorem events_positions_total (query rseq : List Nat) (n : Int) (ws : List Nat) :
    ∀ k x y : Nat,
      event_positions (md_events query rseq n k ws x y) = match_total ws ∧
      event_deleted (md_events query rseq n k ws x y) = nonedge_deletion_from n k ws := by
  induction ws with
  | nil =>
    intro k x y
    exact ⟨rfl, rfl⟩
  | cons w ws ih =>
    intro k x y
    rw [md_events, match_total_cons, nonedge_deletion_from_cons]
    by_cases o0 : cigar_op w = 0
    · have o2 : ¬ (cigar_op w = 2 ∧ 0 < k ∧ (k : Int) < n - 1) := by
        intro h
        rw [o0] at h
        exact absurd h.1 (by decide)
      have hc := event_totals_cmps
        (fun i => MdEvent.cmp (query.getD (x + i) 0) (rseq.getD (y + i) 0))
        (fun i => ⟨_, _, rfl⟩) (List.range (cigar_len w))
      rw [if_pos o0, if_pos o0, if_neg o2, (event_totals_append _ _).1,
        (event_totals_append _ _).2, hc.1, hc.2, (ih _ _ _).1, (ih _ _ _).2,
        List.length_range]
      exact ⟨rfl, rfl⟩
    · by_cases o2 : cigar_op w = 2
      · rw [if_neg o0, if_neg o0, if_pos o2, (event_totals_append _ _).1,
          (event_totals_append _ _).2, (ih _ _ _).1, (ih _ _ _).2]
        by_cases hk : k > 0 ∧ (k : Int) < n - 1
        · have hk2 : cigar_op w = 2 ∧ 0 < k ∧ (k : Int) < n - 1 := ⟨o2, hk.1, hk.2⟩
          rw [if_pos hk, if_pos hk2]
          simp [event_positions, event_deleted]
        · have hk2 : ¬ (cigar_op w = 2 ∧ 0 < k ∧ (k : Int) < n - 1) :=
            fun h => hk ⟨h.2.1, h.2.2⟩
          rw [if_neg hk, if_neg hk2]
          simp [event_positions, event_deleted]
      · have hk2 : ¬ (cigar_op w = 2 ∧ 0 < k ∧ (k : Int) < n - 1) := fun h => o2 h.1
        by_cases o1 : cigar_op w = 1
        · rw [if_neg o0, if_neg o0, if_neg o2, if_pos o1, if_neg hk2, (ih _ _ _).1,
            (ih _ _ _).2]
          simp
        · rw [if_neg o0, if_neg o0, if_neg o2, if_neg o1, if_neg hk2, (ih _ _ _).1,
            (ih _ _ _).2]
          simp

theorem gen_cigar_align_n_cigar (ksw : Aligner) (mat : List Int)
    (o_del e_del o_ins e_ins w_ : Int) (l_query : Int) (query : List Nat) (rb re : Int)
    (rseq : List Nat) (rlen : Int) :
    (gen_cigar_align ksw mat o_del e_del o_ins e_ins w_ l_query query rb re rseq rlen
      true).2.1 =
      some ((((gen_cigar_align ksw mat o_del e_del o_ins e_ins w_ l_query query rb re rseq
        rlen true).1.getD []).length : Nat) : Int) := by
  unfold gen_cigar_align
  by_cases hf : l_query = re - rb ∧ w_ = 0
  · simp only [if_pos hf]
    rfl
  · simp only [if_neg hf]
    rfl

theorem gen_cigar_n_cigar (fetch : Accessor) (ksw : Aligner) (mat : List Int)
    (o_del e_del o_ins e_ins w_ l_pac : Int) (pac : List Nat) (l_query : Int)
    (query : List Nat) (rb re : Int) (parent : Nat) (ops : List Nat)
    (h : (bwa_gen_cigar2 fetch ksw mat o_del e_del o_ins e_ins w_ l_pac pac l_query query rb
      re true true).cigar = some ops) :
    (bwa_gen_cigar2 fetch ksw mat o_del e_del o_ins e_ins w_ l_pac pac l_query query rb re
      true true).n_cigar = some (ops.length : Int) ∧
    (bis_bwa_gen_cigar2 fetch ksw mat o_del e_del o_ins e_ins w_ l_pac pac l_query query rb
      re true true parent).n_cigar = some (ops.length : Int) := by
  unfold bwa_gen_cigar2 at h ⊢
  unfold bis_bwa_gen_cigar2
  by_cases hg : l_query ≤ 0 ∨ rb ≥ re ∨ (rb < l_pac ∧ re > l_pac)
  · simp only [if_pos hg] at h
    exact absurd h (by simp)
  · by_cases hl : re - rb ≠ ((fetch l_pac pac rb re).length : Int)
    · simp only [if_neg hg, if_pos hl] at h
      exact absurd h (by simp)
    · simp only [if_neg hg, if_neg hl] at h ⊢
      simp only [Bool.and_self, decide_True, and_self, if_true, Option.some.injEq] at h ⊢
      rw [gen_cigar_align_n_cigar, h]

theorem nm_pass_md_totals {mp : NMState → Nat → NMState} {query rseq : List Nat}
    {tbl : List Char} {mm : Nat → Nat → Bool} (he : Emits mp query rseq tbl mm)
    (hg : GoodTable tbl)
    (hl : ∀ r : Nat, r < 5 → is_base_letter (tbl.getD r nul) = true)
    (hlt : ∀ i, rseq.getD i 0 < 5) (ops : List Nat) :
    (∃ t : MdTotals, md_totals (nm_pass mp rseq tbl ops).str.dropLast = some t ∧
      t.runs + t.mismatches = match_total ops ∧
      t.deleted = nonedge_deletion_total ops) ∧
    (∃ (pre : List Char) (u : Nat),
      (nm_pass mp rseq tbl ops).str = pre ++ kputw (u : Int) ++ [nul]) := by
  rw [nm_pass_render he ops, List.dropLast_concat]
  have hr := events_refs_lt query rseq (ops.length : Int) hlt ops 0 0 0
  obtain ⟨t, ht, h1, h2⟩ := md_totals_render hg hl mm _ hr
  obtain ⟨e1, e2⟩ := events_positions_total query rseq (ops.length : Int) ops 0 0 0
  refine ⟨⟨t, ht, ?_, ?_⟩, ?_⟩
  · rw [h1, e1]
  · rw [h2, e2]
    rfl
  · obtain ⟨pre, n, hn⟩ := render_ends_with_run tbl mm
      (md_events query rseq (ops.length : Int) 0 ops 0 0) 0
    exact ⟨pre, n, by rw [hn]⟩

/-! ## Claims -/

/-- C9: for `a` and `-b` that fit in `int8_t`, `bwa_fill_scmat(a, b, mat)` writes exactly
25 cells; for codes `i, j < 4` cell `i*5 + j` is `a` when `i = j` and `-b` otherwise;
every cell `i*5 + 4` (`i < 5`) and every cell `20..24` is `-1`. -/
theorem bwa_fill_scmat_cells (a b : Int) (ha : -128 ≤ a ∧ a ≤ 127)
    (hb : -128 ≤ -b ∧ -b ≤ 127) :
    (bwa_fill_scmat a b).length = 25 ∧
    (∀ i j : Nat, i < 4 → j < 4 →
      (bwa_fill_scmat a b)[i * 5 + j]? = some (if i = j then a else -b)) ∧
    (∀ i : Nat, i < 5 → (bwa_fill_scmat a b)[i * 5 + 4]? = some (-1)) ∧
    (∀ k : Nat, 20 ≤ k → k < 25 → (bwa_fill_scmat a b)[k]? = some (-1)) := by
  have h1 : int8 (-1) = -1 := by decide
  rw [bwa_fill_scmat_eq, int8_of_fits a ha, int8_of_fits (-b) hb, h1]
  refine ⟨rfl, ?_, ?_, ?_⟩
  · intro i j hi hj
    interval_cases i <;> interval_cases j <;> simp
  · intro i hi
    interval_cases i <;> simp
  · intro k h20 h25
    interval_cases k <;> simp

/-- Witness of C9 at match score 1 and mismatch penalty 4. -/
theorem bwa_fill_scmat_cells_witness :
    (bwa_fill_scmat 1 4).length = 25 ∧
    (∀ i j : Nat, i < 4 → j < 4 →
      (bwa_fill_scmat 1 4)[i * 5 + j]? = some (if i = j then 1 else -4)) ∧
    (∀ i : Nat, i < 5 → (bwa_fill_scmat 1 4)[i * 5 + 4]? = some (-1)) ∧
    (∀ k : Nat, 20 ≤ k → k < 25 → (bwa_fill_scmat 1 4)[k]? = some (-1)) :=
  bwa_fill_scmat_cells 1 4 (by decide) (by decide)

/-- C10, as stated, fails: with match score 200 the (C, T) cell of the C>T matrix does
not hold 200 (an `int8_t` cell cannot), it holds -56. -/
theorem bwa_fill_scmat_ct_cell8_counterexample :
    (bwa_fill_scmat_ct 200 4)[8]? = some (-56) ∧ (bwa_fill_scmat_ct 200 4)[8]? ≠ some 200 := by
  decide

/-- C10, amended: for every `a` and `b` the matrix of `bwa_fill_scmat_ct` has the 25
cells of the matrix of `bwa_fill_scmat`, equal cell by cell except at index
`1*5 + 3 = 8`, where it holds the match score `a` converted to `int8_t` (the value of
its diagonal cells; `a` itself when `a` fits) in the place of `-b` converted to
`int8_t`. -/
theorem bwa_fill_scmat_ct_differs_at_8 (a b : Int) :
    (bwa_fill_scmat_ct a b).length = 25 ∧ (bwa_fill_scmat a b).length = 25 ∧
    (∀ k : Nat, k < 25 → k ≠ 8 → (bwa_fill_scmat_ct a b)[k]? = (bwa_fill_scmat a b)[k]?) ∧
    (bwa_fill_scmat_ct a b)[8]? = some (int8 a) ∧
    (bwa_fill_scmat_ct a b)[8]? = (bwa_fill_scmat_ct a b)[0]? ∧
    (bwa_fill_scmat a b)[8]? = some (int8 (-b)) ∧
    (-128 ≤ a ∧ a ≤ 127 → (bwa_fill_scmat_ct a b)[8]? = some a) ∧
    (-128 ≤ -b ∧ -b ≤ 127 → (bwa_fill_scmat a b)[8]? = some (-b)) := by
  rw [bwa_fill_scmat_ct_eq, bwa_fill_scmat_eq]
  refine ⟨rfl, rfl, ?_, rfl, rfl, rfl, ?_, ?_⟩
  · intro k hk h8
    interval_cases k <;> simp at h8 ⊢
  · intro h
    simp [int8_of_fits a h]
  · intro h
    simp [int8_of_fits (-b) h]

/-- Witness of the amended C10 at match score 1 and mismatch penalty 4. -/
theorem bwa_fill_scmat_ct_differs_at_8_witness :
    (bwa_fill_scmat_ct 1 4)[8]? = some 1 ∧ (bwa_fill_scmat 1 4)[8]? = some (-4) :=
  ⟨(bwa_fill_scmat_ct_differs_at_8 1 4).2.2.2.2.2.2.1 (by decide),
   (bwa_fill_scmat_ct_differs_at_8 1 4).2.2.2.2.2.2.2 (by decide)⟩

/-- C7: a degenerate or rejected window (`l_query <= 0`, or `rb >= re`, or
`rb < l_pac < re`, or a fetched length other than `re - rb`) makes `bwa_gen_cigar2` and
`bis_bwa_gen_cigar2` return the null pointer with `*n_cigar = 0` and `*NM = -1` (where
those pointers are set), nothing appended, nothing stored in `score`, `ZC`, `ZR`, and
the query buffer as it was; the outcome is the same for every aligner. -/
theorem gen_cigar_reject (fetch : Accessor) (ksw : Aligner) (mat : List Int)
    (o_del e_del o_ins e_ins w_ l_pac : Int) (pac : List Nat) (l_query : Int)
    (query : List Nat) (rb re : Int) (n_cigar NM : Bool) (parent : Nat)
    (h : l_query ≤ 0 ∨ rb ≥ re ∨ (rb < l_pac ∧ l_pac < re) ∨
      ((fetch l_pac pac rb re).length : Int) ≠ re - rb) :
    bwa_gen_cigar2 fetch ksw mat o_del e_del o_ins e_ins w_ l_pac pac l_query query rb re
        n_cigar NM =
      { cigar := none, md := [], n_cigar := if n_cigar then some 0 else none,
        NM := if NM then some (-1) else none, score := none, ZC := none, ZR := none,
        query := query } ∧
    bis_bwa_gen_cigar2 fetch ksw mat o_del e_del o_ins e_ins w_ l_pac pac l_query query rb
        re n_cigar NM parent =
      { cigar := none, md := [], n_cigar := if n_cigar then some 0 else none,
        NM := if NM then some (-1) else none, score := none, ZC := none, ZR := none,
        query := query } := by
  unfold bwa_gen_cigar2 bis_bwa_gen_cigar2
  by_cases hg : l_query ≤ 0 ∨ rb ≥ re ∨ (rb < l_pac ∧ re > l_pac)
  · simp only [if_pos hg, and_self]
  · have hl : re - rb ≠ ((fetch l_pac pac rb re).length : Int) := by
      rcases h with h | h | h | h
      · exact absurd (Or.inl h) hg
      · exact absurd (Or.inr (Or.inl h)) hg
      · exact absurd (Or.inr (Or.inr ⟨h.1, h.2⟩)) hg
      · exact fun e => h e.symm
    simp only [if_neg hg, if_pos hl, and_self]

/-- Witness of C7: a window of length 0, with both output pointers set. -/
theorem gen_cigar_reject_witness :
    bwa_gen_cigar2 bns_get_seq no_aligner (bwa_fill_scmat 1 4) 6 1 6 1 0 4 [27, 0] 4
        [0, 1, 2, 3] 2 2 true true =
      { cigar := none, md := [], n_cigar := some 0, NM := some (-1), score := none,
        ZC := none, ZR := none, query := [0, 1, 2, 3] } ∧
    bis_bwa_gen_cigar2 bns_get_seq no_aligner (bwa_fill_scmat 1 4) 6 1 6 1 0 4 [27, 0] 4
        [0, 1, 2, 3] 2 2 true true 1 =
      { cigar := none, md := [], n_cigar := some 0, NM := some (-1), score := none,
        ZC := none, ZR := none, query := [0, 1, 2, 3] } :=
  gen_cigar_reject bns_get_seq no_aligner (bwa_fill_scmat 1 4) 6 1 6 1 0 4 [27, 0] 4
    [0, 1, 2, 3] 2 2 true true 1 (Or.inr (Or.inl (by decide)))

/-- C6, as stated, fails: the window `[0, 4)` of a reference with `l_pac = 4` has
`rb < l_pac <= re`, lies wholly on the forward strand, and both routines return a
result for it (one match block of length 4). -/
theorem gen_cigar_window_ending_at_l_pac_counterexample :
    ((0 : Int) < 4 ∧ (4 : Int) ≤ 4) ∧
    (bwa_gen_cigar2 bns_get_seq no_aligner (bwa_fill_scmat 1 4) 6 1 6 1 0 4 [27, 0] 4
        [0, 1, 2, 3] 0 4 true true).cigar = some [64] ∧
    (bis_bwa_gen_cigar2 bns_get_seq no_aligner (bwa_fill_scmat 1 4) 6 1 6 1 0 4 [27, 0] 4
        [0, 1, 2, 3] 0 4 true true 1).cigar = some [64] := by
  decide

/-- C6, amended: for every query and every `rb`, `re` with `rb < l_pac < re`, both
routines yield no result (the null pointer), whatever the query holds. -/
theorem gen_cigar_straddling_rejected (fetch : Accessor) (ksw : Aligner) (mat : List Int)
    (o_del e_del o_ins e_ins w_ l_pac : Int) (pac : List Nat) (l_query : Int)
    (query : List Nat) (rb re : Int) (n_cigar NM : Bool) (parent : Nat)
    (h1 : rb < l_pac) (h2 : l_pac < re) :
    (bwa_gen_cigar2 fetch ksw mat o_del e_del o_ins e_ins w_ l_pac pac l_query query rb re
        n_cigar NM).cigar = none ∧
    (bis_bwa_gen_cigar2 fetch ksw mat o_del e_del o_ins e_ins w_ l_pac pac l_query query rb
        re n_cigar NM parent).cigar = none := by
  have hg : l_query ≤ 0 ∨ rb ≥ re ∨ (rb < l_pac ∧ re > l_pac) := Or.inr (Or.inr ⟨h1, h2⟩)
  unfold bwa_gen_cigar2 bis_bwa_gen_cigar2
  simp only [if_pos hg, and_self]

/-- Witness of the amended C6: the window `[2, 6)` of a reference with `l_pac = 4`. -/
theorem gen_cigar_straddling_rejected_witness :
    ((2 : Int) < 4 ∧ (4 : Int) < 6) ∧
    (bwa_gen_cigar2 bns_get_seq no_aligner (bwa_fill_scmat 1 4) 6 1 6 1 0 4 [27, 0] 4
        [0, 1, 2, 3] 2 6 true true).cigar = none ∧
    (bis_bwa_gen_cigar2 bns_get_seq no_aligner (bwa_fill_scmat 1 4) 6 1 6 1 0 4 [27, 0] 4
        [0, 1, 2, 3] 2 6 true true 1).cigar = none :=
  ⟨by decide, gen_cigar_straddling_rejected bns_get_seq no_aligner (bwa_fill_scmat 1 4) 6 1
    6 1 0 4 [27, 0] 4 [0, 1, 2, 3] 2 6 true true 1 (by decide) (by decide)⟩

/-- C1, as stated, fails for a window of `2^28` bases: a packed word is a `uint32_t`, so
its length field has 28 bits.  For `l_query = 2^28` on the window `[0, 2^28)` with
band 0 the value of `l_query << 4 | 0` is `2^32`, the word stored is 0, and it decodes
to a match block of length 0, not `l_query`; no `uint32_t` word carries the length
`2^28`. -/
theorem gen_cigar_fast_path_long_window_counterexample :
    (bwa_gen_cigar2 all_a_window no_aligner (bwa_fill_scmat 1 4) 6 1 6 1 0 268435456 []
      268435456 (List.replicate 268435456 0) 0 268435456 true false).cigar = some [0] ∧
    (bis_bwa_gen_cigar2 all_a_window no_aligner (bwa_fill_scmat 1 4) 6 1 6 1 0 268435456 []
      268435456 (List.replicate 268435456 0) 0 268435456 true false 1).cigar = some [0] ∧
    (0 : Nat) ≠ 268435456 <<< 4 ||| 0 ∧
    cigar_len 0 = 0 ∧
    (∀ w : Nat, w < 2 ^ 32 → cigar_len w < 268435456) := by
  have hlen : (((all_a_window 268435456 [] 0 268435456).length : Nat) : Int) =
      268435456 - 0 := by
    unfold all_a_window
    rw [List.length_replicate]
    decide
  have h := gen_cigar_fast_word all_a_window no_aligner (bwa_fill_scmat 1 4) 6 1 6 1
    268435456 [] 268435456 (List.replicate 268435456 0) 0 268435456 false 1 (by decide)
    (by decide) hlen (by decide)
  have hw : uint32 ((268435456 : Int).toNat <<< 4 ||| 0) = 0 := by decide
  rw [hw] at h
  refine ⟨h.1, h.2, by decide, by decide, ?_⟩
  intro w hw
  unfold cigar_len
  rw [Nat.shiftRight_eq_div_pow]
  omega

/-- C1, amended: on the fast path (an accepted window with `l_query = re - rb` and
requested band `w_ = 0`, the `n_cigar` pointer set) with `l_query < 2^28`,
`bwa_gen_cigar2` and `bis_bwa_gen_cigar2` return exactly one packed operation,
`l_query << 4 | 0`, which decodes to a match block of length `l_query`; `*n_cigar = 1`;
and the score is the sum over `i < l_query` of `mat[ref[i]*5 + query[i]]` over the
fetched window and the caller's query, on the forward strand and on the reverse strand
alike.  (`rb < re` follows from `l_query > 0` and `l_query = re - rb`; `hbuf` says that
the query buffer holds `l_query` codes.) -/
theorem gen_cigar_fast_path (fetch : Accessor) (ksw : Aligner) (mat : List Int)
    (o_del e_del o_ins e_ins l_pac : Int) (pac : List Nat) (l_query : Int)
    (query : List Nat) (rb re : Int) (NM : Bool) (parent : Nat)
    (hq : 0 < l_query) (hfit : l_query < 2 ^ 28) (hs : ¬ (rb < l_pac ∧ l_pac < re))
    (hlen : ((fetch l_pac pac rb re).length : Int) = re - rb)
    (heq : l_query = re - rb) (hbuf : l_query.toNat ≤ query.length) :
    cigar_op (l_query.toNat <<< 4 ||| 0) = 0 ∧
    ((cigar_len (l_query.toNat <<< 4 ||| 0) : Nat) : Int) = l_query ∧
    (bwa_gen_cigar2 fetch ksw mat o_del e_del o_ins e_ins 0 l_pac pac l_query query rb re
        true NM).cigar = some [l_query.toNat <<< 4 ||| 0] ∧
    (bwa_gen_cigar2 fetch ksw mat o_del e_del o_ins e_ins 0 l_pac pac l_query query rb re
        true NM).n_cigar = some 1 ∧
    (bwa_gen_cigar2 fetch ksw mat o_del e_del o_ins e_ins 0 l_pac pac l_query query rb re
        true NM).score =
      some (∑ i in Finset.range l_query.toNat,
        mat.getD ((fetch l_pac pac rb re).getD i 0 * 5 + query.getD i 0) 0) ∧
    (bis_bwa_gen_cigar2 fetch ksw mat o_del e_del o_ins e_ins 0 l_pac pac l_query query rb
        re true NM parent).cigar = some [l_query.toNat <<< 4 ||| 0] ∧
    (bis_bwa_gen_cigar2 fetch ksw mat o_del e_del o_ins e_ins 0 l_pac pac l_query query rb
        re true NM parent).n_cigar = some 1 ∧
    (bis_bwa_gen_cigar2 fetch ksw mat o_del e_del o_ins e_ins 0 l_pac pac l_query query rb
        re true NM parent).score =
      some (∑ i in Finset.range l_query.toNat,
        mat.getD ((fetch l_pac pac rb re).getD i 0 * 5 + query.getD i 0) 0) := by
  have hg : ¬ (l_query ≤ 0 ∨ rb ≥ re ∨ (rb < l_pac ∧ re > l_pac)) := by
    rintro (h | h | h)
    · omega
    · omega
    · exact hs ⟨h.1, h.2⟩
  have hl : ¬ (re - rb ≠ ((fetch l_pac pac rb re).length : Int)) := by
    intro h
    exact h hlen.symm
  have hn : (fetch l_pac pac rb re).length = l_query.toNat := by omega
  have hsc : fast_score mat l_query.toNat
        (if rb ≥ l_pac then reverse_inplace l_query.toNat query else query)
        (if rb ≥ l_pac then
          reverse_inplace (fetch l_pac pac rb re).length (fetch l_pac pac rb re)
         else fetch l_pac pac rb re) =
      ∑ i in Finset.range l_query.toNat,
        mat.getD ((fetch l_pac pac rb re).getD i 0 * 5 + query.getD i 0) 0 := by
    by_cases hr : rb ≥ l_pac
    · rw [if_pos hr, if_pos hr, hn,
        fast_score_reverse mat l_query.toNat query _ hbuf (by omega), fast_score_eq_sum]
    · rw [if_neg hr, if_neg hr, fast_score_eq_sum]
  have hfit' : l_query.toNat < 2 ^ 28 := by omega
  refine ⟨cigar_op_pack_match _, ?_, ?_⟩
  · rw [cigar_len_pack_match]
    omega
  · unfold bwa_gen_cigar2 bis_bwa_gen_cigar2
    simp only [if_neg hg, if_neg hl, gen_cigar_align_fast _ _ _ _ _ _ _ _ _ _ _ _ _ heq,
      hsc, uint32_pack_match_fits _ hfit']
    cases NM <;> simp

/-- Witness of the amended C1: query ACGT against the window ACGT, match 1, mismatch 4, band 0,
gives the single operation `4 << 4 | 0 = 64` and score 4; the same query against the
reverse-strand window `[4, 8)` (again ACGT) gives the same. -/
theorem gen_cigar_fast_path_witness :
    ((bwa_gen_cigar2 bns_get_seq no_aligner (bwa_fill_scmat 1 4) 6 1 6 1 0 4 [27, 0] 4
        [0, 1, 2, 3] 0 4 true true).cigar = some [64] ∧
     (bwa_gen_cigar2 bns_get_seq no_aligner (bwa_fill_scmat 1 4) 6 1 6 1 0 4 [27, 0] 4
        [0, 1, 2, 3] 0 4 true true).n_cigar = some 1 ∧
     (bwa_gen_cigar2 bns_get_seq no_aligner (bwa_fill_scmat 1 4) 6 1 6 1 0 4 [27, 0] 4
        [0, 1, 2, 3] 0 4 true true).score = some 4) ∧
    ((bis_bwa_gen_cigar2 bns_get_seq no_aligner (bwa_fill_scmat 1 4) 6 1 6 1 0 4 [27, 0] 4
        [0, 1, 2, 3] 4 8 true true 1).cigar = some [64] ∧
     (bis_bwa_gen_cigar2 bns_get_seq no_aligner (bwa_fill_scmat 1 4) 6 1 6 1 0 4 [27, 0] 4
        [0, 1, 2, 3] 4 8 true true 1).score = some 4) := by
  have h1 := gen_cigar_fast_path bns_get_seq no_aligner (bwa_fill_scmat 1 4) 6 1 6 1 4
    [27, 0] 4 [0, 1, 2, 3] 0 4 true 1 (by decide) (by decide) (by decide) (by decide)
    (by decide) (by decide)
  have h2 := gen_cigar_fast_path bns_get_seq no_aligner (bwa_fill_scmat 1 4) 6 1 6 1 4
    [27, 0] 4 [0, 1, 2, 3] 4 8 true 1 (by decide) (by decide) (by decide) (by decide)
    (by decide) (by decide)
  refine ⟨⟨h1.2.2.1, h1.2.2.2.1, ?_⟩, h2.2.2.2.2.2.1, ?_⟩
  · rw [h1.2.2.2.2.1]
    decide
  · rw [h2.2.2.2.2.2.2.2]
    decide

/-- C3: whenever the routines produce a result with `NM` and `n_cigar` requested (both
return the same operations `ops`), `NM` is the number of mismatches counted in the match
blocks (differing pairs for `bwa_gen_cigar2`; differing pairs that are not the expected
conversion for `bis_bwa_gen_cigar2`) plus the total length of the insertion blocks plus
the total length of the deletion blocks that are neither first nor last; and `NM >= 0`.
The bases compared are those of the buffers as the alignment sees them. -/
theorem nm_invariant (fetch : Accessor) (ksw : Aligner) (mat : List Int)
    (o_del e_del o_ins e_ins w_ l_pac : Int) (pac : List Nat) (l_query : Int)
    (query : List Nat) (rb re : Int) (parent : Nat) (ops : List Nat)
    (h : (bwa_gen_cigar2 fetch ksw mat o_del e_del o_ins e_ins w_ l_pac pac l_query query rb
      re true true).cigar = some ops) :
    (bwa_gen_cigar2 fetch ksw mat o_del e_del o_ins e_ins w_ l_pac pac l_query query rb re
      true true).NM =
      some (((count_pairs differs (oriented_query l_pac rb l_query query)
          (oriented_window l_pac rb (fetch l_pac pac rb re)) (match_pairs ops 0 0) +
        insertion_total ops + nonedge_deletion_total ops : Nat) : Int)) ∧
    (bis_bwa_gen_cigar2 fetch ksw mat o_del e_del o_ins e_ins w_ l_pac pac l_query query rb
      re true true parent).cigar = some ops ∧
    (bis_bwa_gen_cigar2 fetch ksw mat o_del e_del o_ins e_ins w_ l_pac pac l_query query rb
      re true true parent).NM =
      some (((count_pairs (is_true_mismatch parent) (oriented_query l_pac rb l_query query)
          (oriented_window l_pac rb (fetch l_pac pac rb re)) (match_pairs ops 0 0) +
        insertion_total ops + nonedge_deletion_total ops : Nat) : Int)) ∧
    (∀ v, (bwa_gen_cigar2 fetch ksw mat o_del e_del o_ins e_ins w_ l_pac pac l_query query rb
      re true true).NM = some v → 0 ≤ v) ∧
    (∀ v, (bis_bwa_gen_cigar2 fetch ksw mat o_del e_del o_ins e_ins w_ l_pac pac l_query query
      rb re true true parent).NM = some v → 0 ≤ v) := by
  have hb : (bis_bwa_gen_cigar2 fetch ksw mat o_del e_del o_ins e_ins w_ l_pac pac l_query
      query rb re true true parent).cigar = some ops := by
    rw [gen_cigar_same_cigar]
    exact h
  obtain ⟨-, hNM⟩ := bwa_gen_cigar2_some fetch ksw mat o_del e_del o_ins e_ins w_ l_pac pac
    l_query query rb re ops h
  obtain ⟨-, hNMb, -, -⟩ := bis_bwa_gen_cigar2_some fetch ksw mat o_del e_del o_ins e_ins w_
    l_pac pac l_query query rb re parent ops hb
  obtain ⟨p1, -, -, p4⟩ := nm_pass_counts
    (match_pos_counting (oriented_query l_pac rb l_query query)
      (oriented_window l_pac rb (fetch l_pac pac rb re)) (int2base rb l_pac))
    (oriented_window l_pac rb (fetch l_pac pac rb re)) (int2base rb l_pac) ops
  obtain ⟨b1, -, -, b4⟩ := nm_pass_counts
    (bis_match_pos_counting parent (oriented_query l_pac rb l_query query)
      (oriented_window l_pac rb (fetch l_pac pac rb re)) (int2base rb l_pac))
    (oriented_window l_pac rb (fetch l_pac pac rb re)) (int2base rb l_pac) ops
  unfold plain_pass at hNM
  unfold bis_pass at hNMb
  rw [p1, p4] at hNM
  rw [b1, b4] at hNMb
  have e1 : (bwa_gen_cigar2 fetch ksw mat o_del e_del o_ins e_ins w_ l_pac pac l_query query
      rb re true true).NM =
      some (((count_pairs differs (oriented_query l_pac rb l_query query)
          (oriented_window l_pac rb (fetch l_pac pac rb re)) (match_pairs ops 0 0) +
        insertion_total ops + nonedge_deletion_total ops : Nat) : Int)) := by
    rw [hNM]
    push_cast
    rw [add_assoc]
  have e2 : (bis_bwa_gen_cigar2 fetch ksw mat o_del e_del o_ins e_ins w_ l_pac pac l_query
      query rb re true true parent).NM =
      some (((count_pairs (is_true_mismatch parent) (oriented_query l_pac rb l_query query)
          (oriented_window l_pac rb (fetch l_pac pac rb re)) (match_pairs ops 0 0) +
        insertion_total ops + nonedge_deletion_total ops : Nat) : Int)) := by
    rw [hNMb]
    push_cast
    rw [add_assoc]
  refine ⟨e1, hb, e2, ?_, ?_⟩
  · intro v hv
    rw [e1] at hv
    cases hv
    exact Int.natCast_nonneg _
  · intro v hv
    rw [e2] at hv
    cases hv
    exact Int.natCast_nonneg _

/-- Witness of C3: query ACTGT against the window ACGTAC with the operations
2M 1I 1M 2D 1M: one differing pair (T over C), one inserted base, two deleted bases,
`NM = 4` in `bwa_gen_cigar2`; for the parent strand the pair is the expected conversion
and `NM = 3` in `bis_bwa_gen_cigar2`. -/
theorem nm_invariant_witness :
    (bwa_gen_cigar2 bns_get_seq (fixed_aligner (-9) [32, 17, 16, 34, 16])
      (bwa_fill_scmat 1 4) 6 1 6 1 5 8 [27, 27, 0] 5 [0, 1, 3, 2, 3] 0 6 true true).NM =
      some 4 ∧
    (bis_bwa_gen_cigar2 bns_get_seq (fixed_aligner (-9) [32, 17, 16, 34, 16])
      (bwa_fill_scmat 1 4) 6 1 6 1 5 8 [27, 27, 0] 5 [0, 1, 3, 2, 3] 0 6 true true 1).NM =
      some 3 := by
  have h := nm_invariant bns_get_seq (fixed_aligner (-9) [32, 17, 16, 34, 16])
    (bwa_fill_scmat 1 4) 6 1 6 1 5 8 [27, 27, 0] 5 [0, 1, 3, 2, 3] 0 6 1 [32, 17, 16, 34, 16]
    (by decide)
  refine ⟨?_, ?_⟩
  · rw [h.1]
    decide
  · rw [h.2.2.1]
    decide

/-- C4: when `bis_bwa_gen_cigar2` produces a result (`NM` and `n_cigar` requested), `ZR`
is the number of match-block positions where query base = reference base = 1 (parent
set) or = 2 (parent not set), and `ZC` is the number of match-block positions with
query 3 against reference 1 (parent set) or query 0 against reference 2 (parent not
set); and at a conversion position the body of the match loop only adds one to the
conversion count and to the run `u`: the mismatch count and the MD bytes stay as they
are. -/
theorem bis_classification (fetch : Accessor) (ksw : Aligner) (mat : List Int)
    (o_del e_del o_ins e_ins w_ l_pac : Int) (pac : List Nat) (l_query : Int)
    (query : List Nat) (rb re : Int) (parent : Nat) (ops : List Nat)
    (h : (bis_bwa_gen_cigar2 fetch ksw mat o_del e_del o_ins e_ins w_ l_pac pac l_query query
      rb re true true parent).cigar = some ops) :
    (bis_bwa_gen_cigar2 fetch ksw mat o_del e_del o_ins e_ins w_ l_pac pac l_query query rb
      re true true parent).ZR =
      some ((count_pairs (is_retention parent) (oriented_query l_pac rb l_query query)
        (oriented_window l_pac rb (fetch l_pac pac rb re)) (match_pairs ops 0 0) : Nat) :
          Int) ∧
    (bis_bwa_gen_cigar2 fetch ksw mat o_del e_del o_ins e_ins w_ l_pac pac l_query query rb
      re true true parent).ZC =
      some ((count_pairs (is_conversion parent) (oriented_query l_pac rb l_query query)
        (oriented_window l_pac rb (fetch l_pac pac rb re)) (match_pairs ops 0 0) : Nat) :
          Int) ∧
    (∀ (qs rs : List Nat) (tbl : List Char) (s : NMState) (i : Nat),
      is_conversion parent (qs.getD (s.x + i) 0) (rs.getD (s.y + i) 0) = true →
      bis_match_pos parent qs rs tbl s i =
        { s with n_conv := s.n_conv + 1, u := s.u + 1 }) := by
  obtain ⟨-, -, hZC, hZR⟩ := bis_bwa_gen_cigar2_some fetch ksw mat o_del e_del o_ins e_ins w_
    l_pac pac l_query query rb re parent ops h
  obtain ⟨-, b2, b3, -⟩ := nm_pass_counts
    (bis_match_pos_counting parent (oriented_query l_pac rb l_query query)
      (oriented_window l_pac rb (fetch l_pac pac rb re)) (int2base rb l_pac))
    (oriented_window l_pac rb (fetch l_pac pac rb re)) (int2base rb l_pac) ops
  unfold bis_pass at hZC hZR
  rw [b2] at hZC
  rw [b3] at hZR
  refine ⟨hZR, hZC, ?_⟩
  intro qs rs tbl s i
  unfold bis_match_pos is_conversion
  generalize qs.getD (s.x + i) 0 = q
  generalize rs.getD (s.y + i) 0 = r
  intro hc
  have hc' : (parent ≠ 0 ∧ q = 3 ∧ r = 1) ∨ (parent = 0 ∧ q = 0 ∧ r = 2) := by
    simpa using hc
  have hne : ¬ q = r := by omega
  simp only [if_neg hne]
  rcases hc' with hp | hd
  · simp only [if_pos hp]
  · have hp : ¬ (parent ≠ 0 ∧ q = 3 ∧ r = 1) := by omega
    simp only [if_neg hp, if_pos hd]

/-- Witness of C4: query ATTGT against the window ACGTAC, parent strand, operations
2M 1I 1M 2D 1M: the T over the reference C of the first block is a conversion and the T
over the final C is another, nothing is retained. -/
theorem bis_classification_witness :
    (bis_bwa_gen_cigar2 bns_get_seq (fixed_aligner (-9) [32, 17, 16, 34, 16])
      (bwa_fill_scmat_ct 1 4) 6 1 6 1 5 8 [27, 27, 0] 5 [0, 3, 3, 2, 3] 0 6 true true 1).ZR =
      some 0 ∧
    (bis_bwa_gen_cigar2 bns_get_seq (fixed_aligner (-9) [32, 17, 16, 34, 16])
      (bwa_fill_scmat_ct 1 4) 6 1 6 1 5 8 [27, 27, 0] 5 [0, 3, 3, 2, 3] 0 6 true true 1).ZC =
      some 2 := by
  have h := bis_classification bns_get_seq (fixed_aligner (-9) [32, 17, 16, 34, 16])
    (bwa_fill_scmat_ct 1 4) 6 1 6 1 5 8 [27, 27, 0] 5 [0, 3, 3, 2, 3] 0 6 1
    [32, 17, 16, 34, 16] (by decide)
  refine ⟨?_, ?_⟩
  · rw [h.1]
    decide
  · rw [h.2.1]
    decide

/-- C5: for every result of `bis_bwa_gen_cigar2` (`NM` and `n_cigar` requested), with
`mm` the number of match-block positions that are true mismatches, `NM = mm + gapped
bases`, and conversion count + retention count + `mm` is at most the total length of
the match blocks; when every match-block position is an equal pair or the expected
conversion, `mm = 0` and `NM` is the gapped-base count. -/
theorem bis_invariant (fetch : Accessor) (ksw : Aligner) (mat : List Int)
    (o_del e_del o_ins e_ins w_ l_pac : Int) (pac : List Nat) (l_query : Int)
    (query : List Nat) (rb re : Int) (parent : Nat) (ops : List Nat)
    (h : (bis_bwa_gen_cigar2 fetch ksw mat o_del e_del o_ins e_ins w_ l_pac pac l_query query
      rb re true true parent).cigar = some ops) :
    (bis_bwa_gen_cigar2 fetch ksw mat o_del e_del o_ins e_ins w_ l_pac pac l_query query rb
      re true true parent).ZC =
      some ((count_pairs (is_conversion parent) (oriented_query l_pac rb l_query query)
        (oriented_window l_pac rb (fetch l_pac pac rb re)) (match_pairs ops 0 0) : Nat) :
          Int) ∧
    (bis_bwa_gen_cigar2 fetch ksw mat o_del e_del o_ins e_ins w_ l_pac pac l_query query rb
      re true true parent).ZR =
      some ((count_pairs (is_retention parent) (oriented_query l_pac rb l_query query)
        (oriented_window l_pac rb (fetch l_pac pac rb re)) (match_pairs ops 0 0) : Nat) :
          Int) ∧
    (bis_bwa_gen_cigar2 fetch ksw mat o_del e_del o_ins e_ins w_ l_pac pac l_query query rb
      re true true parent).NM =
      some (((count_pairs (is_true_mismatch parent) (oriented_query l_pac rb l_query query)
          (oriented_window l_pac rb (fetch l_pac pac rb re)) (match_pairs ops 0 0) : Nat) :
            Int) + ((insertion_total ops + nonedge_deletion_total ops : Nat) : Int)) ∧
    count_pairs (is_conversion parent) (oriented_query l_pac rb l_query query)
        (oriented_window l_pac rb (fetch l_pac pac rb re)) (match_pairs ops 0 0) +
      count_pairs (is_retention parent) (oriented_query l_pac rb l_query query)
        (oriented_window l_pac rb (fetch l_pac pac rb re)) (match_pairs ops 0 0) +
      count_pairs (is_true_mismatch parent) (oriented_query l_pac rb l_query query)
        (oriented_window l_pac rb (fetch l_pac pac rb re)) (match_pairs ops 0 0) ≤
      match_total ops ∧
    ((∀ p ∈ match_pairs ops 0 0,
        (oriented_query l_pac rb l_query query).getD p.1 0 =
          (oriented_window l_pac rb (fetch l_pac pac rb re)).getD p.2 0 ∨
        is_conversion parent ((oriented_query l_pac rb l_query query).getD p.1 0)
          ((oriented_window l_pac rb (fetch l_pac pac rb re)).getD p.2 0) = true) →
      count_pairs (is_true_mismatch parent) (oriented_query l_pac rb l_query query)
        (oriented_window l_pac rb (fetch l_pac pac rb re)) (match_pairs ops 0 0) = 0 ∧
      (bis_bwa_gen_cigar2 fetch ksw mat o_del e_del o_ins e_ins w_ l_pac pac l_query query rb
        re true true parent).NM =
        some ((insertion_total ops + nonedge_deletion_total ops : Nat) : Int)) := by
  obtain ⟨-, hNM, hZC, hZR⟩ := bis_bwa_gen_cigar2_some fetch ksw mat o_del e_del o_ins e_ins
    w_ l_pac pac l_query query rb re parent ops h
  obtain ⟨b1, b2, b3, b4⟩ := nm_pass_counts
    (bis_match_pos_counting parent (oriented_query l_pac rb l_query query)
      (oriented_window l_pac rb (fetch l_pac pac rb re)) (int2base rb l_pac))
    (oriented_window l_pac rb (fetch l_pac pac rb re)) (int2base rb l_pac) ops
  unfold bis_pass at hNM hZC hZR
  rw [b2] at hZC
  rw [b3] at hZR
  rw [b1, b4] at hNM
  have hle := count_pairs_classes_le parent (oriented_query l_pac rb l_query query)
    (oriented_window l_pac rb (fetch l_pac pac rb re)) (match_pairs ops 0 0)
  rw [match_pairs_length] at hle
  refine ⟨hZC, hZR, ?_, hle, ?_⟩
  · rw [hNM]
    push_cast
    rfl
  · intro hall
    have hz := count_pairs_true_mismatch_zero parent (oriented_query l_pac rb l_query query)
      (oriented_window l_pac rb (fetch l_pac pac rb re)) (match_pairs ops 0 0) hall
    refine ⟨hz, ?_⟩
    rw [hNM, hz]
    push_cast
    rw [zero_add]

/-- Witness of C5: query ATTGT against the window ACGTAC, parent strand, operations
2M 1I 1M 2D 1M: two conversions, no retention, no true mismatch, four match-block
positions, and `NM = 3`, the gapped bases. -/
theorem bis_invariant_witness :
    (bis_bwa_gen_cigar2 bns_get_seq (fixed_aligner (-9) [32, 17, 16, 34, 16])
      (bwa_fill_scmat_ct 1 4) 6 1 6 1 5 8 [27, 27, 0] 5 [0, 3, 3, 2, 3] 0 6 true true 1).NM =
      some 3 ∧
    (2 : Nat) + 0 + 0 ≤ match_total [32, 17, 16, 34, 16] := by
  have h := bis_invariant bns_get_seq (fixed_aligner (-9) [32, 17, 16, 34, 16])
    (bwa_fill_scmat_ct 1 4) 6 1 6 1 5 8 [27, 27, 0] 5 [0, 3, 3, 2, 3] 0 6 1
    [32, 17, 16, 34, 16] (by decide)
  refine ⟨?_, ?_⟩
  · rw [(h.2.2.2.2 (by decide)).2]
    decide
  · have h4 := h.2.2.2.1
    exact h4

/-- C2: `bwa_gen_cigar2` on a forward-strand window, when the CIGAR is a single match
block over the whole query: `NM` is the number of positions where the query base
differs from the reference base, and the MD string (followed by its NUL) is, for each
differing position in order, the decimal count of the equal positions since the
previous difference (or the start) and the reference base letter `"ACGTN"[code]`,
ended by the final count. -/
theorem md_single_match_block (fetch : Accessor) (ksw : Aligner) (mat : List Int)
    (o_del e_del o_ins e_ins w_ l_pac : Int) (pac : List Nat) (l_query : Int)
    (query : List Nat) (rb re : Int) (w : Nat) (hf : rb < l_pac)
    (h : (bwa_gen_cigar2 fetch ksw mat o_del e_del o_ins e_ins w_ l_pac pac l_query query rb
      re true true).cigar = some [w])
    (hop : cigar_op w = 0) (hfull : cigar_len w = l_query.toNat) :
    (bwa_gen_cigar2 fetch ksw mat o_del e_del o_ins e_ins w_ l_pac pac l_query query rb re
      true true).NM =
      some ((((List.range l_query.toNat).filter
        (fun i => decide (query.getD i 0 ≠ (fetch l_pac pac rb re).getD i 0))).length :
          Nat) : Int) ∧
    (bwa_gen_cigar2 fetch ksw mat o_del e_del o_ins e_ins w_ l_pac pac l_query query rb re
      true true).md =
      md_single_block ((List.range l_query.toNat).map
        (fun i => (query.getD i 0, (fetch l_pac pac rb re).getD i 0))) 0 ++ [nul] := by
  obtain ⟨hmd, hNM⟩ := bwa_gen_cigar2_some fetch ksw mat o_del e_del o_ins e_ins w_ l_pac pac
    l_query query rb re [w] h
  have hnr : ¬ rb ≥ l_pac := by omega
  unfold plain_pass at hmd hNM
  have hq : oriented_query l_pac rb l_query query = query := by
    unfold oriented_query
    rw [if_neg hnr]
  have hr : oriented_window l_pac rb (fetch l_pac pac rb re) = fetch l_pac pac rb re := by
    unfold oriented_window
    rw [if_neg hnr]
  have ht : int2base rb l_pac = ['A', 'C', 'G', 'T', 'N'] := by
    unfold int2base
    rw [if_pos hf]
  rw [hq, hr, ht] at hmd hNM
  obtain ⟨p1, -, -, p4⟩ := nm_pass_counts
    (match_pos_counting query (fetch l_pac pac rb re) ['A', 'C', 'G', 'T', 'N'])
    (fetch l_pac pac rb re) ['A', 'C', 'G', 'T', 'N'] [w]
  obtain ⟨c1, c2, c3⟩ := single_block_counts query (fetch l_pac pac rb re) w hop
  rw [p1, p4, c1, c2, c3, hfull] at hNM
  rw [nm_pass_render (match_pos_emits query (fetch l_pac pac rb re) ['A', 'C', 'G', 'T', 'N'])
    [w], single_block_events query (fetch l_pac pac rb re) _ w hop,
    render_cmps_eq_md_single_block, hfull] at hmd
  refine ⟨?_, hmd⟩
  rw [hNM]
  simp

/-- Witness of C2: ACGT against ACGT gives `NM = 0` and MD `4`; ACTT against ACGT with
match 1 and mismatch 4 gives score -1, `NM = 1` and MD `2G1`. -/
theorem md_single_match_block_witness :
    ((bwa_gen_cigar2 bns_get_seq no_aligner (bwa_fill_scmat 1 4) 6 1 6 1 0 4 [27, 0] 4
        [0, 1, 2, 3] 0 4 true true).NM = some 0 ∧
     (bwa_gen_cigar2 bns_get_seq no_aligner (bwa_fill_scmat 1 4) 6 1 6 1 0 4 [27, 0] 4
        [0, 1, 2, 3] 0 4 true true).md = ['4', nul]) ∧
    ((bwa_gen_cigar2 bns_get_seq no_aligner (bwa_fill_scmat 1 4) 6 1 6 1 0 4 [27, 0] 4
        [0, 1, 3, 3] 0 4 true true).score = some (-1) ∧
     (bwa_gen_cigar2 bns_get_seq no_aligner (bwa_fill_scmat 1 4) 6 1 6 1 0 4 [27, 0] 4
        [0, 1, 3, 3] 0 4 true true).NM = some 1 ∧
     (bwa_gen_cigar2 bns_get_seq no_aligner (bwa_fill_scmat 1 4) 6 1 6 1 0 4 [27, 0] 4
        [0, 1, 3, 3] 0 4 true true).md = ['2', 'G', '1', nul]) := by
  have h1 := md_single_match_block bns_get_seq no_aligner (bwa_fill_scmat 1 4) 6 1 6 1 0 4
    [27, 0] 4 [0, 1, 2, 3] 0 4 64 (by decide) (by decide) (by decide) (by decide)
  have h2 := md_single_match_block bns_get_seq no_aligner (bwa_fill_scmat 1 4) 6 1 6 1 0 4
    [27, 0] 4 [0, 1, 3, 3] 0 4 64 (by decide) (by decide) (by decide) (by decide)
  refine ⟨⟨?_, ?_⟩, by decide, ?_, ?_⟩
  · rw [h1.1]
    decide
  · rw [h1.2]
    decide
  · rw [h2.1]
    decide
  · rw [h2.2]
    decide

/-- C8, as stated, fails, in two ways.  (1) A deletion block that is the first operation
leaves nothing in MD: for the query CG and the operations 1D 2M the windows ACG and CCG
give the same CIGAR and the same MD `2`, so no replay can tell them apart, and the
replay that looks for the deleted bases after `^` finds none.  (2) On the reverse
strand the letters are written from `"TGCAN"` over the reversed buffers: for the query
ACTT and the reverse-strand window ACGT the MD is `1C2`, and replaying it against the
original query gives ACTT, not the window. -/
theorem md_cigar_replay_counterexample :
    ((bwa_gen_cigar2 bns_get_seq (fixed_aligner 2 [18, 32]) (bwa_fill_scmat 1 4) 6 1 6 1 5 8
        [27, 27, 0] 2 [1, 2] 0 3 true true).cigar = some [18, 32] ∧
     (bwa_gen_cigar2 bns_get_seq (fixed_aligner 2 [18, 32]) (bwa_fill_scmat 1 4) 6 1 6 1 5 8
        [91, 27, 0] 2 [1, 2] 0 3 true true).cigar = some [18, 32] ∧
     (bwa_gen_cigar2 bns_get_seq (fixed_aligner 2 [18, 32]) (bwa_fill_scmat 1 4) 6 1 6 1 5 8
        [27, 27, 0] 2 [1, 2] 0 3 true true).md = ['2', nul] ∧
     (bwa_gen_cigar2 bns_get_seq (fixed_aligner 2 [18, 32]) (bwa_fill_scmat 1 4) 6 1 6 1 5 8
        [91, 27, 0] 2 [1, 2] 0 3 true true).md = ['2', nul] ∧
     bns_get_seq 8 [27, 27, 0] 0 3 = [0, 1, 2] ∧ bns_get_seq 8 [91, 27, 0] 0 3 = [1, 1, 2] ∧
     match_total [18, 32] + insertion_total [18, 32] = 2 ∧ reference_total [18, 32] = 3 ∧
     replay_md ['A', 'C', 'G', 'T', 'N'] false [18, 32] ['2'] [1, 2] = none) ∧
    ((bwa_gen_cigar2 bns_get_seq no_aligner (bwa_fill_scmat 1 4) 6 1 6 1 0 4 [27, 0] 4
        [0, 1, 3, 3] 4 8 true true).cigar = some [64] ∧
     (bwa_gen_cigar2 bns_get_seq no_aligner (bwa_fill_scmat 1 4) 6 1 6 1 0 4 [27, 0] 4
        [0, 1, 3, 3] 4 8 true true).md = ['1', 'C', '2', nul] ∧
     bns_get_seq 4 [27, 0] 4 8 = [0, 1, 2, 3] ∧
     replay_md ['A', 'C', 'G', 'T', 'N'] false [64] ['1', 'C', '2'] [0, 1, 3, 3] =
       some [0, 1, 3, 3]) := by
  decide

/-- C8, amended: for every result of `bwa_gen_cigar2` over a window of base codes
`0..4`, the MD bytes are a text followed by NUL, and replaying the CIGAR and that text
against the query as the alignment saw it (reversed on the reverse strand), reading the
letters in the table the routine wrote them from (`"ACGTN"` forward, `"TGCAN"` reverse),
reconstructs exactly the bases of the window as the alignment saw it that lie under the
match blocks and under the deletion blocks that are neither first nor last: a
match-block position is the query base where MD counts it as unchanged and the MD
letter where MD names a mismatch, and such a deletion block is the letters after `^`.
When no deletion block is first or last and the match and deletion lengths sum to the
window length, that is the whole window. -/
theorem md_cigar_replay (fetch : Accessor) (ksw : Aligner) (mat : List Int)
    (o_del e_del o_ins e_ins w_ l_pac : Int) (pac : List Nat) (l_query : Int)
    (query : List Nat) (rb re : Int) (ops : List Nat)
    (h : (bwa_gen_cigar2 fetch ksw mat o_del e_del o_ins e_ins w_ l_pac pac l_query query rb
      re true true).cigar = some ops)
    (hcodes : ∀ c ∈ fetch l_pac pac rb re, c < 5) :
    (bwa_gen_cigar2 fetch ksw mat o_del e_del o_ins e_ins w_ l_pac pac l_query query rb re
      true true).md =
      (bwa_gen_cigar2 fetch ksw mat o_del e_del o_ins e_ins w_ l_pac pac l_query query rb re
        true true).md.dropLast ++ [nul] ∧
    replay_md (int2base rb l_pac) true ops
      (bwa_gen_cigar2 fetch ksw mat o_del e_del o_ins e_ins w_ l_pac pac l_query query rb re
        true true).md.dropLast (oriented_query l_pac rb l_query query) =
      some (annotated_window (oriented_window l_pac rb (fetch l_pac pac rb re))
        (ops.length : Int) 0 ops 0) ∧
    ((∀ j w, ops[j]? = some w → cigar_op w = 2 → 0 < j ∧ j + 1 < ops.length) →
      reference_total ops = (fetch l_pac pac rb re).length →
      annotated_window (oriented_window l_pac rb (fetch l_pac pac rb re))
        (ops.length : Int) 0 ops 0 = oriented_window l_pac rb (fetch l_pac pac rb re)) := by
  obtain ⟨hmd, -⟩ := bwa_gen_cigar2_some fetch ksw mat o_del e_del o_ins e_ins w_ l_pac pac
    l_query query rb re ops h
  unfold plain_pass at hmd
  rw [nm_pass_render (match_pos_emits (oriented_query l_pac rb l_query query)
    (oriented_window l_pac rb (fetch l_pac pac rb re)) (int2base rb l_pac)) ops,
    render_eq_lead_tail, Nat.zero_add] at hmd
  have hlt := events_refs_lt (oriented_query l_pac rb l_query query)
    (oriented_window l_pac rb (fetch l_pac pac rb re)) (ops.length : Int)
    (oriented_window_getD_lt l_pac rb _ hcodes) ops 0 0 0
  have hg := int2base_good rb l_pac
  have hnum := read_number_kputw
    (md_lead differs (md_events (oriented_query l_pac rb l_query query)
      (oriented_window l_pac rb (fetch l_pac pac rb re)) (ops.length : Int) 0 ops 0 0))
    (md_tail (int2base rb l_pac) differs (md_events (oriented_query l_pac rb l_query query)
      (oriented_window l_pac rb (fetch l_pac pac rb re)) (ops.length : Int) 0 ops 0 0))
    (md_tail_head hg differs _ hlt)
  have hrep := replay_events hg differs _ hlt (fun q r _ hd => differs_false q r hd)
  rw [events_slots, events_refs] at hrep
  refine ⟨?_, ?_, ?_⟩
  · rw [hmd, List.dropLast_concat]
  · rw [hmd, List.dropLast_concat]
    unfold replay_md
    rw [hnum]
    exact hrep
  · intro hne hsum
    have hne' : ∀ j w, ops[j]? = some w → cigar_op w = 2 →
        0 < 0 + j ∧ ((0 + j : Nat) : Int) < (ops.length : Int) - 1 := by
      intro j w hj hw
      have := hne j w hj hw
      rw [Nat.zero_add]
      omega
    rw [annotated_window_whole _ _ ops 0 0 hne', hsum,
      ← oriented_window_length l_pac rb (fetch l_pac pac rb re)]
    exact slice_whole _

/-- Witness of the amended C8: query ACTGT against the window ACGTAC with the operations
2M 1I 1M 2D 1M gives the MD text `3^TA0C0`, and the replay of CIGAR and MD against the
query gives back the window ACGTAC. -/
theorem md_cigar_replay_witness :
    (bwa_gen_cigar2 bns_get_seq (fixed_aligner (-9) [32, 17, 16, 34, 16])
      (bwa_fill_scmat 1 4) 6 1 6 1 5 8 [27, 27, 0] 5 [0, 1, 3, 2, 3] 0 6 true true).md =
      ['3', '^', 'T', 'A', '0', 'C', '0', nul] ∧
    replay_md ['A', 'C', 'G', 'T', 'N'] true [32, 17, 16, 34, 16]
      ['3', '^', 'T', 'A', '0', 'C', '0'] [0, 1, 3, 2, 3] = some [0, 1, 2, 3, 0, 1] := by
  have h := md_cigar_replay bns_get_seq (fixed_aligner (-9) [32, 17, 16, 34, 16])
    (bwa_fill_scmat 1 4) 6 1 6 1 5 8 [27, 27, 0] 5 [0, 1, 3, 2, 3] 0 6 [32, 17, 16, 34, 16]
    (by decide) (by decide)
  have hmd : (bwa_gen_cigar2 bns_get_seq (fixed_aligner (-9) [32, 17, 16, 34, 16])
      (bwa_fill_scmat 1 4) 6 1 6 1 5 8 [27, 27, 0] 5 [0, 1, 3, 2, 3] 0 6 true true).md =
      ['3', '^', 'T', 'A', '0', 'C', '0', nul] := by decide
  refine ⟨hmd, ?_⟩
  have h2 := h.2.1
  rw [hmd] at h2
  have hne : ∀ j w, [32, 17, 16, 34, 16][j]? = some w → cigar_op w = 2 →
      0 < j ∧ j + 1 < [32, 17, 16, 34, 16].length := by
    intro j w hj hw
    rcases j with _ | _ | _ | _ | _ | j <;> simp at hj <;> subst hj <;> revert hw <;> decide
  rw [h.2.2 hne (by decide)] at h2
  exact h2

/-- C11, as stated, fails: with match score 200 the (G, A) cell of the G>A matrix does
not hold 200 (an `int8_t` cell cannot), it holds -56. -/
theorem bwa_fill_scmat_ga_cell10_counterexample :
    (bwa_fill_scmat_ga 200 4)[10]? = some (-56) ∧ (bwa_fill_scmat_ga 200 4)[10]? ≠ some 200 := by
  decide

/-- C11, amended: for every `a` and `b` the matrix of `bwa_fill_scmat_ga` has the 25
cells of the matrix of `bwa_fill_scmat`, equal cell by cell except at index
`2*5 + 0 = 10`, where it holds the match score `a` converted to `int8_t` (the value of
its diagonal cells; `a` itself when `a` fits) in the place of `-b` converted to
`int8_t`. -/
theorem bwa_fill_scmat_ga_differs_at_10 (a b : Int) :
    (bwa_fill_scmat_ga a b).length = 25 ∧ (bwa_fill_scmat a b).length = 25 ∧
    (∀ k : Nat, k < 25 → k ≠ 10 → (bwa_fill_scmat_ga a b)[k]? = (bwa_fill_scmat a b)[k]?) ∧
    (bwa_fill_scmat_ga a b)[10]? = some (int8 a) ∧
    (bwa_fill_scmat_ga a b)[10]? = (bwa_fill_scmat_ga a b)[0]? ∧
    (bwa_fill_scmat a b)[10]? = some (int8 (-b)) ∧
    (-128 ≤ a ∧ a ≤ 127 → (bwa_fill_scmat_ga a b)[10]? = some a) ∧
    (-128 ≤ -b ∧ -b ≤ 127 → (bwa_fill_scmat a b)[10]? = some (-b)) := by
  rw [bwa_fill_scmat_ga_eq, bwa_fill_scmat_eq]
  refine ⟨rfl, rfl, ?_, rfl, rfl, rfl, ?_, ?_⟩
  · intro k hk h10
    interval_cases k <;> simp at h10 ⊢
  · intro h
    simp [int8_of_fits a h]
  · intro h
    simp [int8_of_fits (-b) h]

/-- Witness of the amended C11 at match score 1 and mismatch penalty 4. -/
theorem bwa_fill_scmat_ga_differs_at_10_witness :
    (bwa_fill_scmat_ga 1 4)[10]? = some 1 ∧ (bwa_fill_scmat 1 4)[10]? = some (-4) :=
  ⟨(bwa_fill_scmat_ga_differs_at_10 1 4).2.2.2.2.2.2.1 (by decide),
   (bwa_fill_scmat_ga_differs_at_10 1 4).2.2.2.2.2.2.2 (by decide)⟩

/-- C12: the matrix of `bwa_fill_scmat` is symmetric under base swap: for every `a` and
`b` and every pair of codes `i, j` in `0..4`, cell `i*5 + j` equals cell `j*5 + i` (and
both cells exist). -/
theorem bwa_fill_scmat_symmetric (a b : Int) (i j : Nat) (hi : i < 5) (hj : j < 5) :
    (bwa_fill_scmat a b)[i * 5 + j]? = (bwa_fill_scmat a b)[j * 5 + i]? ∧
    ((bwa_fill_scmat a b)[i * 5 + j]?).isSome = true := by
  rw [bwa_fill_scmat_eq]
  interval_cases i <;> interval_cases j <;> exact ⟨rfl, rfl⟩

/-- Witness of C12: the cells (A, T) and (T, A), and the cells (C, N) and (N, C), for
match score 300 and mismatch penalty 4. -/
theorem bwa_fill_scmat_symmetric_witness :
    ((bwa_fill_scmat 300 4)[0 * 5 + 3]? = (bwa_fill_scmat 300 4)[3 * 5 + 0]? ∧
      ((bwa_fill_scmat 300 4)[0 * 5 + 3]?).isSome = true) ∧
    ((bwa_fill_scmat 300 4)[1 * 5 + 4]? = (bwa_fill_scmat 300 4)[4 * 5 + 1]? ∧
      ((bwa_fill_scmat 300 4)[1 * 5 + 4]?).isSome = true) :=
  ⟨bwa_fill_scmat_symmetric 300 4 0 3 (by decide) (by decide),
   bwa_fill_scmat_symmetric 300 4 1 4 (by decide) (by decide)⟩

/-- C13, as stated, fails: for the reverse-strand window `[8, 14)` of a reference with
`l_pac = 8` and an aligner that answers 2M 1I 1M 2D 1M, both routines return those
operations in the aligner's order, not reversed. -/
theorem reverse_strand_cigar_counterexample :
    (8 : Int) ≥ 8 ∧
    (bwa_gen_cigar2 bns_get_seq (fixed_aligner (-9) [32, 17, 16, 34, 16])
      (bwa_fill_scmat 1 4) 6 1 6 1 5 8 [27, 27, 0] 5 [0, 1, 3, 2, 3] 8 14 true true).cigar =
      some [32, 17, 16, 34, 16] ∧
    (bis_bwa_gen_cigar2 bns_get_seq (fixed_aligner (-9) [32, 17, 16, 34, 16])
      (bwa_fill_scmat 1 4) 6 1 6 1 5 8 [27, 27, 0] 5 [0, 1, 3, 2, 3] 8 14 true true 1).cigar =
      some [32, 17, 16, 34, 16] ∧
    some [32, 17, 16, 34, 16] ≠ some ([32, 17, 16, 34, 16].reverse) := by
  decide

/-- C13, amended: for every accepted window with `rb >= l_pac` that takes the general
path (the `n_cigar` pointer set), `bwa_gen_cigar2` and `bis_bwa_gen_cigar2` hand the
aligner the query and the window reversed in place, and return the operation list the
aligner computed on them as it is, in the aligner's order.  The in-place reversal of a
whole buffer is its reverse. -/
theorem reverse_strand_cigar (fetch : Accessor) (ksw : Aligner) (mat : List Int)
    (o_del e_del o_ins e_ins w_ l_pac : Int) (pac : List Nat) (l_query : Int)
    (query : List Nat) (rb re : Int) (NM : Bool) (parent : Nat)
    (hq : 0 < l_query) (hw : rb < re) (hrev : rb ≥ l_pac)
    (hlen : ((fetch l_pac pac rb re).length : Int) = re - rb)
    (hgen : ¬ (l_query = re - rb ∧ w_ = 0)) :
    (bwa_gen_cigar2 fetch ksw mat o_del e_del o_ins e_ins w_ l_pac pac l_query query rb re
        true NM).cigar =
      some (ksw l_query (reverse_inplace l_query.toNat query)
        ((fetch l_pac pac rb re).length : Int)
        (reverse_inplace (fetch l_pac pac rb re).length (fetch l_pac pac rb re)) 5 mat
        o_del e_del o_ins e_ins
        (band_width mat o_del e_del o_ins e_ins w_ l_query
          ((fetch l_pac pac rb re).length : Int))).2 ∧
    (bis_bwa_gen_cigar2 fetch ksw mat o_del e_del o_ins e_ins w_ l_pac pac l_query query rb
        re true NM parent).cigar =
      some (ksw l_query (reverse_inplace l_query.toNat query)
        ((fetch l_pac pac rb re).length : Int)
        (reverse_inplace (fetch l_pac pac rb re).length (fetch l_pac pac rb re)) 5 mat
        o_del e_del o_ins e_ins
        (band_width mat o_del e_del o_ins e_ins w_ l_query
          ((fetch l_pac pac rb re).length : Int))).2 ∧
    reverse_inplace (fetch l_pac pac rb re).length (fetch l_pac pac rb re) =
      (fetch l_pac pac rb re).reverse ∧
    (query.length = l_query.toNat → reverse_inplace l_query.toNat query = query.reverse) := by
  have hg : ¬ (l_query ≤ 0 ∨ rb ≥ re ∨ (rb < l_pac ∧ re > l_pac)) := by
    rintro (h | h | h)
    · omega
    · omega
    · omega
  have hl : ¬ (re - rb ≠ ((fetch l_pac pac rb re).length : Int)) := by
    intro h
    exact h hlen.symm
  refine ⟨?_, ?_, reverse_inplace_eq_reverse _, ?_⟩
  · unfold bwa_gen_cigar2
    simp only [if_neg hg, if_neg hl, if_pos hrev,
      gen_cigar_align_general _ _ _ _ _ _ _ _ _ _ _ _ _ _ hgen]
    cases NM <;> simp
  · unfold bis_bwa_gen_cigar2
    simp only [if_neg hg, if_neg hl, if_pos hrev,
      gen_cigar_align_general _ _ _ _ _ _ _ _ _ _ _ _ _ _ hgen]
    cases NM <;> simp
  · intro h
    rw [← h]
    exact reverse_inplace_eq_reverse _

/-- Witness of the amended C13: the reverse-strand window `[8, 14)` with an aligner that
answers 2M 1I 1M 2D 1M. -/
theorem reverse_strand_cigar_witness :
    (bwa_gen_cigar2 bns_get_seq (fixed_aligner (-9) [32, 17, 16, 34, 16])
      (bwa_fill_scmat 1 4) 6 1 6 1 5 8 [27, 27, 0] 5 [0, 1, 3, 2, 3] 8 14 true true).cigar =
      some [32, 17, 16, 34, 16] ∧
    reverse_inplace (5 : Int).toNat [0, 1, 3, 2, 3] = [3, 2, 3, 1, 0] := by
  have h := reverse_strand_cigar bns_get_seq (fixed_aligner (-9) [32, 17, 16, 34, 16])
    (bwa_fill_scmat 1 4) 6 1 6 1 5 8 [27, 27, 0] 5 [0, 1, 3, 2, 3] 8 14 true 1
    (by decide) (by decide) (by decide) (by decide) (by decide)
  exact ⟨h.1, h.2.2.2 (by decide)⟩

/-- C20: one round of the NM / MD loop, which both routines run (`mp` is the body of the
match loop of either).  A deletion block that is the first or the last operation only
advances the reference cursor by its length: nothing is appended to MD and the gap
count, hence `NM`, stays.  Any other deletion block of length `L` appends the run
count, `^` and the `L` deleted reference base letters, resets the run to 0, adds `L`
to the gap count and advances the reference cursor.  An insertion block adds its
length to the gap count and advances the query cursor; MD and the run stay.  `NM` is
the mismatch count plus the gap count. -/
theorem nm_step_gap_blocks (mp : NMState → Nat → NMState) (rseq : List Nat)
    (tbl : List Char) (n : Int) (s : NMState) (k w : Nat) (ws : List Nat) :
    (cigar_op w = 2 → (k = 0 ∨ (k : Int) = n - 1) →
      nm_step mp rseq tbl n s k w = { s with y := s.y + cigar_len w }) ∧
    (cigar_op w = 2 → 0 < k → (k : Int) < n - 1 →
      nm_step mp rseq tbl n s k w =
        { s with
          str := s.str ++ kputw s.u ++ ['^'] ++
            ((List.range (cigar_len w)).map (fun i => tbl.getD (rseq.getD (s.y + i) 0) nul))
          u := 0
          n_gap := s.n_gap + cigar_len w
          y := s.y + cigar_len w }) ∧
    (cigar_op w = 1 →
      nm_step mp rseq tbl n s k w =
        { s with x := s.x + cigar_len w, n_gap := s.n_gap + cigar_len w }) ∧
    nm_loop mp rseq tbl n k (w :: ws) s =
      nm_loop mp rseq tbl n (k + 1) ws (nm_step mp rseq tbl n s k w) ∧
    (∀ (fetch : Accessor) (ksw : Aligner) (mat : List Int)
      (o_del e_del o_ins e_ins w_ l_pac : Int) (pac : List Nat) (l_query : Int)
      (query : List Nat) (rb re : Int) (parent : Nat) (ops : List Nat),
      (bwa_gen_cigar2 fetch ksw mat o_del e_del o_ins e_ins w_ l_pac pac l_query query rb re
        true true).cigar = some ops →
      (bwa_gen_cigar2 fetch ksw mat o_del e_del o_ins e_ins w_ l_pac pac l_query query rb re
        true true).NM =
        some ((plain_pass l_pac rb l_query query (fetch l_pac pac rb re) ops).n_mm +
          (plain_pass l_pac rb l_query query (fetch l_pac pac rb re) ops).n_gap) ∧
      (bis_bwa_gen_cigar2 fetch ksw mat o_del e_del o_ins e_ins w_ l_pac pac l_query query rb
        re true true parent).NM =
        some ((bis_pass parent l_pac rb l_query query (fetch l_pac pac rb re) ops).n_mm +
          (bis_pass parent l_pac rb l_query query (fetch l_pac pac rb re) ops).n_gap)) := by
  refine ⟨?_, ?_, ?_, rfl, ?_⟩
  · intro h2 hk
    have hne : ¬ (k > 0 ∧ (k : Int) < n - 1) := by omega
    rw [nm_step_del _ _ _ _ _ _ _ h2, del_block_eq, if_neg hne]
  · intro h2 hk1 hk2
    rw [nm_step_del _ _ _ _ _ _ _ h2, del_block_eq, if_pos ⟨hk1, hk2⟩]
  · intro h1
    exact nm_step_ins _ _ _ _ _ _ _ h1
  · intro fetch ksw mat o_del e_del o_ins e_ins w_ l_pac pac l_query query rb re parent ops h
    have hb : (bis_bwa_gen_cigar2 fetch ksw mat o_del e_del o_ins e_ins w_ l_pac pac l_query
        query rb re true true parent).cigar = some ops := by
      rw [gen_cigar_same_cigar]
      exact h
    exact ⟨(bwa_gen_cigar2_some fetch ksw mat o_del e_del o_ins e_ins w_ l_pac pac l_query
        query rb re ops h).2,
      (bis_bwa_gen_cigar2_some fetch ksw mat o_del e_del o_ins e_ins w_ l_pac pac l_query
        query rb re parent ops hb).2.1⟩

/-- Witness of C20: in a CIGAR of 5 operations over the window ACGTAC, with the run at 3
and the reference cursor at 3, a deletion of 2 as operation 3 appends `3^TA`; as
operation 4 (the last) or operation 0 (the first) it only moves the cursor; an
insertion of 1 adds 1 to the gap count. -/
theorem nm_step_gap_blocks_witness :
    nm_step (match_pos [0, 1, 3, 2, 3] [0, 1, 2, 3, 0, 1] ['A', 'C', 'G', 'T', 'N'])
        [0, 1, 2, 3, 0, 1] ['A', 'C', 'G', 'T', 'N'] 5
        { str := [], x := 4, y := 3, u := 3, n_mm := 0, n_gap := 1, n_conv := 0, n_ret := 0 }
        3 34 =
      { str := ['3', '^', 'T', 'A'], x := 4, y := 5, u := 0, n_mm := 0, n_gap := 3,
        n_conv := 0, n_ret := 0 } ∧
    nm_step (match_pos [0, 1, 3, 2, 3] [0, 1, 2, 3, 0, 1] ['A', 'C', 'G', 'T', 'N'])
        [0, 1, 2, 3, 0, 1] ['A', 'C', 'G', 'T', 'N'] 5
        { str := [], x := 4, y := 3, u := 3, n_mm := 0, n_gap := 1, n_conv := 0, n_ret := 0 }
        4 34 =
      { str := [], x := 4, y := 5, u := 3, n_mm := 0, n_gap := 1, n_conv := 0, n_ret := 0 } ∧
    nm_step (match_pos [0, 1, 3, 2, 3] [0, 1, 2, 3, 0, 1] ['A', 'C', 'G', 'T', 'N'])
        [0, 1, 2, 3, 0, 1] ['A', 'C', 'G', 'T', 'N'] 5
        { str := [], x := 4, y := 3, u := 3, n_mm := 0, n_gap := 1, n_conv := 0, n_ret := 0 }
        0 34 =
      { str := [], x := 4, y := 5, u := 3, n_mm := 0, n_gap := 1, n_conv := 0, n_ret := 0 } ∧
    nm_step (match_pos [0, 1, 3, 2, 3] [0, 1, 2, 3, 0, 1] ['A', 'C', 'G', 'T', 'N'])
        [0, 1, 2, 3, 0, 1] ['A', 'C', 'G', 'T', 'N'] 5
        { str := [], x := 4, y := 3, u := 3, n_mm := 0, n_gap := 1, n_conv := 0, n_ret := 0 }
        1 17 =
      { str := [], x := 5, y := 3, u := 3, n_mm := 0, n_gap := 2, n_conv := 0, n_ret := 0 } := by
  refine ⟨?_, ?_, ?_, ?_⟩
  · rw [(nm_step_gap_blocks _ _ _ 5 _ 3 34 []).2.1 (by decide) (by decide) (by decide)]
    decide
  · rw [(nm_step_gap_blocks _ _ _ 5 _ 4 34 []).1 (by decide) (Or.inr (by decide))]
    decide
  · rw [(nm_step_gap_blocks _ _ _ 5 _ 0 34 []).1 (by decide) (Or.inl rfl)]
    decide
  · rw [(nm_step_gap_blocks _ _ _ 5 _ 1 17 []).2.2.1 (by decide)]
    decide

/-- C17, as stated, fails: with the mask bits 1, 2, 4 and the index files present, the
mask 4 (the packed reference alone) loads no packed reference, although its bit is
set. -/
theorem load_mask_pac_alone_counterexample :
    (4 : Nat) &&& 4 ≠ 0 ∧
    (bwa_idx_load_from_disk 1 2 4
      ({ has_par_bwt := true, has_dau_bwt := true, par := 10, dau := 20, bns := 30,
         pac := 40 } : IndexFiles Nat Nat Nat) 4).map (fun idx => idx.pac) = some none := by
  decide

/-- C17, amended: given that the index files exist, for every load mask (and whatever
the three mask bits are) `bwa_idx_load_from_disk` returns an index in which the BWT
pair is loaded exactly when `BWA_IDX_BWT` is set (parent strand into `bwt[1]`, daughter
strand into `bwt[0]`), the annotation table exactly when `BWA_IDX_BNS` is set, and the
packed reference exactly when both `BWA_IDX_BNS` and `BWA_IDX_PAC` are set. -/
theorem load_mask_selection {α β γ : Type} (BWA_IDX_BWT BWA_IDX_BNS BWA_IDX_PAC : Nat)
    (f : IndexFiles α β γ) (which : Nat) (hf : bwa_idx_infer_prefix f = true) :
    ∃ idx : LoadedIndex α β γ,
      bwa_idx_load_from_disk BWA_IDX_BWT BWA_IDX_BNS BWA_IDX_PAC f which = some idx ∧
      (which &&& BWA_IDX_BWT ≠ 0 → idx.bwt1 = some (f.par, 1) ∧ idx.bwt0 = some (f.dau, 0)) ∧
      (which &&& BWA_IDX_BWT = 0 → idx.bwt1 = none ∧ idx.bwt0 = none) ∧
      (which &&& BWA_IDX_BNS ≠ 0 → idx.bns = some f.bns) ∧
      (which &&& BWA_IDX_BNS = 0 → idx.bns = none) ∧
      (which &&& BWA_IDX_BNS ≠ 0 ∧ which &&& BWA_IDX_PAC ≠ 0 → idx.pac = some f.pac) ∧
      (¬ (which &&& BWA_IDX_BNS ≠ 0 ∧ which &&& BWA_IDX_PAC ≠ 0) → idx.pac = none) := by
  have hf' : ¬ ( bwa_idx_infer_prefix f = false) := by
    rw [hf]
    exact Bool.noConfusion
  unfold bwa_idx_load_from_disk
  rw [if_neg hf']
  refine ⟨_, rfl, ?_⟩
  by_cases h1 : which &&& BWA_IDX_BWT ≠ 0 <;> by_cases h2 : which &&& BWA_IDX_BNS ≠ 0 <;>
    by_cases h3 : which &&& BWA_IDX_PAC ≠ 0 <;>
    simp [h1, h2, h3, bwa_idx_load_bwt, hf]

/-- Witness of the amended C17: with the mask bits 1, 2, 4, the mask 6 loads the
annotation table and the packed reference and no BWT. -/
theorem load_mask_selection_witness :
    ∃ idx : LoadedIndex Nat Nat Nat,
      bwa_idx_load_from_disk 1 2 4
        { has_par_bwt := true, has_dau_bwt := true, par := 10, dau := 20, bns := 30,
          pac := 40 } 6 = some idx ∧
      idx.bwt1 = none ∧ idx.bwt0 = none ∧ idx.bns = some 30 ∧ idx.pac = some 40 := by
  obtain ⟨idx, h, -, h2, h3, -, h5, -⟩ := load_mask_selection 1 2 4
    ({ has_par_bwt := true, has_dau_bwt := true, par := 10, dau := 20, bns := 30,
       pac := 40 } : IndexFiles Nat Nat Nat) 6 (by decide)
  exact ⟨idx, h, (h2 (by decide)).1, (h2 (by decide)).2, h3 (by decide), h5 (by decide)⟩

/-- C19, as stated, fails where the difference of the lengths does not fit an `int`:
`abs` takes an `int`, so for `l_query = 5` and a window of `2^32 + 5` bases the
difference `2^32` becomes 0 and the band handed to the aligner is 3, below `d + 3`
and not the value of the formula. -/
theorem band_width_counterexample :
    band_width (bwa_fill_scmat 1 4) 6 1 6 1 100 5 4294967301 = 3 ∧
    ¬ (|(4294967301 : Int) - 5| + 3 ≤ band_width (bwa_fill_scmat 1 4) 6 1 6 1 100 5 4294967301) ∧
    band_width_spec (bwa_fill_scmat 1 4) 6 1 6 1 100 5 4294967301 ≠
      band_width (bwa_fill_scmat 1 4) 6 1 6 1 100 5 4294967301 := by
  have hm : (bwa_fill_scmat 1 4).getD 0 0 = 1 := by decide
  have hn : ((5 : Int) + 1) >>> 1 * 1 - 6 = -3 := by decide
  have hq : (((-3 : Int) : ℚ)) / ((1 : Int) : ℚ) + 1 = ((-2 : Int) : ℚ) := by norm_num
  have hd : int32 (4294967301 - 5) = 0 := by decide
  have hb : band_width (bwa_fill_scmat 1 4) 6 1 6 1 100 5 4294967301 = 3 := by
    unfold band_width
    simp only [hm, hn, hq, trunc_double_intCast, hd]
    decide
  have hs : (4294967299 : Int) ≤ band_width_spec (bwa_fill_scmat 1 4) 6 1 6 1 100 5 4294967301 := by
    unfold band_width_spec
    refine le_trans ?_ (le_max_right _ _)
    decide
  refine ⟨hb, ?_, ?_⟩
  · rw [hb]
    decide
  · rw [hb]
    intro h
    rw [h] at hs
    exact absurd hs (by decide)

/-- C19, amended: for every input with positive gap-extension costs whose difference of
window length and query length fits an `int` (`|window_length - l_query| < 2^31`), the
band handed to the global aligner is `max(min(w_, (max_gap + d + 1) div 2), d + 3)`
with `d = |window_length - l_query|`, `max_gap = max(max_ins, max_del, 1)`,
`max_ins = trunc((((l_query+1) div 2) * mat[0] - o_ins) / e_ins + 1)` and `max_del`
likewise; in particular it is at least `d + 3`, also when the requested band `w_` is
smaller. -/
theorem band_width_formula (mat : List Int) (o_del e_del o_ins e_ins w_ : Int)
    (l_query rlen : Int) (_he_ins : 0 < e_ins) (_he_del : 0 < e_del)
    (hr : |rlen - l_query| < 2 ^ 31) :
    band_width mat o_del e_del o_ins e_ins w_ l_query rlen =
      band_width_spec mat o_del e_del o_ins e_ins w_ l_query rlen ∧
    |rlen - l_query| + 3 ≤ band_width mat o_del e_del o_ins e_ins w_ l_query rlen :=
  band_width_eq_spec mat o_del e_del o_ins e_ins w_ l_query rlen hr

/-- Witness of the amended C19: `l_query = 5`, window length 9, requested band 2, match
score 1, gap costs 6 and 1: `d = 4`, and the band is 7, above the requested one. -/
theorem band_width_formula_witness :
    band_width (bwa_fill_scmat 1 4) 6 1 6 1 2 5 9 =
      band_width_spec (bwa_fill_scmat 1 4) 6 1 6 1 2 5 9 ∧
    |(9 : Int) - 5| + 3 ≤ band_width (bwa_fill_scmat 1 4) 6 1 6 1 2 5 9 ∧
    band_width (bwa_fill_scmat 1 4) 6 1 6 1 2 5 9 = 7 := by
  have h := band_width_formula (bwa_fill_scmat 1 4) 6 1 6 1 2 5 9 (by decide) (by decide)
    (by decide)
  refine ⟨h.1, h.2, ?_⟩
  have hm : (bwa_fill_scmat 1 4).getD 0 0 = 1 := by decide
  have hn : ((5 : Int) + 1) >>> 1 * 1 - 6 = -3 := by decide
  have hq : (((-3 : Int) : ℚ)) / ((1 : Int) : ℚ) + 1 = ((-2 : Int) : ℚ) := by norm_num
  have hd : int32 (9 - 5) = 4 := by decide
  unfold band_width
  simp only [hm, hn, hq, trunc_double_intCast, hd]
  decide

/-- C18, as stated, fails for the aligner of the specification: for the query ACGTA and
the window CGTAA (match 1, mismatch 4, gap open 6, gap extend 1, requested band 0) the
fast path returns one match block of length 5 with score -15, while the general branch
hands the aligner the band 3 and gets the operations 1I 4M 1D with score -8. -/
theorem fast_path_vs_general_counterexample :
    bns_get_seq 8 [108, 27, 0] 0 5 = [1, 2, 3, 0, 0] ∧
    (bwa_gen_cigar2 bns_get_seq ksw_global2_spec (bwa_fill_scmat 1 4) 6 1 6 1 0 8
      [108, 27, 0] 5 [0, 1, 2, 3, 0] 0 5 true false).cigar = some [80] ∧
    (bwa_gen_cigar2 bns_get_seq ksw_global2_spec (bwa_fill_scmat 1 4) 6 1 6 1 0 8
      [108, 27, 0] 5 [0, 1, 2, 3, 0] 0 5 true false).score = some (-15) ∧
    gen_cigar_general ksw_global2_spec (bwa_fill_scmat 1 4) 6 1 6 1 0 5 [0, 1, 2, 3, 0]
      [1, 2, 3, 0, 0] 5 true = (some [17, 64, 18], some 3, -8) := by
  refine ⟨by decide, by decide, by decide, ?_⟩
  unfold gen_cigar_general
  rw [band_width_zero]
  decide

/-- C18, amended: for every valid non-straddling window with query length = window
length and requested band 0, what the fast path of `bwa_gen_cigar2` and
`bis_bwa_gen_cigar2` returns (the single full-length match block and its score) is what
the banded global alignment of the specification yields with band 0 on the same
sequences; the general branch of the code, however, hands the aligner the band 3 (the
floor `|window_length - l_query| + 3`), not 0, and returns whatever the aligner answers
for that band. -/
theorem fast_path_is_band_zero_alignment (fetch : Accessor) (ksw : Aligner)
    (mat : List Int) (o_del e_del o_ins e_ins l_pac : Int) (pac : List Nat)
    (l_query : Int) (query : List Nat) (rb re : Int) (NM : Bool) (parent : Nat)
    (hq : 0 < l_query) (hs : ¬ (rb < l_pac ∧ l_pac < re))
    (hlen : ((fetch l_pac pac rb re).length : Int) = re - rb)
    (heq : l_query = re - rb) (hbuf : query.length = l_query.toNat) :
    (bwa_gen_cigar2 fetch ksw mat o_del e_del o_ins e_ins 0 l_pac pac l_query query rb re
        true NM).cigar =
      some (ksw_global2_spec l_query (oriented_query l_pac rb l_query query)
        ((fetch l_pac pac rb re).length : Int)
        (oriented_window l_pac rb (fetch l_pac pac rb re)) 5 mat o_del e_del o_ins e_ins 0).2 ∧
    (bwa_gen_cigar2 fetch ksw mat o_del e_del o_ins e_ins 0 l_pac pac l_query query rb re
        true NM).score =
      some (ksw_global2_spec l_query (oriented_query l_pac rb l_query query)
        ((fetch l_pac pac rb re).length : Int)
        (oriented_window l_pac rb (fetch l_pac pac rb re)) 5 mat o_del e_del o_ins e_ins 0).1 ∧
    (bis_bwa_gen_cigar2 fetch ksw mat o_del e_del o_ins e_ins 0 l_pac pac l_query query rb
        re true NM parent).cigar =
      some (ksw_global2_spec l_query (oriented_query l_pac rb l_query query)
        ((fetch l_pac pac rb re).length : Int)
        (oriented_window l_pac rb (fetch l_pac pac rb re)) 5 mat o_del e_del o_ins e_ins 0).2 ∧
    (bis_bwa_gen_cigar2 fetch ksw mat o_del e_del o_ins e_ins 0 l_pac pac l_query query rb
        re true NM parent).score =
      some (ksw_global2_spec l_query (oriented_query l_pac rb l_query query)
        ((fetch l_pac pac rb re).length : Int)
        (oriented_window l_pac rb (fetch l_pac pac rb re)) 5 mat o_del e_del o_ins e_ins 0).1 ∧
    gen_cigar_general ksw mat o_del e_del o_ins e_ins 0 l_query
        (oriented_query l_pac rb l_query query)
        (oriented_window l_pac rb (fetch l_pac pac rb re))
        ((fetch l_pac pac rb re).length : Int) true =
      (some (ksw l_query (oriented_query l_pac rb l_query query)
          ((fetch l_pac pac rb re).length : Int)
          (oriented_window l_pac rb (fetch l_pac pac rb re)) 5 mat o_del e_del o_ins e_ins 3).2,
       some (((ksw l_query (oriented_query l_pac rb l_query query)
          ((fetch l_pac pac rb re).length : Int)
          (oriented_window l_pac rb (fetch l_pac pac rb re)) 5 mat o_del e_del o_ins e_ins
            3).2.length : Nat) : Int),
       (ksw l_query (oriented_query l_pac rb l_query query)
          ((fetch l_pac pac rb re).length : Int)
          (oriented_window l_pac rb (fetch l_pac pac rb re)) 5 mat o_del e_del o_ins e_ins
            3).1) := by
  have hg : ¬ (l_query ≤ 0 ∨ rb ≥ re ∨ (rb < l_pac ∧ re > l_pac)) := by
    rintro (h | h | h)
    · omega
    · omega
    · exact hs ⟨h.1, h.2⟩
  have hl : ¬ (re - rb ≠ ((fetch l_pac pac rb re).length : Int)) := by
    intro h
    exact h hlen.symm
  obtain ⟨l, hlq⟩ : ∃ l : Nat, l_query.toNat = l + 1 := ⟨l_query.toNat - 1, by omega⟩
  have hlq' : l_query = ((l + 1 : Nat) : Int) := by omega
  have hql : (oriented_query l_pac rb l_query query).length = l + 1 := by
    unfold oriented_query
    split_ifs
    · rw [reverse_inplace_length _ _ (by omega)]
      omega
    · omega
  have hrl : (oriented_window l_pac rb (fetch l_pac pac rb re)).length = l + 1 := by
    rw [oriented_window_length]
    omega
  have hspec := ksw_global2_spec_band_zero mat o_del e_del o_ins e_ins 5
    (oriented_query l_pac rb l_query query)
    (oriented_window l_pac rb (fetch l_pac pac rb re)) l hql hrl
  rw [← hlq'] at hspec
  have hlen0 : ((fetch l_pac pac rb re).length : Int) = l_query := by omega
  rw [hlen0, hspec]
  refine ⟨?_, ?_, ?_, ?_, ?_⟩
  · unfold bwa_gen_cigar2
    simp only [if_neg hg, if_neg hl, gen_cigar_align_fast _ _ _ _ _ _ _ _ _ _ _ _ _ heq, hlq]
    cases NM <;> simp
  · unfold bwa_gen_cigar2 oriented_query oriented_window
    simp only [if_neg hg, if_neg hl, gen_cigar_align_fast _ _ _ _ _ _ _ _ _ _ _ _ _ heq, hlq]
    cases NM <;> simp
  · unfold bis_bwa_gen_cigar2
    simp only [if_neg hg, if_neg hl, gen_cigar_align_fast _ _ _ _ _ _ _ _ _ _ _ _ _ heq, hlq]
    cases NM <;> simp
  · unfold bis_bwa_gen_cigar2 oriented_query oriented_window
    simp only [if_neg hg, if_neg hl, gen_cigar_align_fast _ _ _ _ _ _ _ _ _ _ _ _ _ heq, hlq]
    cases NM <;> simp
  · unfold gen_cigar_general
    rw [band_width_zero]
    rfl

/-- Witness of the amended C18: query ACGT against the window ACGT, match 1, mismatch
4, band 0: the fast path returns the match block `4 << 4 | 0` with score 4, which is
what the aligner of the specification yields with band 0. -/
theorem fast_path_is_band_zero_alignment_witness :
    (bwa_gen_cigar2 bns_get_seq no_aligner (bwa_fill_scmat 1 4) 6 1 6 1 0 4 [27, 0] 4
        [0, 1, 2, 3] 0 4 true true).cigar = some [64] ∧
    (bwa_gen_cigar2 bns_get_seq no_aligner (bwa_fill_scmat 1 4) 6 1 6 1 0 4 [27, 0] 4
        [0, 1, 2, 3] 0 4 true true).score = some 4 ∧
    ksw_global2_spec 4 [0, 1, 2, 3] 4 [0, 1, 2, 3] 5 (bwa_fill_scmat 1 4) 6 1 6 1 0 =
      (4, [64]) := by
  have h := fast_path_is_band_zero_alignment bns_get_seq no_aligner (bwa_fill_scmat 1 4) 6 1
    6 1 4 [27, 0] 4 [0, 1, 2, 3] 0 4 true 1 (by decide) (by decide) (by decide) (by decide)
    (by decide)
  have hk : ksw_global2_spec 4 [0, 1, 2, 3] 4 [0, 1, 2, 3] 5 (bwa_fill_scmat 1 4) 6 1 6 1 0 =
      (4, [64]) := by decide
  refine ⟨?_, ?_, hk⟩
  · rw [h.1]
    decide
  · rw [h.2.1]
    decide

/-! ### C14, C15, C16: flattening the index and walking the region -/

/-- C14: at the index `example_index` (in `example_layout`) the round trip does not
reproduce the index.  `bwa_idx2mem` builds a region of 16 bytes and hands it to
`bwa_mem2idx`, whose walk expects two BWT structures: it ends with the cursor at 22, so
the assertion `k == l_mem` fails and no index is produced; on the way `bwt[0]` has
received the bytes `[1, 0]` of the annotation header as its header, and it has lost its
`bwt` and `sa`, while the original header of `bwt[0]` is `[1, 1]`. -/
theorem idx2mem_round_trip_example :
    bwa_idx2mem example_layout example_index = none ∧
    (bwa_idx2mem_region example_layout example_index).length = 16 ∧
    (bwa_mem2idx_walk example_layout (bwa_idx2mem_region example_layout example_index)
      { hdr := example_index.bwt0.hdr, bwt := none, sa := none }
      { hdr := example_index.bwt1.hdr, bwt := none, sa := none }).2 = 22 ∧
    (bwa_mem2idx_walk example_layout (bwa_idx2mem_region example_layout example_index)
      { hdr := example_index.bwt0.hdr, bwt := none, sa := none }
      { hdr := example_index.bwt1.hdr, bwt := none, sa := none }).1.bwt0 =
      { hdr := [1, 0], bwt := none, sa := none } ∧
    example_index.bwt0.hdr = [1, 1] := by
  decide

/-- C15: at the index `example_index` (in `example_layout`) the region built by
`bwa_idx2mem` holds the structure of `bwt[0]` only: it is 16 bytes long and goes from
the samples of `bwt[0]` straight to the annotation header, whereas the layout of the
claim, with the header `[2, 1]`, the eight bytes and the sample of `bwt[1]` after
`bwt[0]`, is 27 bytes long. -/
theorem idx2mem_layout_example :
    bwa_idx2mem_region example_layout example_index =
      [1, 1, 11, 12, 13, 14, 15, 1, 0, 4, 7, 99, 0, 0, 27, 0] ∧
    flatten_spec example_layout example_index =
      [1, 1, 11, 12, 13, 14, 15, 2, 1, 21, 22, 23, 24, 25, 26, 27, 28, 29,
        1, 0, 4, 7, 99, 0, 0, 27, 0] ∧
    (bwa_idx2mem_region example_layout example_index).length = 16 ∧
    (flatten_spec example_layout example_index).length = 27 := by
  decide

/-- C16: `bwa_mem2idx` never fills the header of `bwt[1]` from the region: after the
walk it is what the caller left there, and the second header of the region is in
`bwt[0]`.  On the 27 bytes laid out as `flatten_spec example_layout example_index`, with
both headers of the index zeroed before the call, the walk leaves the second header
`[2, 1]` in `bwt[0]` (with `bwt` and `sa` lost) and `[0, 0]` in `bwt[1]`, takes the
bytes `[21, 22, 23]` of the second bit-vector for the annotation header, and ends with
the cursor at 103, so the call with `l_mem = 27` fails its assertion.  The length check
itself is as claimed: the call succeeds exactly when the cursor equals `l_mem`. -/
theorem mem2idx_second_header_example (L : IndexLayout) (l_mem : Int) (mem : List Nat)
    (bwt0 bwt1 : FlatBwt) :
    (bwa_mem2idx_walk L mem bwt0 bwt1).1.bwt1.hdr = bwt1.hdr ∧
    ((bwa_mem2idx L l_mem mem bwt0 bwt1).isSome ↔
      ((bwa_mem2idx_walk L mem bwt0 bwt1).2 : Int) = l_mem) ∧
    (bwa_mem2idx_walk example_layout (flatten_spec example_layout example_index)
      { hdr := [0, 0], bwt := none, sa := none }
      { hdr := [0, 0], bwt := none, sa := none }).1.bwt0 =
      { hdr := [2, 1], bwt := none, sa := none } ∧
    (bwa_mem2idx_walk example_layout (flatten_spec example_layout example_index)
      { hdr := [0, 0], bwt := none, sa := none }
      { hdr := [0, 0], bwt := none, sa := none }).1.bwt1.hdr = [0, 0] ∧
    (bwa_mem2idx_walk example_layout (flatten_spec example_layout example_index)
      { hdr := [0, 0], bwt := none, sa := none }
      { hdr := [0, 0], bwt := none, sa := none }).1.bns = [21, 22, 23] ∧
    (bwa_mem2idx_walk example_layout (flatten_spec example_layout example_index)
      { hdr := [0, 0], bwt := none, sa := none }
      { hdr := [0, 0], bwt := none, sa := none }).2 = 103 ∧
    bwa_mem2idx example_layout 27 (flatten_spec example_layout example_index)
      { hdr := [0, 0], bwt := none, sa := none }
      { hdr := [0, 0], bwt := none, sa := none } = none := by
  refine ⟨rfl, ?_, by decide, by decide, by decide, by decide, by decide⟩
  unfold bwa_mem2idx
  by_cases h : ((bwa_mem2idx_walk L mem bwt0 bwt1).2 : Int) = l_mem
  · simp only [if_pos h, Option.isSome_some, true_iff]
    exact h
  · simp only [if_neg h, Option.isSome_none, Bool.false_eq_true]
    exact ⟨False.elim, h⟩

/-! ### C21, C22: the two routines side by side, and the query buffer -/

/-- C22: the caller's query buffer is left unchanged by `bwa_gen_cigar2` and
`bis_bwa_gen_cigar2` (the aligner is a function of its arguments and writes nothing):
for every input whose buffer holds the `l_query` cells, the contents of `query` after
the call are those before the call, on either strand, for an accepted or a rejected
window, on the fast or the general path, whichever pointers are set.  On every
rejection path the buffer is returned as it is (no reversal, whatever its size); on an
accepted forward-strand window too; on an accepted reverse-strand window it is the
in-place reversal applied twice. -/
theorem query_buffer_unchanged (fetch : Accessor) (ksw : Aligner) (mat : List Int)
    (o_del e_del o_ins e_ins w_ l_pac : Int) (pac : List Nat) (l_query : Int)
    (query : List Nat) (rb re : Int) (n_cigar NM : Bool) (parent : Nat) :
    (l_query ≤ (query.length : Int) →
      (bwa_gen_cigar2 fetch ksw mat o_del e_del o_ins e_ins w_ l_pac pac l_query query rb
        re n_cigar NM).query = query ∧
      (bis_bwa_gen_cigar2 fetch ksw mat o_del e_del o_ins e_ins w_ l_pac pac l_query query
        rb re n_cigar NM parent).query = query) ∧
    ((l_query ≤ 0 ∨ rb ≥ re ∨ (rb < l_pac ∧ re > l_pac)) ∨
        re - rb ≠ ((fetch l_pac pac rb re).length : Int) →
      (bwa_gen_cigar2 fetch ksw mat o_del e_del o_ins e_ins w_ l_pac pac l_query query rb
        re n_cigar NM).query = query ∧
      (bis_bwa_gen_cigar2 fetch ksw mat o_del e_del o_ins e_ins w_ l_pac pac l_query query
        rb re n_cigar NM parent).query = query) ∧
    (¬ (l_query ≤ 0 ∨ rb ≥ re ∨ (rb < l_pac ∧ re > l_pac)) →
      re - rb = ((fetch l_pac pac rb re).length : Int) → rb < l_pac →
      (bwa_gen_cigar2 fetch ksw mat o_del e_del o_ins e_ins w_ l_pac pac l_query query rb
        re n_cigar NM).query = query ∧
      (bis_bwa_gen_cigar2 fetch ksw mat o_del e_del o_ins e_ins w_ l_pac pac l_query query
        rb re n_cigar NM parent).query = query) ∧
    (¬ (l_query ≤ 0 ∨ rb ≥ re ∨ (rb < l_pac ∧ re > l_pac)) →
      re - rb = ((fetch l_pac pac rb re).length : Int) → rb ≥ l_pac →
      (bwa_gen_cigar2 fetch ksw mat o_del e_del o_ins e_ins w_ l_pac pac l_query query rb
        re n_cigar NM).query =
        reverse_inplace l_query.toNat (reverse_inplace l_query.toNat query) ∧
      (bis_bwa_gen_cigar2 fetch ksw mat o_del e_del o_ins e_ins w_ l_pac pac l_query query
        rb re n_cigar NM parent).query =
        reverse_inplace l_query.toNat (reverse_inplace l_query.toNat query)) := by
  obtain ⟨hb, hp⟩ := gen_cigar_query_after fetch ksw mat o_del e_del o_ins e_ins w_ l_pac pac
    l_query query rb re n_cigar NM parent
  rw [hb, hp]
  refine ⟨?_, ?_, ?_, ?_⟩
  · intro hbuf
    have hl : l_query.toNat ≤ query.length := by omega
    rw [reverse_inplace_twice _ _ hl]
    simp only [ite_self, and_self]
  · intro h
    rcases h with h | h
    · rw [if_pos h]
      exact ⟨rfl, rfl⟩
    · rw [if_pos h]
      simp only [ite_self, and_self]
  · intro hg hl hr
    have hl' : ¬ (re - rb ≠ ((fetch l_pac pac rb re).length : Int)) := fun h => h hl
    have hr' : ¬ (rb ≥ l_pac) := by omega
    rw [if_neg hg, if_neg hl', if_neg hr']
    exact ⟨rfl, rfl⟩
  · intro hg hl hr
    have hl' : ¬ (re - rb ≠ ((fetch l_pac pac rb re).length : Int)) := fun h => h hl
    rw [if_neg hg, if_neg hl', if_pos hr]
    exact ⟨rfl, rfl⟩

/-- Witness of C22: on the reverse-strand window `[8, 14)` of a reference with
`l_pac = 8` (general path, NM and MD computed) the query ACTGT is handed back as it
was, by both routines; for `l_query = 0` (a rejection) as well; and on the
forward-strand window `[0, 6)`. -/
theorem query_buffer_unchanged_witness :
    ((bwa_gen_cigar2 bns_get_seq (fixed_aligner (-9) [32, 17, 16, 34, 16])
      (bwa_fill_scmat 1 4) 6 1 6 1 5 8 [27, 27, 0] 5 [0, 1, 3, 2, 3] 8 14 true true).query =
      [0, 1, 3, 2, 3] ∧
    (bis_bwa_gen_cigar2 bns_get_seq (fixed_aligner (-9) [32, 17, 16, 34, 16])
      (bwa_fill_scmat 1 4) 6 1 6 1 5 8 [27, 27, 0] 5 [0, 1, 3, 2, 3] 8 14 true true 1).query =
      [0, 1, 3, 2, 3]) ∧
    ((bwa_gen_cigar2 bns_get_seq no_aligner (bwa_fill_scmat 1 4) 6 1 6 1 5 8 [27, 27, 0] 0
      [0, 1, 3, 2, 3] 0 6 true true).query = [0, 1, 3, 2, 3] ∧
    (bis_bwa_gen_cigar2 bns_get_seq no_aligner (bwa_fill_scmat 1 4) 6 1 6 1 5 8 [27, 27, 0] 0
      [0, 1, 3, 2, 3] 0 6 true true 1).query = [0, 1, 3, 2, 3]) ∧
    ((bwa_gen_cigar2 bns_get_seq (fixed_aligner (-9) [32, 17, 16, 34, 16])
      (bwa_fill_scmat 1 4) 6 1 6 1 5 8 [27, 27, 0] 5 [0, 1, 3, 2, 3] 0 6 true true).query =
      [0, 1, 3, 2, 3] ∧
    (bis_bwa_gen_cigar2 bns_get_seq (fixed_aligner (-9) [32, 17, 16, 34, 16])
      (bwa_fill_scmat 1 4) 6 1 6 1 5 8 [27, 27, 0] 5 [0, 1, 3, 2, 3] 0 6 true true 1).query =
      [0, 1, 3, 2, 3]) ∧
    ((bwa_gen_cigar2 bns_get_seq (fixed_aligner (-9) [32, 17, 16, 34, 16])
      (bwa_fill_scmat 1 4) 6 1 6 1 5 8 [27, 27, 0] 5 [0, 1, 3, 2, 3] 8 14 true true).query =
      reverse_inplace 5 (reverse_inplace 5 [0, 1, 3, 2, 3]) ∧
    (bis_bwa_gen_cigar2 bns_get_seq (fixed_aligner (-9) [32, 17, 16, 34, 16])
      (bwa_fill_scmat 1 4) 6 1 6 1 5 8 [27, 27, 0] 5 [0, 1, 3, 2, 3] 8 14 true true 1).query =
      reverse_inplace 5 (reverse_inplace 5 [0, 1, 3, 2, 3])) :=
  ⟨(query_buffer_unchanged bns_get_seq (fixed_aligner (-9) [32, 17, 16, 34, 16])
      (bwa_fill_scmat 1 4) 6 1 6 1 5 8 [27, 27, 0] 5 [0, 1, 3, 2, 3] 8 14 true true 1).1
      (by decide),
   (query_buffer_unchanged bns_get_seq no_aligner (bwa_fill_scmat 1 4) 6 1 6 1 5 8
      [27, 27, 0] 0 [0, 1, 3, 2, 3] 0 6 true true 1).2.1 (Or.inl (Or.inl (by decide))),
   (query_buffer_unchanged bns_get_seq (fixed_aligner (-9) [32, 17, 16, 34, 16])
      (bwa_fill_scmat 1 4) 6 1 6 1 5 8 [27, 27, 0] 5 [0, 1, 3, 2, 3] 0 6 true true 1).2.2.1
      (by decide) (by decide) (by decide),
   (query_buffer_unchanged bns_get_seq (fixed_aligner (-9) [32, 17, 16, 34, 16])
      (bwa_fill_scmat 1 4) 6 1 6 1 5 8 [27, 27, 0] 5 [0, 1, 3, 2, 3] 8 14 true true 1).2.2.2
      (by decide) (by decide) (by decide)⟩

/-- C21: the plain routine is the bisulfite routine with a classifier that never reports
a conversion.  For the same accessor, aligner, matrix, gap costs, band, query and
window, and either value of the parent flag, `bwa_gen_cigar2` and `bis_bwa_gen_cigar2`
return the same CIGAR and the same score (whichever pointers are set); when a result
with `NM` is produced, `NM_plain = NM_bisulfite + ZC`, where `ZC` is the number of
match-block positions that are the expected conversion; and when `ZC = 0` the two
routines produce the same `NM` and the same MD bytes. -/
theorem plain_is_bis_without_conversion (fetch : Accessor) (ksw : Aligner) (mat : List Int)
    (o_del e_del o_ins e_ins w_ l_pac : Int) (pac : List Nat) (l_query : Int)
    (query : List Nat) (rb re : Int) (n_cigar NM : Bool) (parent : Nat) (ops : List Nat)
    (h : (bwa_gen_cigar2 fetch ksw mat o_del e_del o_ins e_ins w_ l_pac pac l_query query rb
      re true true).cigar = some ops) :
    (bis_bwa_gen_cigar2 fetch ksw mat o_del e_del o_ins e_ins w_ l_pac pac l_query query rb
      re n_cigar NM parent).cigar =
      (bwa_gen_cigar2 fetch ksw mat o_del e_del o_ins e_ins w_ l_pac pac l_query query rb re
        n_cigar NM).cigar ∧
    (bis_bwa_gen_cigar2 fetch ksw mat o_del e_del o_ins e_ins w_ l_pac pac l_query query rb
      re n_cigar NM parent).score =
      (bwa_gen_cigar2 fetch ksw mat o_del e_del o_ins e_ins w_ l_pac pac l_query query rb re
        n_cigar NM).score ∧
    ∃ nm zc : Int,
      (bis_bwa_gen_cigar2 fetch ksw mat o_del e_del o_ins e_ins w_ l_pac pac l_query query
        rb re true true parent).NM = some nm ∧
      (bis_bwa_gen_cigar2 fetch ksw mat o_del e_del o_ins e_ins w_ l_pac pac l_query query
        rb re true true parent).ZC = some zc ∧
      zc = ((count_pairs (is_conversion parent) (oriented_query l_pac rb l_query query)
        (oriented_window l_pac rb (fetch l_pac pac rb re)) (match_pairs ops 0 0) : Nat) : Int) ∧
      (bwa_gen_cigar2 fetch ksw mat o_del e_del o_ins e_ins w_ l_pac pac l_query query rb re
        true true).NM = some (nm + zc) ∧
      (zc = 0 →
        (bwa_gen_cigar2 fetch ksw mat o_del e_del o_ins e_ins w_ l_pac pac l_query query rb
          re true true).NM =
          (bis_bwa_gen_cigar2 fetch ksw mat o_del e_del o_ins e_ins w_ l_pac pac l_query
            query rb re true true parent).NM ∧
        (bwa_gen_cigar2 fetch ksw mat o_del e_del o_ins e_ins w_ l_pac pac l_query query rb
          re true true).md =
          (bis_bwa_gen_cigar2 fetch ksw mat o_del e_del o_ins e_ins w_ l_pac pac l_query
            query rb re true true parent).md) := by
  have hb : (bis_bwa_gen_cigar2 fetch ksw mat o_del e_del o_ins e_ins w_ l_pac pac l_query
      query rb re true true parent).cigar = some ops := by
    rw [gen_cigar_same_cigar]
    exact h
  obtain ⟨hmd, hNM⟩ := bwa_gen_cigar2_some fetch ksw mat o_del e_del o_ins e_ins w_ l_pac pac
    l_query query rb re ops h
  obtain ⟨hmdb, hNMb, hZC, -⟩ := bis_bwa_gen_cigar2_some fetch ksw mat o_del e_del o_ins e_ins
    w_ l_pac pac l_query query rb re parent ops hb
  obtain ⟨p1, -, -, p4⟩ := nm_pass_counts
    (match_pos_counting (oriented_query l_pac rb l_query query)
      (oriented_window l_pac rb (fetch l_pac pac rb re)) (int2base rb l_pac))
    (oriented_window l_pac rb (fetch l_pac pac rb re)) (int2base rb l_pac) ops
  obtain ⟨b1, b2, -, b4⟩ := nm_pass_counts
    (bis_match_pos_counting parent (oriented_query l_pac rb l_query query)
      (oriented_window l_pac rb (fetch l_pac pac rb re)) (int2base rb l_pac))
    (oriented_window l_pac rb (fetch l_pac pac rb re)) (int2base rb l_pac) ops
  have hsplit := count_pairs_differs_split parent (oriented_query l_pac rb l_query query)
    (oriented_window l_pac rb (fetch l_pac pac rb re)) (match_pairs ops 0 0)
  unfold plain_pass at hNM hmd
  unfold bis_pass at hNMb hmdb hZC
  rw [p1, p4] at hNM
  rw [b1, b4] at hNMb
  rw [b2] at hZC
  have hsum : (bwa_gen_cigar2 fetch ksw mat o_del e_del o_ins e_ins w_ l_pac pac l_query query
      rb re true true).NM =
      some (((count_pairs (is_true_mismatch parent) (oriented_query l_pac rb l_query query)
        (oriented_window l_pac rb (fetch l_pac pac rb re)) (match_pairs ops 0 0) : Nat) : Int) +
        ((insertion_total ops : Nat) + (nonedge_deletion_total ops : Nat)) +
        ((count_pairs (is_conversion parent) (oriented_query l_pac rb l_query query)
        (oriented_window l_pac rb (fetch l_pac pac rb re)) (match_pairs ops 0 0) : Nat) : Int)) := by
    rw [hNM, hsplit]
    push_cast
    congr 1
    ring
  refine ⟨gen_cigar_same_cigar _ _ _ _ _ _ _ _ _ _ _ _ _ _ _ _ _, gen_cigar_same_score _ _ _ _
    _ _ _ _ _ _ _ _ _ _ _ _ _, _, _, hNMb, hZC, rfl, hsum, ?_⟩
  intro hz
  have hz' : count_pairs (is_conversion parent) (oriented_query l_pac rb l_query query)
      (oriented_window l_pac rb (fetch l_pac pac rb re)) (match_pairs ops 0 0) = 0 := by
    exact_mod_cast hz
  refine ⟨?_, ?_⟩
  · rw [hsum, hNMb, hz]
    simp
  · rw [hmd, hmdb,
      nm_pass_render (match_pos_emits (oriented_query l_pac rb l_query query)
        (oriented_window l_pac rb (fetch l_pac pac rb re)) (int2base rb l_pac)) ops,
      nm_pass_render (bis_match_pos_emits parent (oriented_query l_pac rb l_query query)
        (oriented_window l_pac rb (fetch l_pac pac rb re)) (int2base rb l_pac)) ops]
    congr 1
    apply render_congr
    intro q r hqr
    apply differs_eq_true_mismatch
    unfold count_pairs at hz'
    rw [List.countP_eq_zero] at hz'
    refine events_cmp_of_pairs _ _ _ (is_conversion parent) ops 0 0 0 ?_ q r hqr
    intro xy hxy
    have := hz' xy hxy
    simpa using this

/-- Witness of C21: query ATGT against the window ACGT on the fast path.  For the
parent strand the T over C is the expected conversion: `NM_plain = 1`,
`NM_bisulfite = 0`, `ZC = 1`.  For the daughter strand there is no conversion
(`ZC = 0`) and both routines give `NM = 1` and the same MD bytes. -/
theorem plain_is_bis_without_conversion_witness :
    (bwa_gen_cigar2 bns_get_seq no_aligner (bwa_fill_scmat 1 4) 6 1 6 1 0 4 [27, 0] 4
      [0, 3, 2, 3] 0 4 true true).NM = some (0 + 1) ∧
    (bis_bwa_gen_cigar2 bns_get_seq no_aligner (bwa_fill_scmat 1 4) 6 1 6 1 0 4 [27, 0] 4
      [0, 3, 2, 3] 0 4 true true 1).NM = some 0 ∧
    (bis_bwa_gen_cigar2 bns_get_seq no_aligner (bwa_fill_scmat 1 4) 6 1 6 1 0 4 [27, 0] 4
      [0, 3, 2, 3] 0 4 true true 1).ZC = some 1 ∧
    (bis_bwa_gen_cigar2 bns_get_seq no_aligner (bwa_fill_scmat 1 4) 6 1 6 1 0 4 [27, 0] 4
      [0, 3, 2, 3] 0 4 true true 0).ZC = some 0 ∧
    (bwa_gen_cigar2 bns_get_seq no_aligner (bwa_fill_scmat 1 4) 6 1 6 1 0 4 [27, 0] 4
      [0, 3, 2, 3] 0 4 true true).NM =
      (bis_bwa_gen_cigar2 bns_get_seq no_aligner (bwa_fill_scmat 1 4) 6 1 6 1 0 4 [27, 0] 4
        [0, 3, 2, 3] 0 4 true true 0).NM ∧
    (bwa_gen_cigar2 bns_get_seq no_aligner (bwa_fill_scmat 1 4) 6 1 6 1 0 4 [27, 0] 4
      [0, 3, 2, 3] 0 4 true true).md =
      (bis_bwa_gen_cigar2 bns_get_seq no_aligner (bwa_fill_scmat 1 4) 6 1 6 1 0 4 [27, 0] 4
        [0, 3, 2, 3] 0 4 true true 0).md ∧
    (bwa_gen_cigar2 bns_get_seq no_aligner (bwa_fill_scmat 1 4) 6 1 6 1 0 4 [27, 0] 4
      [0, 3, 2, 3] 0 4 true true).md = ['1', 'C', '2', nul] := by
  obtain ⟨-, -, nm, zc, h1, h2, -, h4, -⟩ := plain_is_bis_without_conversion bns_get_seq
    no_aligner (bwa_fill_scmat 1 4) 6 1 6 1 0 4 [27, 0] 4 [0, 3, 2, 3] 0 4 true true 1 [64]
    (by decide)
  obtain ⟨-, -, nm0, zc0, -, g2, -, -, g5⟩ := plain_is_bis_without_conversion bns_get_seq
    no_aligner (bwa_fill_scmat 1 4) 6 1 6 1 0 4 [27, 0] 4 [0, 3, 2, 3] 0 4 true true 0 [64]
    (by decide)
  have e1 : (bis_bwa_gen_cigar2 bns_get_seq no_aligner (bwa_fill_scmat 1 4) 6 1 6 1 0 4
      [27, 0] 4 [0, 3, 2, 3] 0 4 true true 1).NM = some 0 := by decide
  have e2 : (bis_bwa_gen_cigar2 bns_get_seq no_aligner (bwa_fill_scmat 1 4) 6 1 6 1 0 4
      [27, 0] 4 [0, 3, 2, 3] 0 4 true true 1).ZC = some 1 := by decide
  have e3 : (bis_bwa_gen_cigar2 bns_get_seq no_aligner (bwa_fill_scmat 1 4) 6 1 6 1 0 4
      [27, 0] 4 [0, 3, 2, 3] 0 4 true true 0).ZC = some 0 := by decide
  have hnm : nm = 0 := (Option.some.inj (h1.symm.trans e1))
  have hzc : zc = 1 := (Option.some.inj (h2.symm.trans e2))
  have hzc0 : zc0 = 0 := (Option.some.inj (g2.symm.trans e3))
  rw [hnm, hzc] at h4
  exact ⟨h4, e1, e2, e3, (g5 hzc0).1, (g5 hzc0).2, by decide⟩

/-! ### C23: the lengths that the MD text accounts for -/

/-- C23: MD length conservation, for both routines.  For every result over a window of
base codes `0..4` (whatever the operations of the CIGAR), the MD bytes are a text
followed by NUL; the text reads as a run count followed by items (a mismatch letter and
a run count, or `^`, deleted letters and a run count), so it ends with a run count; the
sum of all its run counts plus the number of its mismatch letters is the total length
of the match blocks, and the number of letters after `^` markers is the total length of
the deletion blocks that are neither first nor last.  The bytes are those appended
after the `n_cigar` packed operations, and `n_cigar` is the number of operations
returned. -/
theorem md_length_conservation (fetch : Accessor) (ksw : Aligner) (mat : List Int)
    (o_del e_del o_ins e_ins w_ l_pac : Int) (pac : List Nat) (l_query : Int)
    (query : List Nat) (rb re : Int) (parent : Nat) (ops : List Nat)
    (h : (bwa_gen_cigar2 fetch ksw mat o_del e_del o_ins e_ins w_ l_pac pac l_query query rb
      re true true).cigar = some ops)
    (hcodes : ∀ c ∈ fetch l_pac pac rb re, c < 5) :
    ((∃ t : MdTotals,
        md_totals (bwa_gen_cigar2 fetch ksw mat o_del e_del o_ins e_ins w_ l_pac pac l_query
          query rb re true true).md.dropLast = some t ∧
        t.runs + t.mismatches = match_total ops ∧
        t.deleted = nonedge_deletion_total ops) ∧
      (∃ (pre : List Char) (u : Nat),
        (bwa_gen_cigar2 fetch ksw mat o_del e_del o_ins e_ins w_ l_pac pac l_query query rb
          re true true).md = pre ++ kputw (u : Int) ++ [nul]) ∧
      (bwa_gen_cigar2 fetch ksw mat o_del e_del o_ins e_ins w_ l_pac pac l_query query rb re
        true true).n_cigar = some (ops.length : Int)) ∧
    ((bis_bwa_gen_cigar2 fetch ksw mat o_del e_del o_ins e_ins w_ l_pac pac l_query query rb
        re true true parent).cigar = some ops ∧
      (∃ t : MdTotals,
        md_totals (bis_bwa_gen_cigar2 fetch ksw mat o_del e_del o_ins e_ins w_ l_pac pac
          l_query query rb re true true parent).md.dropLast = some t ∧
        t.runs + t.mismatches = match_total ops ∧
        t.deleted = nonedge_deletion_total ops) ∧
      (∃ (pre : List Char) (u : Nat),
        (bis_bwa_gen_cigar2 fetch ksw mat o_del e_del o_ins e_ins w_ l_pac pac l_query query
          rb re true true parent).md = pre ++ kputw (u : Int) ++ [nul]) ∧
      (bis_bwa_gen_cigar2 fetch ksw mat o_del e_del o_ins e_ins w_ l_pac pac l_query query rb
        re true true parent).n_cigar = some (ops.length : Int)) := by
  have hb : (bis_bwa_gen_cigar2 fetch ksw mat o_del e_del o_ins e_ins w_ l_pac pac l_query
      query rb re true true parent).cigar = some ops := by
    rw [gen_cigar_same_cigar]
    exact h
  obtain ⟨hmd, -⟩ := bwa_gen_cigar2_some fetch ksw mat o_del e_del o_ins e_ins w_ l_pac pac
    l_query query rb re ops h
  obtain ⟨hmdb, -, -, -⟩ := bis_bwa_gen_cigar2_some fetch ksw mat o_del e_del o_ins e_ins w_
    l_pac pac l_query query rb re parent ops hb
  obtain ⟨hn, hnb⟩ := gen_cigar_n_cigar fetch ksw mat o_del e_del o_ins e_ins w_ l_pac pac
    l_query query rb re parent ops h
  unfold plain_pass at hmd
  unfold bis_pass at hmdb
  have hg := int2base_good rb l_pac
  have hl := int2base_letters rb l_pac
  have hlt := oriented_window_getD_lt l_pac rb _ hcodes
  obtain ⟨p1, p2⟩ := nm_pass_md_totals
    (match_pos_emits (oriented_query l_pac rb l_query query)
      (oriented_window l_pac rb (fetch l_pac pac rb re)) (int2base rb l_pac)) hg hl hlt ops
  obtain ⟨b1, b2⟩ := nm_pass_md_totals
    (bis_match_pos_emits parent (oriented_query l_pac rb l_query query)
      (oriented_window l_pac rb (fetch l_pac pac rb re)) (int2base rb l_pac)) hg hl hlt ops
  rw [← hmd] at p1 p2
  rw [← hmdb] at b1 b2
  exact ⟨⟨p1, p2, hn⟩, hb, b1, b2, hnb⟩

/-- Witness of C23: query ACTGT against the window ACGTAC with the operations
2M 1I 1M 2D 1M.  The MD text is `3^TA0C0`: run counts 3 + 0 + 0 and one mismatch
letter make the 4 match-block positions, and two letters follow the `^` of the
deletion block of length 2. -/
theorem md_length_conservation_witness :
    ((∃ t : MdTotals,
        md_totals (bwa_gen_cigar2 bns_get_seq (fixed_aligner (-9) [32, 17, 16, 34, 16])
          (bwa_fill_scmat 1 4) 6 1 6 1 5 8 [27, 27, 0] 5 [0, 1, 3, 2, 3] 0 6 true
          true).md.dropLast = some t ∧
        t.runs + t.mismatches = match_total [32, 17, 16, 34, 16] ∧
        t.deleted = nonedge_deletion_total [32, 17, 16, 34, 16]) ∧
      md_totals ['3', '^', 'T', 'A', '0', 'C', '0'] =
        some { runs := 3, mismatches := 1, deleted := 2 } ∧
      match_total [32, 17, 16, 34, 16] = 4 ∧
      nonedge_deletion_total [32, 17, 16, 34, 16] = 2 ∧
      (bwa_gen_cigar2 bns_get_seq (fixed_aligner (-9) [32, 17, 16, 34, 16])
        (bwa_fill_scmat 1 4) 6 1 6 1 5 8 [27, 27, 0] 5 [0, 1, 3, 2, 3] 0 6 true true).md =
        ['3', '^', 'T', 'A', '0', 'C', '0', nul]) :=
  ⟨(md_length_conservation bns_get_seq (fixed_aligner (-9) [32, 17, 16, 34, 16])
      (bwa_fill_scmat 1 4) 6 1 6 1 5 8 [27, 27, 0] 5 [0, 1, 3, 2, 3] 0 6 1
      [32, 17, 16, 34, 16] (by decide) (by decide)).1.1,
    by decide, by decide, by decide, by decide⟩

/-! ### C24: `bwa_escape` on a string that ends in a backslash -/

/-- C24: on the string `a\` (bytes 97, 92, NUL) `bwa_escape` does not stay inside the
string.  At the backslash it steps to the terminator, finds none of `t`, `n`, `r`, `\`
there, and the `++p` of the loop steps past the terminator.  With nothing but the
string in memory, the next read is outside it.  With the bytes `x`, `y`, `z`, NUL next
in memory, the routine reads on to offset 6 (the terminator is at offset 2), overwrites
the terminator and leaves the string `axyz` of length 4, longer than the input of
length 2.  On `a\tb` (no backslash before the terminator) it stops at the terminator,
offset 4, and leaves `a`, TAB, `b`. -/
theorem bwa_escape_trailing_backslash :
    bwa_escape [97, 92, 0] = none ∧
    bwa_escape [97, 92, 0, 120, 121, 122, 0] =
      some { mem := [97, 120, 121, 122, 0, 122, 0], last_read := 6 } ∧
    strlen_at [97, 92, 0, 120, 121, 122, 0] 0 = 2 ∧
    strlen_at [97, 120, 121, 122, 0, 122, 0] 0 = 4 ∧
    bwa_escape [97, 92, 116, 98, 0] = some { mem := [97, 9, 98, 0, 0], last_read := 4 } := by
  decide

end Bwa
